import Mathlib

/-! Dwa_Local_Planning: the sampling, rollout, scoring and selection core.

A shallow embedding of `src/src/dwa_planner.cpp` (class `DWAPlanner`).

* C++ `double` is an arbitrary linearly ordered field `α` with a floor function: arithmetic is
  exact, so every statement holds over `ℚ` (where the definitions evaluate) and over `ℝ` (where
  `cos`, `sin` and `sqrt` are the real functions).
* C++ `int` is `Int` and `unsigned int` is `Nat`, both without wrap-around; a conversion of a
  negative `int` to `unsigned int` is `Int.toNat`.
* Division is the field's: a division by a sample count of `0`, which gives an infinity or a NaN
  in IEEE arithmetic, is outside what the model describes.
* `std::vector` is `List`; a trajectory pose `{x, y, theta}` is a `Pose`, a plan waypoint (a vector
  read through `at(0)` and `at(1)`) is a pair.
* `while (true)` and the floating-point `for` loops take a `fuel : Nat` bounding the number of
  iterations of each loop; running out of fuel is reported, never silently turned into a result.
* A function returns `none` when it has no defined result: some loop ran out of fuel, or the C++
  reads `back()` of an empty vector.
-/

namespace DWAPlanner

/-! ## Data model -/

/-- The parameters the constructor reads with `nh.param` (dwa_planner.cpp, lines 16-29). -/
structure Config (α : Type) where
  max_vel_x : α
  min_vel_x : α
  max_vel_theta : α
  min_vel_theta : α
  acc_lim_x : α
  acc_lim_theta : α
  control_period : α
  path_distance_bias : α
  goal_distance_bias : α
  occdist_scale : α
  sim_time_samples : Int
  vx_samples : Int
  vth_samples : Int

/-- The default value of every parameter, as written in the constructor: `0.55`, `0.0`, `2.5`,
`-2.5`, `0.25`, `1.2`, `0.2`, `32.0`, `40.0`, `0.01`, `10`, `10`, `20`. -/
def defaultConfig (α : Type) [LinearOrderedField α] : Config α where
  max_vel_x := 55 / 100
  min_vel_x := 0
  max_vel_theta := 25 / 10
  min_vel_theta := -(25 / 10)
  acc_lim_x := 25 / 100
  acc_lim_theta := 12 / 10
  control_period := 2 / 10
  path_distance_bias := 32
  goal_distance_bias := 40
  occdist_scale := 1 / 100
  sim_time_samples := 10
  vx_samples := 10
  vth_samples := 20

/-- One entry `{pose_x, pose_y, pose_theta}` of a trajectory. -/
structure Pose (α : Type) where
  x : α
  y : α
  theta : α

/-- The functions of `<cmath>` the planner calls. -/
structure Cmath (α : Type) where
  cos : α → α
  sin : α → α
  sqrt : α → α

/-- What the planner calls but does not define: the math library, the footprint collision test
`costmap_model_->footprintCost`, and the `costmap_2d` object (`getCost`, `worldToMap`,
`getRobotPose`).  `uninit_start` and `uninit_goal` are the values the locals `start_mx, start_my`
and `goal_mx, goal_my` of `generateTrajectory` hold when `worldToMap` did not assign them. -/
structure Host (α : Type) where
  math : Cmath α
  footprintCost : α → α → α → α
  getCost : Nat → Nat → Nat
  worldToMapCell : α → α → Option (Nat × Nat)
  robotPose : α × α
  uninit_start : Nat × Nat
  uninit_goal : Nat × Nat

/-- The constant `costmap_2d::LETHAL_OBSTACLE`, `254` in the `costmap_2d` library. -/
def LETHAL_OBSTACLE : Nat := 254

/-- The constant `costmap_2d::FREE_SPACE`, `0` in the `costmap_2d` library. -/
def FREE_SPACE : Nat := 0

/-- The initial value `1e10` of `min_score` and of `dis2path`. -/
def bigScore (α : Type) [LinearOrderedField α] : α := 10 ^ 10

section Defs

variable {α : Type} [LinearOrderedField α]

/-! ## PathPruner -/

/-- The loop of `cutGlobalPlan` (lines 75-86): waypoints are copied until the first one whose
offset from the robot exceeds half the grid extent in both axes. -/
def cutGlobalPlan (global_plan : List (α × α)) (size_x size_y : Int)
    (robot_pose_x robot_pose_y : α) : List (α × α) :=
  match global_plan with
  | [] => []
  | p :: rest =>
    if |p.1 - robot_pose_x| > (size_x : α) / 2 ∧ |p.2 - robot_pose_y| > (size_y : α) / 2 then []
    else p :: cutGlobalPlan rest size_x size_y robot_pose_x robot_pose_y

/-! ## KinematicIntegrator -/

/-- The C++ conversion `int(d)` of a `double`: rounding toward zero. -/
def truncToInt [FloorRing α] (d : α) : Int :=
  if 0 ≤ d then ⌊d⌋ else ⌈d⌉

/-- The member `worldToMap` (lines 144-147). -/
def worldToMap [FloorRing α] (wx wy resolution origin_x origin_y : α) : Int × Int :=
  (truncToInt ((wx - origin_x) / resolution), truncToInt ((wy - origin_y) / resolution))

/-- The member `computeNewPose` (lines 149-155); the three updates read the heading before it is
advanced. -/
def computeNewPose (m : Cmath α) (cfg : Config α) (pose : Pose α) (vel_x vel_theta : α) :
    Pose α where
  x := pose.x + vel_x * m.cos pose.theta * cfg.control_period
  y := pose.y + vel_x * m.sin pose.theta * cfg.control_period
  theta := pose.theta + vel_theta * cfg.control_period

/-- The member `computeNewLinearVelocities` (lines 157-164). -/
def computeNewLinearVelocities (cfg : Config α) (target_vel current_vel acc_lim : α) : α :=
  if target_vel < current_vel then
    max target_vel (current_vel - acc_lim * cfg.control_period)
  else
    min target_vel (current_vel + acc_lim * cfg.control_period)

/-! ## ObstacleLookahead -/

/-- The `while (true)` loop of `bresenhamLine` (lines 278-284), from the state `(x0, y0, err)`.
Each iteration pushes the current cell, leaves when it is the target cell, and otherwise steps
in `x` when `e2 > -dx` and in `y` when `e2 < dy`.  `none` when `fuel` iterations did not reach
the `break`. -/
def bresenhamLoop (x1 y1 dx dy sx sy : Int) : Nat → Int → Int → Int → Option (List (Int × Int))
  | 0, _, _, _ => none
  | fuel + 1, x0, y0, err =>
    if x0 = x1 ∧ y0 = y1 then some [(x0, y0)]
    else
      let e2 := err
      let err1 := if e2 > -dx then err - dy else err
      let x0n := if e2 > -dx then x0 + sx else x0
      let err2 := if e2 < dy then err1 + dx else err1
      let y0n := if e2 < dy then y0 + sy else y0
      (bresenhamLoop x1 y1 dx dy sx sy fuel x0n y0n err2).map (fun rest => (x0, y0) :: rest)

/-- The member `bresenhamLine` (lines 272-286).  The C++ `/ 2` on `int` rounds toward zero. -/
def bresenhamLine (fuel : Nat) (x0 y0 x1 y1 : Int) : Option (List (Int × Int)) :=
  let dx := |x1 - x0|
  let sx : Int := if x0 < x1 then 1 else -1
  let dy := |y1 - y0|
  let sy : Int := if y0 < y1 then 1 else -1
  let err := Int.tdiv (if dx > dy then dx else -dy) 2
  bresenhamLoop x1 y1 dx dy sx sy fuel x0 y0 err

/-- The scan over `line_points` in `computeNewAngularVelocities` (lines 172-188), from the
current value of `obstacle_found`: a lethal cell sets the flag and leaves the loop, a free cell
clears it, any other cost leaves it as it is. -/
def scanLine (getCost : Nat → Nat → Nat) : List (Int × Int) → Bool → Bool
  | [], obstacle_found => obstacle_found
  | point :: rest, obstacle_found =>
    let cost := getCost point.1.toNat point.2.toNat
    if cost = LETHAL_OBSTACLE then true
    else if cost = FREE_SPACE then scanLine getCost rest false
    else scanLine getCost rest obstacle_found

/-- The member `computeNewAngularVelocities` (lines 166-203): the acceleration-limited value, and
that value times `1.5` when the scan found no obstacle. -/
def computeNewAngularVelocities (fuel : Nat) (getCost : Nat → Nat → Nat) (cfg : Config α)
    (target_vel current_vel acc_lim : α) (start_mx start_my goal_mx goal_my : Nat) : Option α :=
  (bresenhamLine fuel start_mx start_my goal_mx goal_my).map fun line_points =>
    let obstacle_found := scanLine getCost line_points false
    if obstacle_found then
      if target_vel < current_vel then
        max target_vel (current_vel - acc_lim * cfg.control_period)
      else
        min target_vel (current_vel + acc_lim * cfg.control_period)
    else
      if target_vel < current_vel then
        max target_vel (current_vel - acc_lim * cfg.control_period) * (15 / 10)
      else
        min target_vel (current_vel + acc_lim * cfg.control_period) * (15 / 10)

/-! ## TrajectoryRollout -/

/-- The `for` loop of `generateTrajectory` (lines 136-141) with `n` iterations left, from the
state `(pose, vel_x, vel_theta)`; returns the poses it pushes. -/
def rolloutLoop (fuel : Nat) (m : Cmath α) (getCost : Nat → Nat → Nat) (cfg : Config α)
    (sample_vel_x sample_vel_theta : α) (start_mx start_my goal_mx goal_my : Nat) : Nat → Pose α → α → α → Option (List (Pose α))
  | 0, _, _, _ => some []
  | n + 1, pose, vel_x, vel_theta =>
    let vel_x1 := computeNewLinearVelocities cfg sample_vel_x vel_x cfg.acc_lim_x
    match computeNewAngularVelocities fuel getCost cfg sample_vel_theta vel_theta cfg.acc_lim_theta
        start_mx start_my goal_mx goal_my with
    | none => none
    | some vel_theta1 =>
      let pose1 := computeNewPose m cfg pose vel_x1 vel_theta1
      (rolloutLoop fuel m getCost cfg sample_vel_x sample_vel_theta start_mx start_my goal_mx
        goal_my n pose1 vel_x1 vel_theta1).map (fun rest => pose1 :: rest)

/-- The cells `(start_mx, start_my)` and `(goal_mx, goal_my)` after the two `worldToMap` calls of
`generateTrajectory` (lines 131-134).  The `||` does not evaluate the second call when the first
fails, and a failing call assigns nothing. -/
def lookaheadCells (h : Host α) (goal : α × α) : (Nat × Nat) × (Nat × Nat) :=
  match h.worldToMapCell h.robotPose.1 h.robotPose.2 with
  | none => (h.uninit_start, h.uninit_goal)
  | some start =>
    match h.worldToMapCell goal.1 goal.2 with
    | none => (start, h.uninit_goal)
    | some g => (start, g)

/-- The member `generateTrajectory` (lines 111-142): the content of `traj` afterwards.
`transformed_plan` holds the positions of the plan poses; `none` when it is empty (`back()`). -/
def generateTrajectory (fuel : Nat) (h : Host α) (cfg : Config α)
    (robot_vel_x robot_vel_theta robot_pose_x robot_pose_y robot_pose_theta : α)
    (sample_vel_x sample_vel_theta : α) (traj : List (Pose α))
    (transformed_plan : List (α × α)) : Option (List (Pose α)) :=
  match transformed_plan.getLast? with
  | none => none
  | some goal =>
    let cells := lookaheadCells h goal
    (rolloutLoop fuel h.math h.getCost cfg sample_vel_x sample_vel_theta cells.1.1 cells.1.2
      cells.2.1 cells.2.2 cfg.sim_time_samples.toNat ⟨robot_pose_x, robot_pose_y, robot_pose_theta⟩
      robot_vel_x robot_vel_theta).map (fun poses => traj ++ poses)

/-! ## FeasibilityFilter -/

/-- The member `isPathFeasible` (lines 222-233): the index loop visits the poses in order and
returns `false` at the first one whose footprint cost is `-1`.  On the empty path
`look_ahead_idx` is `-1`, no pose is visited and the result is `true`. -/
def isPathFeasible (footprintCost : α → α → α → α) : List (Pose α) → Bool
  | [] => true
  | p :: rest =>
    if footprintCost p.x p.y p.theta = -1 then false else isPathFeasible footprintCost rest

/-! ## TrajectoryScorer -/

/-- The planar distance `sqrt(pow(ax - bx, 2) + pow(ay - by, 2))` written out twice in
`scoreTrajectory`. -/
def planarDist (m : Cmath α) (ax ay bx b_y : α) : α :=
  m.sqrt ((ax - bx) ^ 2 + (ay - b_y) ^ 2)

/-- The first loop of `scoreTrajectory` (lines 94-97), from the current value of `occupy`. -/
def occupyLoop [FloorRing α] (costmap : Int → Int → Nat) (resolution origin_x origin_y : α) :
    List (Pose α) → Int → Int
  | [], occupy => occupy
  | p :: rest, occupy =>
    let m := worldToMap p.x p.y resolution origin_x origin_y
    occupyLoop costmap resolution origin_x origin_y rest (max ((costmap m.1 m.2 : Int) - 0) occupy)

/-- The second loop of `scoreTrajectory` (lines 104-106), from the current value of
`dis2path`. -/
def dis2pathLoop (m : Cmath α) (end_pose : Pose α) : List (α × α) → α → α
  | [], dis2path => dis2path
  | p :: rest, dis2path =>
    dis2pathLoop m end_pose rest (min (planarDist m end_pose.x end_pose.y p.1 p.2) dis2path)

/-- The member `scoreTrajectory` (lines 88-109).  `costmap` is the raw array `costmap[mx][my]`,
taken as a function of the two indices.  `none` when `traj` or `global_plan` is empty
(`back()`). -/
def scoreTrajectory [FloorRing α] (m : Cmath α) (cfg : Config α) (traj : List (Pose α))
    (size_x size_y : Int) (resolution origin_x origin_y : α) (global_plan : List (α × α))
    (costmap : Int → Int → Nat) : Option α :=
  let occupy := occupyLoop costmap resolution origin_x origin_y traj 0
  match traj.getLast?, global_plan.getLast? with
  | some end_pose, some local_end_pose =>
    let dis2end := planarDist m end_pose.x end_pose.y local_end_pose.1 local_end_pose.2
    let dis2path := dis2pathLoop m end_pose global_plan (bigScore α)
    some (cfg.occdist_scale * (occupy : α) + cfg.goal_distance_bias * dis2end
      + cfg.path_distance_bias * dis2path)
  | _, _ => none

/-- The cost the costmap holds at the cell of a pose, as the first loop of `scoreTrajectory`
reads it: `costmap[mx][my]` after `worldToMap`. -/
def poseCost [FloorRing α] (costmap : Int → Int → Nat) (resolution origin_x origin_y : α)
    (p : Pose α) : Int :=
  (costmap (worldToMap p.x p.y resolution origin_x origin_y).1
    (worldToMap p.x p.y resolution origin_x origin_y).2 : Int)

/-! ## VelocitySampler -/

/-- The lower end `min_vel_x` of the clamped linear window (line 208). -/
def windowMinX (cfg : Config α) (robot_vel_x : α) : α :=
  max cfg.min_vel_x (robot_vel_x - cfg.acc_lim_x * cfg.control_period)

/-- The upper end `max_vel_x` of the clamped linear window (line 209). -/
def windowMaxX (cfg : Config α) (robot_vel_x : α) : α :=
  min cfg.max_vel_x (robot_vel_x + cfg.acc_lim_x * cfg.control_period)

/-- The lower end `min_vel_theta` of the clamped angular window (line 210). -/
def windowMinTheta (cfg : Config α) (robot_vel_theta : α) : α :=
  max cfg.min_vel_theta (robot_vel_theta - cfg.acc_lim_theta * cfg.control_period)

/-- The upper end `max_vel_theta` of the clamped angular window (line 211). -/
def windowMaxTheta (cfg : Config α) (robot_vel_theta : α) : α :=
  min cfg.max_vel_theta (robot_vel_theta + cfg.acc_lim_theta * cfg.control_period)

/-- The inner `for` loop of `samplePotentialVels` (line 214) from the value `w`: the pairs it
pushes, and whether it left the loop within `fuel` iterations. -/
def sampleInner (v max_vel_theta step : α) : Nat → α → List (α × α) × Bool
  | 0, _ => ([], false)
  | fuel + 1, w =>
    if w ≤ max_vel_theta then
      let r := sampleInner v max_vel_theta step fuel (w + step)
      ((v, w) :: r.1, r.2)
    else ([], true)

/-- The outer `for` loop of `samplePotentialVels` (line 213) from the value `v`: the pairs
pushed, and whether both loops were left; each run of the inner loop gets `fuel` iterations. -/
def sampleOuter (fuel : Nat) (max_vel_x step_x min_vel_theta max_vel_theta step_theta : α) :
    Nat → α → List (α × α) × Bool
  | 0, _ => ([], false)
  | n + 1, v =>
    if v ≤ max_vel_x then
      let r := sampleInner v max_vel_theta step_theta fuel min_vel_theta
      if r.2 then
        let r2 := sampleOuter fuel max_vel_x step_x min_vel_theta max_vel_theta step_theta n
          (v + step_x)
        (r.1 ++ r2.1, r2.2)
      else (r.1, false)
    else ([], true)

/-- The pairs `samplePotentialVels` (lines 205-220) has pushed to an empty `sample_vels` when
each loop is given `fuel` iterations, and whether the loops were left. -/
def sampleTrace (fuel : Nat) (cfg : Config α) (robot_vel_x robot_vel_theta : α) :
    List (α × α) × Bool :=
  let min_vel_x := windowMinX cfg robot_vel_x
  let max_vel_x := windowMaxX cfg robot_vel_x
  let min_vel_theta := windowMinTheta cfg robot_vel_theta
  let max_vel_theta := windowMaxTheta cfg robot_vel_theta
  sampleOuter fuel max_vel_x ((max_vel_x - min_vel_x) / (cfg.vx_samples : α))
    min_vel_theta max_vel_theta ((max_vel_theta - min_vel_theta) / (cfg.vth_samples : α))
    fuel min_vel_x

/-- The member `samplePotentialVels` called on an empty `sample_vels`: the returned flag
`!sample_vels.empty()` and the candidates; `none` when the loops do not end within `fuel`. -/
def samplePotentialVels (fuel : Nat) (cfg : Config α) (robot_vel_x robot_vel_theta : α) :
    Option (Bool × List (α × α)) :=
  let r := sampleTrace fuel cfg robot_vel_x robot_vel_theta
  if r.2 then some (!r.1.isEmpty, r.1) else none

/-- The closed form of the candidate list: `mv` linear values from `v0` in steps of `step_x`
(outer loop), each with `mw` angular values from `w0` in steps of `step_theta` (inner loop), in
the order the nested loops push them. -/
def sampleGrid (mv mw : Nat) (v0 step_x w0 step_theta : α) : List (α × α) :=
  (List.range mv).flatMap fun i : Nat =>
    (List.range mw).map fun j : Nat => (v0 + i * step_x, w0 + j * step_theta)

/-! ## CommandSelector -/

/-- The `while` loop of `computeVelocityCommands` (lines 50-69) over the remaining candidates,
from the state `(min_score, cmd_vel_x, cmd_vel_theta)`. -/
def selectLoop [FloorRing α] (fuel : Nat) (h : Host α) (cfg : Config α)
    (robot_vel_x robot_vel_theta robot_pose_x robot_pose_y robot_pose_theta : α)
    (pruned_global_plan : List (α × α)) (costmap : Int → Int → Nat) (size_x size_y : Int)
    (resolution origin_x origin_y : α) (transformed_plan : List (α × α)) :
    List (α × α) → α × α × α → Option (α × α × α)
  | [], st => some st
  | it :: rest, st =>
    match generateTrajectory fuel h cfg robot_vel_x robot_vel_theta robot_pose_x robot_pose_y
        robot_pose_theta it.1 it.2 [] transformed_plan with
    | none => none
    | some traj =>
      if !isPathFeasible h.footprintCost traj then
        selectLoop fuel h cfg robot_vel_x robot_vel_theta robot_pose_x robot_pose_y
          robot_pose_theta pruned_global_plan costmap size_x size_y resolution origin_x origin_y
          transformed_plan rest st
      else
        match scoreTrajectory h.math cfg traj size_x size_y resolution origin_x origin_y
            pruned_global_plan costmap with
        | none => none
        | some score =>
          selectLoop fuel h cfg robot_vel_x robot_vel_theta robot_pose_x robot_pose_y
            robot_pose_theta pruned_global_plan costmap size_x size_y resolution origin_x origin_y
            transformed_plan rest (if score < st.1 then (score, it.1, it.2) else st)

/-- What one pass of the loop of `computeVelocityCommands` finds for the candidate `it`:
`some none` when its trajectory fails `isPathFeasible` (the `continue`), `some (some score)` when
it passes and `scoreTrajectory` returns `score`, `none` when the rollout or the score has no
defined result. -/
def evalCandidate [FloorRing α] (fuel : Nat) (h : Host α) (cfg : Config α)
    (robot_vel_x robot_vel_theta robot_pose_x robot_pose_y robot_pose_theta : α)
    (pruned_global_plan : List (α × α)) (costmap : Int → Int → Nat) (size_x size_y : Int)
    (resolution origin_x origin_y : α) (transformed_plan : List (α × α)) (it : α × α) :
    Option (Option α) :=
  match generateTrajectory fuel h cfg robot_vel_x robot_vel_theta robot_pose_x robot_pose_y
      robot_pose_theta it.1 it.2 [] transformed_plan with
  | none => none
  | some traj =>
    if !isPathFeasible h.footprintCost traj then some none
    else
      match scoreTrajectory h.math cfg traj size_x size_y resolution origin_x origin_y
          pruned_global_plan costmap with
      | none => none
      | some score => some (some score)

/-- The member `computeVelocityCommands` (lines 34-73): the returned flag and the content of
`cmd_vel_x`, `cmd_vel_theta` afterwards, given their content before the call.  The published
`path_all` is not part of the result. -/
def computeVelocityCommands [FloorRing α] (fuel : Nat) (h : Host α) (cfg : Config α)
    (robot_vel_x robot_vel_theta robot_pose_x robot_pose_y robot_pose_theta : α)
    (global_plan : List (α × α)) (costmap : Int → Int → Nat) (size_x size_y : Int)
    (resolution origin_x origin_y : α) (cmd_vel_x cmd_vel_theta : α)
    (transformed_plan : List (α × α)) : Option (Bool × α × α) :=
  match samplePotentialVels fuel cfg robot_vel_x robot_vel_theta with
  | none => none
  | some (false, _) => some (false, cmd_vel_x, cmd_vel_theta)
  | some (true, sample_vels) =>
    let pruned_global_plan := cutGlobalPlan global_plan size_x size_y robot_pose_x robot_pose_y
    (selectLoop fuel h cfg robot_vel_x robot_vel_theta robot_pose_x robot_pose_y robot_pose_theta
      pruned_global_plan costmap size_x size_y resolution origin_x origin_y transformed_plan
      sample_vels (bigScore α, cmd_vel_x, cmd_vel_theta)).map
      (fun st => (true, st.2.1, st.2.2))

/-! ## Closed forms

Definitions the theorems use to describe what the loops above compute. -/

/-- The value `computeNewAngularVelocities` returns (lines 190-202) once the scan has given
`obstacle_found`. -/
def angularUpdate (obstacle_found : Bool) (cfg : Config α) (target_vel current_vel acc_lim : α) :
    α :=
  if obstacle_found then
    if target_vel < current_vel then
      max target_vel (current_vel - acc_lim * cfg.control_period)
    else
      min target_vel (current_vel + acc_lim * cfg.control_period)
  else
    if target_vel < current_vel then
      max target_vel (current_vel - acc_lim * cfg.control_period) * (15 / 10)
    else
      min target_vel (current_vel + acc_lim * cfg.control_period) * (15 / 10)

/-- The poses the loop of `generateTrajectory` pushes in `n` iterations from the state
`(pose, vel_x, vel_theta)`, given the flag `obstacle_found` every call of
`computeNewAngularVelocities` finds. -/
def rolloutPoses (m : Cmath α) (cfg : Config α) (obstacle_found : Bool)
    (sample_vel_x sample_vel_theta : α) : Nat → Pose α → α → α → List (Pose α)
  | 0, _, _, _ => []
  | n + 1, pose, vel_x, vel_theta =>
    let vel_x1 := computeNewLinearVelocities cfg sample_vel_x vel_x cfg.acc_lim_x
    let vel_theta1 := angularUpdate obstacle_found cfg sample_vel_theta vel_theta cfg.acc_lim_theta
    let pose1 := computeNewPose m cfg pose vel_x1 vel_theta1
    pose1 :: rolloutPoses m cfg obstacle_found sample_vel_x sample_vel_theta n pose1 vel_x1
      vel_theta1

/-- The poses of `n` steps of `computeNewPose` under constant velocities `(v, w)`. -/
def unicyclePoses (m : Cmath α) (cfg : Config α) (v w : α) : Nat → Pose α → List (Pose α)
  | 0, _ => []
  | n + 1, pose =>
    computeNewPose m cfg pose v w :: unicyclePoses m cfg v w n (computeNewPose m cfg pose v w)

/-- The number of iterations the loop of `bresenhamLine` needs between the two cells
`generateTrajectory` hands to `computeNewAngularVelocities`. -/
def lookaheadFuel (cells : (Nat × Nat) × (Nat × Nat)) : Nat :=
  max ((cells.2.1 : Int) - (cells.1.1 : Int)).natAbs
    ((cells.2.2 : Int) - (cells.1.2 : Int)).natAbs + 1

/-- The score `scoreTrajectory` gives a trajectory ending at the pose `e` on a grid whose cells
are all free, `g` being the last waypoint of the pruned path `plan`. -/
def freeScore (m : Cmath α) (cfg : Config α) (e : Pose α) (plan : List (α × α)) (g : α × α) : α :=
  cfg.occdist_scale * ((0 : Int) : α) + cfg.goal_distance_bias * planarDist m e.x e.y g.1 g.2
    + cfg.path_distance_bias * dis2pathLoop m e plan (bigScore α)

/-- The end pose of the rollout of the candidate `(v, w)` from rest at the pose `(0, 0, 0)` in
the default configuration on a grid without lethal cells: ten unicycle steps at `(v, 1.5·w)`. -/
def restEndPose (m : Cmath α) (v w : α) : Pose α :=
  ⟨0 + ∑ j in Finset.range 10,
      v * m.cos (0 + (j : α) * (w * (15 / 10) * (defaultConfig α).control_period))
        * (defaultConfig α).control_period,
    0 + ∑ j in Finset.range 10,
      v * m.sin (0 + (j : α) * (w * (15 / 10) * (defaultConfig α).control_period))
        * (defaultConfig α).control_period,
    0 + ((10 : Nat) : α) * (w * (15 / 10) * (defaultConfig α).control_period)⟩

/-! ## Closed forms for the line and the scan -/

/-- The plain predicate the scan is compared with: some cell of the line has the lethal
cost. -/
def anyLethal (getCost : Nat → Nat → Nat) (line : List (Int × Int)) : Bool :=
  line.any fun p => getCost p.1.toNat p.2.toNat == LETHAL_OBSTACLE

/-- The index along the minor axis of the `i`-th cell of a line whose extent is `n` along its
major axis and `m` along its minor axis: `⌈(i·m - ⌊n/2⌋) / n⌉`. -/
def minorIndex (n m i : Int) : Int :=
  (i * m - n / 2 + n - 1) / n

/-- The closed form of the line of `bresenhamLine`: one cell per step along the major axis,
`minorIndex` steps along the minor axis. -/
def bresenhamCells (x0 y0 x1 y1 : Int) : List (Int × Int) :=
  let dx := |x1 - x0|
  let sx : Int := if x0 < x1 then 1 else -1
  let dy := |y1 - y0|
  let sy : Int := if y0 < y1 then 1 else -1
  if dx > dy then
    (List.range (dx.toNat + 1)).map fun i : Nat => (x0 + sx * i, y0 + sy * minorIndex dx dy i)
  else
    (List.range (dy.toNat + 1)).map fun i : Nat => (x0 + sx * minorIndex dy dx i, y0 + sy * i)

end Defs

/-! # Theorems -/

section Theorems

variable {α : Type} [LinearOrderedField α]

/-! ## KinematicIntegrator -/

/-- Claim C6: for an acceleration limit `a > 0` and a period `T > 0`, the value `r` returned by
`computeNewLinearVelocities(target, current, a)` lies in `[current - a·T, current + a·T]`, lies
between `current` and `target`, and equals `target` exactly when `|target - current| ≤ a·T`. -/
theorem computeNewLinearVelocities_window (cfg : Config α) (target_vel current_vel acc_lim : α)
    (ha : 0 < acc_lim) (hT : 0 < cfg.control_period) :
    current_vel - acc_lim * cfg.control_period
        ≤ computeNewLinearVelocities cfg target_vel current_vel acc_lim
      ∧ computeNewLinearVelocities cfg target_vel current_vel acc_lim
        ≤ current_vel + acc_lim * cfg.control_period
      ∧ min current_vel target_vel ≤ computeNewLinearVelocities cfg target_vel current_vel acc_lim
      ∧ computeNewLinearVelocities cfg target_vel current_vel acc_lim ≤ max current_vel target_vel
      ∧ (computeNewLinearVelocities cfg target_vel current_vel acc_lim = target_vel
          ↔ |target_vel - current_vel| ≤ acc_lim * cfg.control_period) := by
  have hstep : 0 < acc_lim * cfg.control_period := mul_pos ha hT
  unfold computeNewLinearVelocities
  split_ifs with hlt
  · have habs : |target_vel - current_vel| = current_vel - target_vel := by
      rw [abs_of_neg (by linarith)]; ring
    rw [habs]
    rcases le_total target_vel (current_vel - acc_lim * cfg.control_period) with hc | hc
    · rw [max_eq_right hc, min_eq_right hlt.le, max_eq_left hlt.le]
      refine ⟨le_refl _, by linarith, hc, by linarith, ?_⟩
      constructor
      · intro he; linarith
      · intro hle; linarith
    · rw [max_eq_left hc, min_eq_right hlt.le, max_eq_left hlt.le]
      refine ⟨hc, by linarith, le_refl _, hlt.le, ?_⟩
      constructor
      · intro _; linarith
      · intro _; rfl
  · have hge : current_vel ≤ target_vel := not_lt.mp hlt
    have habs : |target_vel - current_vel| = target_vel - current_vel :=
      abs_of_nonneg (by linarith)
    rw [habs]
    rcases le_total target_vel (current_vel + acc_lim * cfg.control_period) with hc | hc
    · rw [min_eq_left hc, min_eq_left hge, max_eq_right hge]
      refine ⟨by linarith, hc, hge, le_refl _, ?_⟩
      constructor
      · intro _; linarith
      · intro _; rfl
    · rw [min_eq_right hc, min_eq_left hge, max_eq_right hge]
      refine ⟨by linarith, le_refl _, by linarith, hc, ?_⟩
      constructor
      · intro he; linarith
      · intro hle; linarith

/-- Claim C6, at the default period with `a = 1/4`, `target = 1`, `current = 0`: the
hypotheses hold and the result is `1/20 = a·T`, short of the target. -/
theorem computeNewLinearVelocities_window_witness :
    ((0 : ℚ) < 1 / 4 ∧ (0 : ℚ) < (defaultConfig ℚ).control_period)
      ∧ computeNewLinearVelocities (defaultConfig ℚ) 1 0 (1 / 4) = 1 / 20
      ∧ (computeNewLinearVelocities (defaultConfig ℚ) 1 0 (1 / 4) = 1
          ↔ |(1 : ℚ) - 0| ≤ 1 / 4 * (defaultConfig ℚ).control_period) :=
  ⟨⟨by norm_num, by norm_num [defaultConfig]⟩,
    by norm_num [computeNewLinearVelocities, defaultConfig],
    (computeNewLinearVelocities_window (defaultConfig ℚ) 1 0 (1 / 4) (by norm_num)
      (by norm_num [defaultConfig])).2.2.2.2⟩

/-! ## FeasibilityFilter -/

theorem isPathFeasible_eq_true_iff (footprintCost : α → α → α → α) (path : List (Pose α)) :
    isPathFeasible footprintCost path = true
      ↔ ∀ p ∈ path, footprintCost p.x p.y p.theta ≠ -1 := by
  induction path with
  | nil => simp [isPathFeasible]
  | cons q rest ih =>
    by_cases hq : footprintCost q.x q.y q.theta = -1
    · simp [isPathFeasible, hq]
    · simp [isPathFeasible, hq, ih]

/-- Claim C8: `isPathFeasible` returns `true` if and only if `footprintCost` differs from the
collision value `-1` at every pose of the trajectory, and a collision at one pose, wherever it
stands in the trajectory, makes it return `false` whatever the other poses give.  The embedding
takes the trajectory as an immutable value (the C++ takes it by `const` reference). -/
theorem isPathFeasible_iff_no_collision (footprintCost : α → α → α → α) :
    (∀ path : List (Pose α), isPathFeasible footprintCost path = true
        ↔ ∀ p ∈ path, footprintCost p.x p.y p.theta ≠ -1)
      ∧ (∀ (before after : List (Pose α)) (p : Pose α), footprintCost p.x p.y p.theta = -1 →
          isPathFeasible footprintCost (before ++ p :: after) = false) := by
  refine ⟨isPathFeasible_eq_true_iff footprintCost, fun before after p hp => ?_⟩
  rw [← Bool.not_eq_true, isPathFeasible_eq_true_iff]
  intro hall
  exact hall p (by simp) hp

/-! ## VelocitySampler -/

/-- The candidates one run of the inner loop pushes in `m` iterations. -/
theorem sampleInner_run (v max_vel_theta step : α) :
    ∀ (m fuel : Nat) (w : α), m + 1 ≤ fuel → (∀ k : Nat, k < m → w + k * step ≤ max_vel_theta) →
      max_vel_theta < w + m * step →
      sampleInner v max_vel_theta step fuel w
        = ((List.range m).map (fun k : Nat => (v, w + k * step)), true) := by
  intro m
  induction m with
  | zero =>
    intro fuel w hf _ hlast
    obtain ⟨f, rfl⟩ : ∃ f, fuel = f + 1 := ⟨fuel - 1, by omega⟩
    have : ¬ w ≤ max_vel_theta := by
      simp only [Nat.cast_zero, zero_mul, add_zero] at hlast
      exact not_le.mpr hlast
    simp [sampleInner, this]
  | succ m ih =>
    intro fuel w hf hin hlast
    obtain ⟨f, rfl⟩ : ∃ f, fuel = f + 1 := ⟨fuel - 1, by omega⟩
    have h0 : w ≤ max_vel_theta := by
      have := hin 0 (Nat.succ_pos m)
      simpa using this
    have hrec := ih f (w + step) (by omega)
      (fun k hk => by
        have := hin (k + 1) (by omega)
        push_cast at this
        linarith)
      (by push_cast at hlast; linarith)
    simp only [sampleInner, h0, if_true, hrec, List.range_succ_eq_map, List.map_cons,
      List.map_map]
    refine Prod.ext ?_ rfl
    simp only [Nat.cast_zero, zero_mul, add_zero, List.cons.injEq, true_and]
    apply List.map_congr_left
    intro k _
    simp only [Function.comp, Nat.succ_eq_add_one, Nat.cast_add, Nat.cast_one, Prod.mk.injEq, true_and]
    ring
theorem length_sampleGrid (mv mw : Nat) (v0 step_x w0 step_theta : α) :
    (sampleGrid mv mw v0 step_x w0 step_theta).length = mv * mw := by
  simp [sampleGrid, List.length_flatMap, Function.comp_def]

theorem sampleGrid_succ (mv mw : Nat) (v0 step_x w0 step_theta : α) :
    sampleGrid (mv + 1) mw v0 step_x w0 step_theta
      = (List.range mw).map (fun j : Nat => (v0, w0 + j * step_theta))
        ++ sampleGrid mv mw (v0 + step_x) step_x w0 step_theta := by
  simp only [sampleGrid, List.range_succ_eq_map, List.flatMap_cons, List.flatMap_map]
  congr 1
  · simp
  · apply List.flatMap_congr  
    intro i _
    apply List.map_congr_left
    intro j _
    simp only [Nat.succ_eq_add_one, Nat.cast_add, Nat.cast_one, Prod.mk.injEq, and_true]
    ring

theorem sampleOuter_run (fuel mw : Nat) (max_vel_x step_x min_vel_theta max_vel_theta step_theta : α)
    (hfuel : mw + 1 ≤ fuel)
    (hin : ∀ k : Nat, k < mw → min_vel_theta + k * step_theta ≤ max_vel_theta)
    (hlast : max_vel_theta < min_vel_theta + mw * step_theta) :
    ∀ (mv n : Nat) (v : α), mv + 1 ≤ n → (∀ k : Nat, k < mv → v + k * step_x ≤ max_vel_x) →
      max_vel_x < v + mv * step_x →
      sampleOuter fuel max_vel_x step_x min_vel_theta max_vel_theta step_theta n v
        = (sampleGrid mv mw v step_x min_vel_theta step_theta, true) := by
  intro mv
  induction mv with
  | zero =>
    intro n v hn _ hl
    obtain ⟨f, rfl⟩ : ∃ f, n = f + 1 := ⟨n - 1, by omega⟩
    have : ¬ v ≤ max_vel_x := by
      simp only [Nat.cast_zero, zero_mul, add_zero] at hl
      exact not_le.mpr hl
    simp [sampleOuter, this, sampleGrid]
  | succ mv ih =>
    intro n v hn hk hl
    obtain ⟨f, rfl⟩ : ∃ f, n = f + 1 := ⟨n - 1, by omega⟩
    have h0 : v ≤ max_vel_x := by
      have := hk 0 (Nat.succ_pos mv)
      simpa using this
    have hrec := ih f (v + step_x) (by omega)
      (fun k hk1 => by
        have := hk (k + 1) (by omega)
        push_cast at this
        linarith)
      (by push_cast at hl; linarith)
    simp only [sampleOuter, h0, if_true, sampleInner_run v max_vel_theta step_theta mw fuel
      min_vel_theta hfuel hin hlast, hrec, sampleGrid_succ]
theorem equal_steps_le (lo hi : α) (N : Nat) (hN : 0 < N) (hlt : lo < hi) (k : Nat)
    (hk : k < N + 1) : lo + k * ((hi - lo) / (N : α)) ≤ hi := by
  have hNpos : (0 : α) < N := by exact_mod_cast hN
  have hkN : (k : α) ≤ N := by exact_mod_cast Nat.lt_succ_iff.mp hk
  have h1 : (k : α) * ((hi - lo) / (N : α)) ≤ (N : α) * ((hi - lo) / (N : α)) :=
    mul_le_mul_of_nonneg_right hkN (div_nonneg (by linarith) hNpos.le)
  have h2 : (N : α) * ((hi - lo) / (N : α)) = hi - lo := by field_simp
  linarith

theorem equal_steps_gt (lo hi : α) (N : Nat) (hN : 0 < N) (hlt : lo < hi) :
    hi < lo + ((N + 1 : Nat) : α) * ((hi - lo) / (N : α)) := by
  have hNpos : (0 : α) < N := by exact_mod_cast hN
  have h2 : (N : α) * ((hi - lo) / (N : α)) = hi - lo := by field_simp
  have h3 : 0 < (hi - lo) / (N : α) := div_pos (by linarith) hNpos
  push_cast
  linarith

theorem sampleTrace_eq (cfg : Config α) (robot_vel_x robot_vel_theta : α)
    (hv : 0 < cfg.vx_samples) (hw : 0 < cfg.vth_samples)
    (hx : windowMinX cfg robot_vel_x < windowMaxX cfg robot_vel_x)
    (ht : windowMinTheta cfg robot_vel_theta < windowMaxTheta cfg robot_vel_theta)
    (fuel : Nat) (hfuel : max cfg.vx_samples.toNat cfg.vth_samples.toNat + 2 ≤ fuel) :
    sampleTrace fuel cfg robot_vel_x robot_vel_theta
      = (sampleGrid (cfg.vx_samples.toNat + 1) (cfg.vth_samples.toNat + 1)
          (windowMinX cfg robot_vel_x)
          ((windowMaxX cfg robot_vel_x - windowMinX cfg robot_vel_x) / (cfg.vx_samples : α))
          (windowMinTheta cfg robot_vel_theta)
          ((windowMaxTheta cfg robot_vel_theta - windowMinTheta cfg robot_vel_theta)
            / (cfg.vth_samples : α)), true) := by
  have hNv : ((cfg.vx_samples.toNat : Nat) : α) = (cfg.vx_samples : α) := by
    have : ((cfg.vx_samples.toNat : Nat) : Int) = cfg.vx_samples := Int.toNat_of_nonneg hv.le
    rw [← Int.cast_natCast, this]
  have hNw : ((cfg.vth_samples.toNat : Nat) : α) = (cfg.vth_samples : α) := by
    have : ((cfg.vth_samples.toNat : Nat) : Int) = cfg.vth_samples := Int.toNat_of_nonneg hw.le
    rw [← Int.cast_natCast, this]
  have hv0 : 0 < cfg.vx_samples.toNat := by omega
  have hw0 : 0 < cfg.vth_samples.toNat := by omega
  have hmax1 := le_max_left cfg.vx_samples.toNat cfg.vth_samples.toNat
  have hmax2 := le_max_right cfg.vx_samples.toNat cfg.vth_samples.toNat
  unfold sampleTrace
  simp only []
  rw [← hNv, ← hNw]
  exact sampleOuter_run fuel (cfg.vth_samples.toNat + 1) _ _ _ _ _ (by omega)
    (fun k hk => equal_steps_le _ _ _ hw0 ht k hk) (equal_steps_gt _ _ _ hw0 ht)
    (cfg.vx_samples.toNat + 1) fuel _ (by omega)
    (fun k hk => equal_steps_le _ _ _ hv0 hx k hk) (equal_steps_gt _ _ _ hv0 hx)

theorem sampleGrid_ne_nil (mv mw : Nat) (v0 step_x w0 step_theta : α) :
    (sampleGrid (mv + 1) (mw + 1) v0 step_x w0 step_theta).isEmpty = false := by
  cases hl : sampleGrid (mv + 1) (mw + 1) v0 step_x w0 step_theta with
  | nil =>
    have := length_sampleGrid (mv + 1) (mw + 1) v0 step_x w0 step_theta
    rw [hl] at this
    simp at this
  | cons a l => rfl

theorem samplePotentialVels_eq (cfg : Config α) (robot_vel_x robot_vel_theta : α)
    (hv : 0 < cfg.vx_samples) (hw : 0 < cfg.vth_samples)
    (hx : windowMinX cfg robot_vel_x < windowMaxX cfg robot_vel_x)
    (ht : windowMinTheta cfg robot_vel_theta < windowMaxTheta cfg robot_vel_theta)
    (fuel : Nat) (hfuel : max cfg.vx_samples.toNat cfg.vth_samples.toNat + 2 ≤ fuel) :
    samplePotentialVels fuel cfg robot_vel_x robot_vel_theta
      = some (true, sampleGrid (cfg.vx_samples.toNat + 1) (cfg.vth_samples.toNat + 1)
          (windowMinX cfg robot_vel_x)
          ((windowMaxX cfg robot_vel_x - windowMinX cfg robot_vel_x) / (cfg.vx_samples : α))
          (windowMinTheta cfg robot_vel_theta)
          ((windowMaxTheta cfg robot_vel_theta - windowMinTheta cfg robot_vel_theta)
            / (cfg.vth_samples : α))) := by
  unfold samplePotentialVels
  rw [sampleTrace_eq cfg robot_vel_x robot_vel_theta hv hw hx ht fuel hfuel]
  simp only [if_true, sampleGrid_ne_nil, Bool.not_false]

/-- Claim C3 (amended): for every current velocity and every configuration with positive sample
counts whose clamped window has positive extent in both axes (`min < max` for `v` and for `ω`),
`samplePotentialVels` returns, once the fuel covers `max N_v N_ω + 2` iterations, `true` and
exactly `(N_v + 1)·(N_ω + 1)` candidate pairs. -/
theorem samplePotentialVels_count (cfg : Config α) (robot_vel_x robot_vel_theta : α)
    (hv : 0 < cfg.vx_samples) (hw : 0 < cfg.vth_samples)
    (hx : max cfg.min_vel_x (robot_vel_x - cfg.acc_lim_x * cfg.control_period)
      < min cfg.max_vel_x (robot_vel_x + cfg.acc_lim_x * cfg.control_period))
    (ht : max cfg.min_vel_theta (robot_vel_theta - cfg.acc_lim_theta * cfg.control_period)
      < min cfg.max_vel_theta (robot_vel_theta + cfg.acc_lim_theta * cfg.control_period))
    (fuel : Nat) (hfuel : max cfg.vx_samples.toNat cfg.vth_samples.toNat + 2 ≤ fuel) :
    ∃ sample_vels, samplePotentialVels fuel cfg robot_vel_x robot_vel_theta
        = some (true, sample_vels)
      ∧ (sample_vels.length : Int) = (cfg.vx_samples + 1) * (cfg.vth_samples + 1) := by
  refine ⟨_, samplePotentialVels_eq cfg robot_vel_x robot_vel_theta hv hw hx ht fuel hfuel, ?_⟩
  rw [length_sampleGrid]
  push_cast
  rw [Int.toNat_of_nonneg hv.le, Int.toNat_of_nonneg hw.le]

/-- Claim C3 (amended), at the default configuration with the robot at rest: the hypotheses
hold and `11 · 21` pairs are returned. -/
theorem samplePotentialVels_count_witness :
    ∃ sample_vels, samplePotentialVels 22 (defaultConfig ℚ) 0 0 = some (true, sample_vels)
      ∧ (sample_vels.length : Int)
          = ((defaultConfig ℚ).vx_samples + 1) * ((defaultConfig ℚ).vth_samples + 1) :=
  samplePotentialVels_count (defaultConfig ℚ) 0 0 (by decide) (by decide)
    (by norm_num [defaultConfig]) (by norm_num [defaultConfig]) 22 (by decide)

/-- Claim C3 as stated fails: in the default configuration (sample counts `10` and `20`) with
the robot measured at `0.7 m/s`, above `max_vel_x + acc_lim_x·T`, the clamped linear window is
empty (`0.65 > 0.55`), the outer loop is never entered, and `samplePotentialVels` returns `false`
with no candidate instead of `11 · 21` pairs. -/
theorem samplePotentialVels_empty_window :
    ((0 : Int) < (defaultConfig ℚ).vx_samples ∧ (0 : Int) < (defaultConfig ℚ).vth_samples)
      ∧ (∀ fuel : Nat, samplePotentialVels (fuel + 1) (defaultConfig ℚ) (7 / 10) 0
          = some (false, []))
      ∧ ((([] : List (ℚ × ℚ)).length : Int)
          ≠ ((defaultConfig ℚ).vx_samples + 1) * ((defaultConfig ℚ).vth_samples + 1)) := by
  refine ⟨⟨by decide, by decide⟩, fun fuel => ?_, by decide⟩
  norm_num [samplePotentialVels, sampleTrace, sampleOuter, defaultConfig, windowMinX,
    windowMaxX]

theorem sampleInner_mem (v max_vel_theta step lo : α) (hstep : lo ≤ max_vel_theta → 0 ≤ step) :
    ∀ (fuel : Nat) (w : α), lo ≤ w →
      ∀ p ∈ (sampleInner v max_vel_theta step fuel w).1,
        p.1 = v ∧ lo ≤ p.2 ∧ p.2 ≤ max_vel_theta := by
  intro fuel
  induction fuel with
  | zero => intro w _ p hp; simp [sampleInner] at hp
  | succ f ih =>
    intro w hw p hp
    unfold sampleInner at hp
    split_ifs at hp with hle
    · simp only [List.mem_cons] at hp
      rcases hp with rfl | hp
      · exact ⟨rfl, hw, hle⟩
      · exact ih (w + step) (by have := hstep (hw.trans hle); linarith) p hp
    · simp at hp

theorem sampleOuter_mem (fuel : Nat) (max_vel_x step_x min_vel_theta max_vel_theta step_theta lo : α)
    (hx : lo ≤ max_vel_x → 0 ≤ step_x) (ht : min_vel_theta ≤ max_vel_theta → 0 ≤ step_theta) :
    ∀ (n : Nat) (v : α), lo ≤ v →
      ∀ p ∈ (sampleOuter fuel max_vel_x step_x min_vel_theta max_vel_theta step_theta n v).1,
        (lo ≤ p.1 ∧ p.1 ≤ max_vel_x) ∧ min_vel_theta ≤ p.2 ∧ p.2 ≤ max_vel_theta := by
  intro n
  induction n with
  | zero => intro v _ p hp; simp [sampleOuter] at hp
  | succ n ih =>
    intro v hv p hp
    unfold sampleOuter at hp
    by_cases hle : v ≤ max_vel_x
    · have hin := sampleInner_mem v max_vel_theta step_theta min_vel_theta ht fuel
        min_vel_theta le_rfl p
      by_cases hfin : (sampleInner v max_vel_theta step_theta fuel min_vel_theta).2 = true
      · simp only [hle, hfin, if_true, List.mem_append] at hp
        rcases hp with hp | hp
        · obtain ⟨h1, h2⟩ := hin hp
          exact ⟨by rw [h1]; exact ⟨hv, hle⟩, h2⟩
        · exact ih (v + step_x) (by have := hx (hv.trans hle); linarith) p hp
      · simp only [hle, hfin, if_true, if_false] at hp
        obtain ⟨h1, h2⟩ := hin hp
        exact ⟨by rw [h1]; exact ⟨hv, hle⟩, h2⟩
    · simp [hle] at hp

/-- Claim C4: with positive sample counts, acceleration limits `≥ 0` and period `T ≥ 0`, every
pair `(v, ω)` that `samplePotentialVels` pushes, within any number of iterations, lies within the
declared bounds `[min_vel_x, max_vel_x] × [min_vel_theta, max_vel_theta]` and within the dynamic
window `[robot_vel_x ± acc_lim_x·T] × [robot_vel_theta ± acc_lim_theta·T]`. -/
theorem samplePotentialVels_within_bounds (cfg : Config α) (robot_vel_x robot_vel_theta : α)
    (hv : 0 < cfg.vx_samples) (hw : 0 < cfg.vth_samples)
    (hax : 0 ≤ cfg.acc_lim_x) (hat : 0 ≤ cfg.acc_lim_theta) (hT : 0 ≤ cfg.control_period)
    (fuel : Nat) (p : α × α) (hp : p ∈ (sampleTrace fuel cfg robot_vel_x robot_vel_theta).1) :
    (cfg.min_vel_x ≤ p.1 ∧ p.1 ≤ cfg.max_vel_x)
      ∧ (cfg.min_vel_theta ≤ p.2 ∧ p.2 ≤ cfg.max_vel_theta)
      ∧ (robot_vel_x - cfg.acc_lim_x * cfg.control_period ≤ p.1
          ∧ p.1 ≤ robot_vel_x + cfg.acc_lim_x * cfg.control_period)
      ∧ (robot_vel_theta - cfg.acc_lim_theta * cfg.control_period ≤ p.2
          ∧ p.2 ≤ robot_vel_theta + cfg.acc_lim_theta * cfg.control_period) := by
  have hNv : (0 : α) < (cfg.vx_samples : α) := by exact_mod_cast hv
  have hNw : (0 : α) < (cfg.vth_samples : α) := by exact_mod_cast hw
  unfold sampleTrace at hp
  obtain ⟨⟨h1, h2⟩, h3, h4⟩ := sampleOuter_mem fuel _ _ _ _ _ _
    (fun hle => div_nonneg (sub_nonneg.mpr hle) hNv.le)
    (fun hle => div_nonneg (sub_nonneg.mpr hle) hNw.le) fuel _ le_rfl p hp
  refine ⟨⟨(le_max_left _ _).trans h1, h2.trans (min_le_left _ _)⟩,
    ⟨(le_max_left _ _).trans h3, h4.trans (min_le_left _ _)⟩,
    ⟨(le_max_right _ _).trans h1, h2.trans (min_le_right _ _)⟩,
    ⟨(le_max_right _ _).trans h3, h4.trans (min_le_right _ _)⟩⟩

/-- Claim C4, at the default configuration with the robot at rest: the hypotheses hold, the
pair `(0, -0.24)` is pushed, and it lies within the bounds. -/
theorem samplePotentialVels_within_bounds_witness :
    ((0 : ℚ), -(6 / 25 : ℚ)) ∈ (sampleTrace 1 (defaultConfig ℚ) 0 0).1
      ∧ ((defaultConfig ℚ).min_vel_x ≤ 0 ∧ (0 : ℚ) ≤ (defaultConfig ℚ).max_vel_x)
      ∧ ((defaultConfig ℚ).min_vel_theta ≤ -(6 / 25) ∧ -(6 / 25 : ℚ) ≤ (defaultConfig ℚ).max_vel_theta)
      ∧ ((0 : ℚ) - (defaultConfig ℚ).acc_lim_x * (defaultConfig ℚ).control_period ≤ 0
          ∧ (0 : ℚ) ≤ 0 + (defaultConfig ℚ).acc_lim_x * (defaultConfig ℚ).control_period)
      ∧ ((0 : ℚ) - (defaultConfig ℚ).acc_lim_theta * (defaultConfig ℚ).control_period ≤ -(6 / 25)
          ∧ -(6 / 25 : ℚ)
            ≤ 0 + (defaultConfig ℚ).acc_lim_theta * (defaultConfig ℚ).control_period) :=
  have hmem : ((0 : ℚ), -(6 / 25 : ℚ)) ∈ (sampleTrace 1 (defaultConfig ℚ) 0 0).1 := by
    norm_num [sampleTrace, sampleOuter, sampleInner, defaultConfig, windowMinX, windowMaxX,
      windowMinTheta, windowMaxTheta]
  ⟨hmem, samplePotentialVels_within_bounds (defaultConfig ℚ) 0 0 (by decide) (by decide)
    (by norm_num [defaultConfig]) (by norm_num [defaultConfig]) (by norm_num [defaultConfig])
    1 (0, -(6 / 25)) hmem⟩

theorem sampleOuter_stuck (fuel : Nat) (max_vel_x min_vel_theta max_vel_theta step_theta : α) :
    ∀ (n : Nat) (v : α), v ≤ max_vel_x →
      (sampleOuter fuel max_vel_x 0 min_vel_theta max_vel_theta step_theta n v).2 = false := by
  intro n
  induction n with
  | zero => intro v _; rfl
  | succ n ih =>
    intro v hv
    unfold sampleOuter
    simp only [hv, if_true, add_zero]
    split_ifs
    · exact ih v hv
    · rfl

theorem sampleInner_stuck (v max_vel_theta : α) :
    ∀ (fuel : Nat) (w : α), w ≤ max_vel_theta →
      (sampleInner v max_vel_theta 0 fuel w).2 = false := by
  intro fuel
  induction fuel with
  | zero => intro w _; rfl
  | succ f ih =>
    intro w hw
    unfold sampleInner
    simp only [hw, if_true, add_zero]
    exact ih w hw

/-- A linear window of zero extent: the outer loop of `samplePotentialVels` never ends. -/
theorem samplePotentialVels_zero_extent_x (cfg : Config α) (robot_vel_x robot_vel_theta : α)
    (hx : windowMinX cfg robot_vel_x = windowMaxX cfg robot_vel_x) (fuel : Nat) :
    samplePotentialVels fuel cfg robot_vel_x robot_vel_theta = none := by
  have h := sampleOuter_stuck fuel (windowMaxX cfg robot_vel_x)
    (windowMinTheta cfg robot_vel_theta) (windowMaxTheta cfg robot_vel_theta)
    ((windowMaxTheta cfg robot_vel_theta - windowMinTheta cfg robot_vel_theta)
      / (cfg.vth_samples : α)) fuel (windowMaxX cfg robot_vel_x) le_rfl
  unfold samplePotentialVels sampleTrace
  simp only [hx, sub_self, zero_div, h, Bool.false_eq_true, if_false]

/-- An angular window of zero extent, the linear one not empty: the inner loop never ends. -/
theorem samplePotentialVels_zero_extent_theta (cfg : Config α) (robot_vel_x robot_vel_theta : α)
    (hx : windowMinX cfg robot_vel_x ≤ windowMaxX cfg robot_vel_x)
    (ht : windowMinTheta cfg robot_vel_theta = windowMaxTheta cfg robot_vel_theta)
    (fuel : Nat) :
    samplePotentialVels fuel cfg robot_vel_x robot_vel_theta = none := by
  unfold samplePotentialVels sampleTrace
  simp only [ht, sub_self, zero_div]
  cases fuel with
  | zero => rfl
  | succ f =>
    unfold sampleOuter
    simp only [hx, if_true, sampleInner_stuck _ _ (f + 1) _ le_rfl, Bool.false_eq_true,
      if_false]

/-- Claim C5, the code at the failing input: in the default configuration (sample counts `10`
and `20`) with the robot measured at `-0.05 m/s = -acc_lim_x·T`, the clamped linear window is
`[0, 0]`, of zero extent, the step `(max - min)/N` is `0`, and `samplePotentialVels` does not
return, however many iterations it is given; it does not return `false`. -/
theorem samplePotentialVels_zero_extent_never_returns :
    ((0 : Int) < (defaultConfig ℚ).vx_samples ∧ (0 : Int) < (defaultConfig ℚ).vth_samples)
      ∧ (windowMinX (defaultConfig ℚ) (-(1 / 20)) = 0
          ∧ windowMaxX (defaultConfig ℚ) (-(1 / 20)) = 0)
      ∧ (∀ fuel : Nat, samplePotentialVels fuel (defaultConfig ℚ) (-(1 / 20)) 0 = none) := by
  have h1 : windowMinX (defaultConfig ℚ) (-(1 / 20)) = 0 := by
    norm_num [defaultConfig, windowMinX]
  have h2 : windowMaxX (defaultConfig ℚ) (-(1 / 20)) = 0 := by
    norm_num [defaultConfig, windowMaxX]
  exact ⟨⟨by decide, by decide⟩, ⟨h1, h2⟩,
    samplePotentialVels_zero_extent_x (defaultConfig ℚ) (-(1 / 20)) 0 (h1.trans h2.symm)⟩

/-! ## ObstacleLookahead -/

theorem int_eq_zero_of_mul_small (k d a : Int) (hd : 0 < d) (h1 : -d < a) (h2 : a < d)
    (hk : a = k * d) : k = 0 := by
  by_contra hne
  rcases lt_or_gt_of_ne hne with hlt | hgt
  · have : k ≤ -1 := by omega
    nlinarith
  · have : 1 ≤ k := by omega
    nlinarith

/-- The loop of `bresenhamLine` on a line with `dy < dx`, `n` steps in `x` from the target. -/
theorem bresenhamLoop_xmajor (x1 y1 dx dy sx sy c : Int) (hdy : 0 ≤ dy) (hlt : dy < dx)
    (hsx : sx = 1 ∨ sx = -1) (hsy : sy = 1 ∨ sy = -1) (hc0 : 0 ≤ c) (hc1 : c < dx) :
    ∀ (n fuel : Nat) (x y err m : Int), n + 1 ≤ fuel → sx * (x1 - x) = n → sy * (y1 - y) = m →
      0 ≤ err → err < dx → err - c = n * dy - m * dx →
      ∃ l, bresenhamLoop x1 y1 dx dy sx sy fuel x y err = some l ∧ l.length = n + 1
        ∧ l.head? = some (x, y) ∧ l.getLast? = some (x1, y1) := by
  intro n
  induction n with
  | zero =>
    intro fuel x y err m hf hx hy h0 h1 heq
    obtain ⟨f, rfl⟩ : ∃ f, fuel = f + 1 := ⟨fuel - 1, by omega⟩
    have hxe : x = x1 := by rcases hsx with rfl | rfl <;> omega
    have hm : -m = 0 := by
      apply int_eq_zero_of_mul_small (-m) dx (err - c) (by omega) (by omega) (by omega)
      simp only [Nat.cast_zero, zero_mul, zero_sub] at heq
      rw [heq]; ring
    have hye : y = y1 := by rcases hsy with rfl | rfl <;> omega
    subst hxe hye
    exact ⟨[(x, y)], by simp [bresenhamLoop], rfl, rfl, rfl⟩
  | succ n ih =>
    intro fuel x y err m hf hx hy h0 h1 heq
    obtain ⟨f, rfl⟩ : ∃ f, fuel = f + 1 := ⟨fuel - 1, by omega⟩
    have hne : ¬ (x = x1 ∧ y = y1) := by
      rintro ⟨rfl, -⟩
      simp at hx
      omega
    have hgt : err > -dx := by omega
    push_cast at hx heq
    have hx' : sx * (x1 - (x + sx)) = n := by rcases hsx with rfl | rfl <;> omega
    by_cases hy2 : err < dy
    · have hy' : sy * (y1 - (y + sy)) = m - 1 := by rcases hsy with rfl | rfl <;> omega
      obtain ⟨l, hl, hlen, -, hlast⟩ := ih f (x + sx) (y + sy) (err - dy + dx) (m - 1)
        (by omega) hx' hy' (by omega) (by omega) (by linarith)
      refine ⟨(x, y) :: l, ?_, by simp [hlen], rfl, ?_⟩
      · simp [bresenhamLoop, hne, hgt, hy2, hl]
      · cases l with
        | nil => simp at hlen
        | cons a l => simpa [List.getLast?_cons_cons] using hlast
    · obtain ⟨l, hl, hlen, -, hlast⟩ := ih f (x + sx) y (err - dy) m
        (by omega) hx' hy (by omega) (by omega) (by linarith)
      refine ⟨(x, y) :: l, ?_, by simp [hlen], rfl, ?_⟩
      · simp [bresenhamLoop, hne, hgt, hy2, hl]
      · cases l with
        | nil => simp at hlen
        | cons a l => simpa [List.getLast?_cons_cons] using hlast

/-- The loop of `bresenhamLine` on a line with `dx ≤ dy`, `n` steps in `y` from the target. -/
theorem bresenhamLoop_ymajor (x1 y1 dx dy sx sy c : Int) (hdx : 0 ≤ dx) (hle : dx ≤ dy)
    (hdy : 0 < dy) (hsx : sx = 1 ∨ sx = -1) (hsy : sy = 1 ∨ sy = -1) (hc0 : -dy < c)
    (hc1 : c ≤ 0) :
    ∀ (n fuel : Nat) (x y err m : Int), n + 1 ≤ fuel → sy * (y1 - y) = n → sx * (x1 - x) = m →
      -dy < err → err ≤ 0 → err - c = m * dy - n * dx →
      ∃ l, bresenhamLoop x1 y1 dx dy sx sy fuel x y err = some l ∧ l.length = n + 1
        ∧ l.head? = some (x, y) ∧ l.getLast? = some (x1, y1) := by
  intro n
  induction n with
  | zero =>
    intro fuel x y err m hf hy hx h0 h1 heq
    obtain ⟨f, rfl⟩ : ∃ f, fuel = f + 1 := ⟨fuel - 1, by omega⟩
    have hye : y = y1 := by rcases hsy with rfl | rfl <;> omega
    have hm : m = 0 := by
      apply int_eq_zero_of_mul_small m dy (err - c) hdy (by omega) (by omega)
      simp only [Nat.cast_zero, zero_mul, sub_zero] at heq
      exact heq
    have hxe : x = x1 := by rcases hsx with rfl | rfl <;> omega
    subst hxe hye
    exact ⟨[(x, y)], by simp [bresenhamLoop], rfl, rfl, rfl⟩
  | succ n ih =>
    intro fuel x y err m hf hy hx h0 h1 heq
    obtain ⟨f, rfl⟩ : ∃ f, fuel = f + 1 := ⟨fuel - 1, by omega⟩
    have hne : ¬ (x = x1 ∧ y = y1) := by
      rintro ⟨-, rfl⟩
      simp at hy
      omega
    have hlt : err < dy := by omega
    push_cast at hy heq
    have hy' : sy * (y1 - (y + sy)) = n := by rcases hsy with rfl | rfl <;> omega
    by_cases hx2 : err > -dx
    · have hx' : sx * (x1 - (x + sx)) = m - 1 := by rcases hsx with rfl | rfl <;> omega
      obtain ⟨l, hl, hlen, -, hlast⟩ := ih f (x + sx) (y + sy) (err - dy + dx) (m - 1)
        (by omega) hy' hx' (by omega) (by omega) (by linarith)
      refine ⟨(x, y) :: l, ?_, by simp [hlen], rfl, ?_⟩
      · simp [bresenhamLoop, hne, hlt, hx2, hl]
      · cases l with
        | nil => simp at hlen
        | cons a l => simpa [List.getLast?_cons_cons] using hlast
    · obtain ⟨l, hl, hlen, -, hlast⟩ := ih f x (y + sy) (err + dx) m
        (by omega) hy' hx (by omega) (by omega) (by linarith)
      refine ⟨(x, y) :: l, ?_, by simp [hlen], rfl, ?_⟩
      · simp [bresenhamLoop, hne, hlt, hx2, hl]
      · cases l with
        | nil => simp at hlen
        | cons a l => simpa [List.getLast?_cons_cons] using hlast

theorem stepSign_mul (a b : Int) : (if a < b then (1 : Int) else -1) * (b - a) = |b - a| := by
  split_ifs with h
  · rw [abs_of_pos (by omega)]; ring
  · rw [abs_of_nonpos (by omega)]; ring

/-- The line of `bresenhamLine` once the fuel covers `max |Δx| |Δy| + 1` iterations. -/
theorem bresenhamLine_spec (x0 y0 x1 y1 : Int) (fuel : Nat)
    (hfuel : max (x1 - x0).natAbs (y1 - y0).natAbs + 1 ≤ fuel) :
    ∃ l, bresenhamLine fuel x0 y0 x1 y1 = some l
      ∧ l.length = max (x1 - x0).natAbs (y1 - y0).natAbs + 1
      ∧ l.head? = some (x0, y0) ∧ l.getLast? = some (x1, y1) := by
  have hsx : ∀ a b : Int, (if a < b then (1 : Int) else -1) = 1
      ∨ (if a < b then (1 : Int) else -1) = -1 := by
    intro a b; split_ifs <;> simp
  have hdx0 : (0 : Int) ≤ |x1 - x0| := abs_nonneg _
  have hdy0 : (0 : Int) ≤ |y1 - y0| := abs_nonneg _
  have hnx : ((x1 - x0).natAbs : Int) = |x1 - x0| := Int.natCast_natAbs _
  have hny : ((y1 - y0).natAbs : Int) = |y1 - y0| := Int.natCast_natAbs _
  unfold bresenhamLine
  simp only []
  by_cases hmajor : |x1 - x0| > |y1 - y0|
  · have hmax : max (x1 - x0).natAbs (y1 - y0).natAbs = (x1 - x0).natAbs := by
      apply max_eq_left; omega
    rw [hmax] at hfuel ⊢
    simp only [hmajor, if_true]
    have hdiv : Int.tdiv |x1 - x0| 2 = |x1 - x0| / 2 := Int.tdiv_eq_ediv hdx0 (by norm_num)
    rw [hdiv]
    exact bresenhamLoop_xmajor x1 y1 |x1 - x0| |y1 - y0| _ _ (|x1 - x0| / 2) hdy0 hmajor
      (hsx x0 x1) (hsx y0 y1) (by omega) (by omega) (x1 - x0).natAbs fuel x0 y0 (|x1 - x0| / 2)
      |y1 - y0| hfuel (by rw [stepSign_mul, hnx]) (stepSign_mul y0 y1) (by omega) (by omega)
      (by rw [hnx]; ring)
  · have hle : |x1 - x0| ≤ |y1 - y0| := not_lt.mp hmajor
    have hmax : max (x1 - x0).natAbs (y1 - y0).natAbs = (y1 - y0).natAbs := by
      apply max_eq_right; omega
    rw [hmax] at hfuel ⊢
    simp only [hmajor, if_false]
    have hdiv : Int.tdiv (-|y1 - y0|) 2 = -(|y1 - y0| / 2) := by
      rw [Int.neg_tdiv, Int.tdiv_eq_ediv hdy0 (by norm_num)]
    rw [hdiv]
    by_cases hzero : |y1 - y0| = 0
    · have hx0 : |x1 - x0| = 0 := by omega
      have ey : y0 = y1 := by
        have := abs_eq_zero.mp hzero; omega
      have ex : x0 = x1 := by
        have := abs_eq_zero.mp hx0; omega
      subst ex ey
      obtain ⟨f, rfl⟩ : ∃ f, fuel = f + 1 := ⟨fuel - 1, by omega⟩
      exact ⟨[(x0, y0)], by simp [bresenhamLoop], by simp, rfl, rfl⟩
    · have hpos : 0 < |y1 - y0| := lt_of_le_of_ne hdy0 (Ne.symm hzero)
      exact bresenhamLoop_ymajor x1 y1 |x1 - x0| |y1 - y0| _ _ (-(|y1 - y0| / 2)) hdx0 hle hpos
        (hsx x0 x1) (hsx y0 y1) (by omega) (by omega) (y1 - y0).natAbs fuel x0 y0
        (-(|y1 - y0| / 2)) |x1 - x0| hfuel (by rw [stepSign_mul, hny]) (stepSign_mul x0 x1)
        (by omega) (by omega) (by rw [hny]; ring)

/-- Claim C10: for all integer cells `(x0, y0)` and `(x1, y1)`, once the fuel covers
`max |x1 - x0| |y1 - y0| + 1` iterations `bresenhamLine` returns a line whose first element is
`(x0, y0)` and whose last element is `(x1, y1)`; and between a cell and itself it returns the
single-cell line `[(x0, y0)]`. -/
theorem bresenhamLine_endpoints (x0 y0 x1 y1 : Int) :
    (∀ fuel : Nat, max (x1 - x0).natAbs (y1 - y0).natAbs + 1 ≤ fuel →
        ∃ l, bresenhamLine fuel x0 y0 x1 y1 = some l
          ∧ l.head? = some (x0, y0) ∧ l.getLast? = some (x1, y1))
      ∧ (∀ fuel : Nat, bresenhamLine (fuel + 1) x0 y0 x0 y0 = some [(x0, y0)]) := by
  constructor
  · intro fuel hfuel
    obtain ⟨l, hl, -, hhead, hlast⟩ := bresenhamLine_spec x0 y0 x1 y1 fuel hfuel
    exact ⟨l, hl, hhead, hlast⟩
  · intro fuel
    simp [bresenhamLine, bresenhamLoop]

/-! ## TrajectoryScorer -/

theorem occupyLoop_spec [FloorRing α] (costmap : Int → Int → Nat) (resolution origin_x origin_y : α) :
    ∀ (traj : List (Pose α)) (occupy : Int),
      occupy ≤ occupyLoop costmap resolution origin_x origin_y traj occupy
      ∧ (∀ p ∈ traj, poseCost costmap resolution origin_x origin_y p
          ≤ occupyLoop costmap resolution origin_x origin_y traj occupy)
      ∧ (occupyLoop costmap resolution origin_x origin_y traj occupy = occupy
          ∨ ∃ p ∈ traj, poseCost costmap resolution origin_x origin_y p
              = occupyLoop costmap resolution origin_x origin_y traj occupy) := by
  intro traj
  induction traj with
  | nil => intro occupy; simp [occupyLoop]
  | cons q rest ih =>
    intro occupy
    obtain ⟨h1, h2, h3⟩ := ih (max (poseCost costmap resolution origin_x origin_y q - 0) occupy)
    have hq : poseCost costmap resolution origin_x origin_y q - 0
        = poseCost costmap resolution origin_x origin_y q := sub_zero _
    rw [hq] at h1 h2 h3
    have e : occupyLoop costmap resolution origin_x origin_y (q :: rest) occupy
        = occupyLoop costmap resolution origin_x origin_y rest
            (max (poseCost costmap resolution origin_x origin_y q) occupy) := by
      simp [occupyLoop, poseCost]
    rw [e]
    refine ⟨(le_max_right _ _).trans h1, ?_, ?_⟩
    · intro p hp
      rcases List.mem_cons.mp hp with rfl | hp
      · exact (le_max_left _ _).trans h1
      · exact h2 p hp
    · rcases h3 with h3 | ⟨p, hp, h3⟩
      · rcases le_total (poseCost costmap resolution origin_x origin_y q) occupy with hle | hle
        · left; rw [h3, max_eq_right hle]
        · right; exact ⟨q, List.mem_cons_self _ _, by rw [h3, max_eq_left hle]⟩
      · right; exact ⟨p, List.mem_cons_of_mem _ hp, h3⟩

theorem dis2pathLoop_spec (m : Cmath α) (end_pose : Pose α) :
    ∀ (plan : List (α × α)) (d : α),
      dis2pathLoop m end_pose plan d ≤ d
      ∧ (∀ w ∈ plan, dis2pathLoop m end_pose plan d
          ≤ planarDist m end_pose.x end_pose.y w.1 w.2)
      ∧ (dis2pathLoop m end_pose plan d = d
          ∨ ∃ w ∈ plan, dis2pathLoop m end_pose plan d
              = planarDist m end_pose.x end_pose.y w.1 w.2) := by
  intro plan
  induction plan with
  | nil => intro d; simp [dis2pathLoop]
  | cons q rest ih =>
    intro d
    obtain ⟨h1, h2, h3⟩ := ih (min (planarDist m end_pose.x end_pose.y q.1 q.2) d)
    have e : dis2pathLoop m end_pose (q :: rest) d
        = dis2pathLoop m end_pose rest (min (planarDist m end_pose.x end_pose.y q.1 q.2) d) := rfl
    rw [e]
    refine ⟨h1.trans (min_le_right _ _), ?_, ?_⟩
    · intro w hw
      rcases List.mem_cons.mp hw with rfl | hw
      · exact h1.trans (min_le_left _ _)
      · exact h2 w hw
    · rcases h3 with h3 | ⟨w, hw, h3⟩
      · rcases le_total (planarDist m end_pose.x end_pose.y q.1 q.2) d with hle | hle
        · right; exact ⟨q, List.mem_cons_self _ _, by rw [h3, min_eq_left hle]⟩
        · left; rw [h3, min_eq_right hle]
      · right; exact ⟨w, List.mem_cons_of_mem _ hw, h3⟩

theorem scoreTrajectory_eq [FloorRing α] (m : Cmath α) (cfg : Config α) (traj : List (Pose α))
    (size_x size_y : Int) (resolution origin_x origin_y : α) (global_plan : List (α × α))
    (costmap : Int → Int → Nat) (ht : traj ≠ []) (hp : global_plan ≠ []) :
    scoreTrajectory m cfg traj size_x size_y resolution origin_x origin_y global_plan costmap
      = some (cfg.occdist_scale * (occupyLoop costmap resolution origin_x origin_y traj 0 : α)
        + cfg.goal_distance_bias * planarDist m (traj.getLast ht).x (traj.getLast ht).y
            (global_plan.getLast hp).1 (global_plan.getLast hp).2
        + cfg.path_distance_bias * dis2pathLoop m (traj.getLast ht) global_plan (bigScore α)) := by
  unfold scoreTrajectory
  rw [List.getLast?_eq_getLast _ ht, List.getLast?_eq_getLast _ hp]

/-- Claim C9 (amended): for every non-empty trajectory and non-empty pruned path,
`scoreTrajectory` returns exactly `occdist_scale · M + goal_distance_bias · d_goal +
path_distance_bias · d_path`, where `M` is the maximum grid cost over the cells of the trajectory
poses, `d_goal` is the planar distance from the last pose to the last pruned waypoint, and
`d_path` is the minimum of `1e10` and of the planar distances from the last pose to the pruned
waypoints. -/
theorem scoreTrajectory_formula [FloorRing α] (m : Cmath α) (cfg : Config α)
    (traj : List (Pose α)) (size_x size_y : Int) (resolution origin_x origin_y : α)
    (global_plan : List (α × α)) (costmap : Int → Int → Nat)
    (ht : traj ≠ []) (hp : global_plan ≠ []) :
    ∃ (M : Int) (d_goal d_path : α),
      scoreTrajectory m cfg traj size_x size_y resolution origin_x origin_y global_plan costmap
        = some (cfg.occdist_scale * (M : α) + cfg.goal_distance_bias * d_goal
            + cfg.path_distance_bias * d_path)
      ∧ (∀ p ∈ traj, poseCost costmap resolution origin_x origin_y p ≤ M)
      ∧ (∃ p ∈ traj, poseCost costmap resolution origin_x origin_y p = M)
      ∧ d_goal = planarDist m (traj.getLast ht).x (traj.getLast ht).y
          (global_plan.getLast hp).1 (global_plan.getLast hp).2
      ∧ d_path ≤ 10 ^ 10
      ∧ (∀ w ∈ global_plan,
          d_path ≤ planarDist m (traj.getLast ht).x (traj.getLast ht).y w.1 w.2)
      ∧ (d_path = 10 ^ 10 ∨ ∃ w ∈ global_plan,
          d_path = planarDist m (traj.getLast ht).x (traj.getLast ht).y w.1 w.2) := by
  obtain ⟨o1, o2, o3⟩ := occupyLoop_spec costmap resolution origin_x origin_y traj 0
  obtain ⟨d1, d2, d3⟩ := dis2pathLoop_spec m (traj.getLast ht) global_plan (bigScore α)
  refine ⟨_, _, _, scoreTrajectory_eq m cfg traj size_x size_y resolution origin_x origin_y
    global_plan costmap ht hp, o2, ?_, rfl, d1, d2, d3⟩
  rcases o3 with o3 | o3
  · obtain ⟨q, rest, rfl⟩ := List.exists_cons_of_ne_nil ht
    refine ⟨q, List.mem_cons_self _ _, le_antisymm (o2 q (List.mem_cons_self _ _)) ?_⟩
    rw [o3]
    exact Int.natCast_nonneg _
  · exact o3

/-- Claim C9 (amended), on the one-pose trajectory `[(3, 4, 0)]` and the one-waypoint path
`[(0, 0)]` over a grid of constant cost `7`. -/
theorem scoreTrajectory_formula_witness :
    ([(⟨3, 4, 0⟩ : Pose ℝ)] ≠ [] ∧ [((0 : ℝ), (0 : ℝ))] ≠ [])
      ∧ ∃ (M : Int) (d_goal d_path : ℝ),
        scoreTrajectory ⟨Real.cos, Real.sin, Real.sqrt⟩ (defaultConfig ℝ) [⟨3, 4, 0⟩] 10 10 1 0 0
            [(0, 0)] (fun _ _ => 7)
          = some ((defaultConfig ℝ).occdist_scale * (M : ℝ)
              + (defaultConfig ℝ).goal_distance_bias * d_goal
              + (defaultConfig ℝ).path_distance_bias * d_path)
        ∧ (∀ p ∈ [(⟨3, 4, 0⟩ : Pose ℝ)], poseCost (fun _ _ => 7) 1 0 0 p ≤ M)
        ∧ d_path ≤ 10 ^ 10 :=
  ⟨⟨by simp, by simp⟩,
    (scoreTrajectory_formula ⟨Real.cos, Real.sin, Real.sqrt⟩ (defaultConfig ℝ) [⟨3, 4, 0⟩] 10 10
      1 0 0 [(0, 0)] (fun _ _ => 7) (by simp) (by simp)).imp fun _ hM =>
        hM.imp fun _ hg => hg.imp fun _ hp => ⟨hp.1, hp.2.1, hp.2.2.2.2.1⟩⟩

/-- Claim C9 as stated fails: with the last pose at the origin and the only waypoint
`2e10` away, `d_path` as the claim defines it is `2e10` and the claimed cost is
`40 · 2e10 + 32 · 2e10 = 1.44e12`, but `dis2path` starts at `1e10`, stays there, and
`scoreTrajectory` returns `40 · 2e10 + 32 · 1e10 = 1.12e12`. -/
theorem scoreTrajectory_far_waypoint :
    scoreTrajectory ⟨Real.cos, Real.sin, Real.sqrt⟩ (defaultConfig ℝ) [⟨0, 0, 0⟩] 10 10 1 0 0
        [(2 * 10 ^ 10, 0)] (fun _ _ => 0) = some (112 * 10 ^ 10)
      ∧ (defaultConfig ℝ).occdist_scale * 0
          + (defaultConfig ℝ).goal_distance_bias
            * planarDist ⟨Real.cos, Real.sin, Real.sqrt⟩ 0 0 (2 * 10 ^ 10) 0
          + (defaultConfig ℝ).path_distance_bias
            * planarDist ⟨Real.cos, Real.sin, Real.sqrt⟩ 0 0 (2 * 10 ^ 10) 0 = 144 * 10 ^ 10 := by
  have hd : planarDist ⟨Real.cos, Real.sin, Real.sqrt⟩ (0 : ℝ) 0 (2 * 10 ^ 10) 0 = 2 * 10 ^ 10 := by
    unfold planarDist
    have : ((0 : ℝ) - 2 * 10 ^ 10) ^ 2 + (0 - 0) ^ 2 = (2 * 10 ^ 10) ^ 2 := by ring
    simp only [this]
    exact Real.sqrt_sq (by positivity)
  constructor
  · rw [scoreTrajectory_eq _ _ _ _ _ _ _ _ _ _ (by simp) (by simp)]
    simp only [List.getLast_singleton, dis2pathLoop, hd, occupyLoop, bigScore, defaultConfig]
    norm_num
  · rw [hd]; norm_num [defaultConfig]
/-! ## TrajectoryRollout -/

theorem computeNewAngularVelocities_eq (fuel : Nat) (getCost : Nat → Nat → Nat) (cfg : Config α)
    (target_vel current_vel acc_lim : α) (start_mx start_my goal_mx goal_my : Nat)
    (line : List (Int × Int))
    (hline : bresenhamLine fuel start_mx start_my goal_mx goal_my = some line) :
    computeNewAngularVelocities fuel getCost cfg target_vel current_vel acc_lim start_mx start_my
        goal_mx goal_my
      = some (angularUpdate (scanLine getCost line false) cfg target_vel current_vel acc_lim) := by
  unfold computeNewAngularVelocities angularUpdate
  rw [hline]
  rfl

theorem rolloutLoop_eq (fuel : Nat) (m : Cmath α) (getCost : Nat → Nat → Nat) (cfg : Config α)
    (sample_vel_x sample_vel_theta : α) (start_mx start_my goal_mx goal_my : Nat)
    (line : List (Int × Int))
    (hline : bresenhamLine fuel start_mx start_my goal_mx goal_my = some line) :
    ∀ (n : Nat) (pose : Pose α) (vel_x vel_theta : α),
      rolloutLoop fuel m getCost cfg sample_vel_x sample_vel_theta start_mx start_my goal_mx
          goal_my n pose vel_x vel_theta
        = some (rolloutPoses m cfg (scanLine getCost line false) sample_vel_x sample_vel_theta
            n pose vel_x vel_theta) := by
  intro n
  induction n with
  | zero => intro pose vel_x vel_theta; rfl
  | succ n ih =>
    intro pose vel_x vel_theta
    unfold rolloutLoop rolloutPoses
    rw [computeNewAngularVelocities_eq fuel getCost cfg _ _ _ _ _ _ _ line hline]
    simp only [ih, Option.map_some']

/-- The rollout of `generateTrajectory` once the fuel covers the line between the two cells. -/
theorem generateTrajectory_eq (fuel : Nat) (h : Host α) (cfg : Config α)
    (robot_vel_x robot_vel_theta robot_pose_x robot_pose_y robot_pose_theta : α)
    (sample_vel_x sample_vel_theta : α) (traj : List (Pose α))
    (transformed_plan : List (α × α)) (hplan : transformed_plan ≠ [])
    (hfuel : lookaheadFuel (lookaheadCells h (transformed_plan.getLast hplan)) ≤ fuel) :
    ∃ line : List (Int × Int),
      bresenhamLine fuel (lookaheadCells h (transformed_plan.getLast hplan)).1.1
          (lookaheadCells h (transformed_plan.getLast hplan)).1.2
          (lookaheadCells h (transformed_plan.getLast hplan)).2.1
          (lookaheadCells h (transformed_plan.getLast hplan)).2.2 = some line
      ∧ generateTrajectory fuel h cfg robot_vel_x robot_vel_theta robot_pose_x robot_pose_y
          robot_pose_theta sample_vel_x sample_vel_theta traj transformed_plan
        = some (traj ++ rolloutPoses h.math cfg (scanLine h.getCost line false) sample_vel_x
            sample_vel_theta cfg.sim_time_samples.toNat
            ⟨robot_pose_x, robot_pose_y, robot_pose_theta⟩ robot_vel_x robot_vel_theta) := by
  obtain ⟨line, hline, -⟩ := bresenhamLine_spec
    (lookaheadCells h (transformed_plan.getLast hplan)).1.1
    (lookaheadCells h (transformed_plan.getLast hplan)).1.2
    (lookaheadCells h (transformed_plan.getLast hplan)).2.1
    (lookaheadCells h (transformed_plan.getLast hplan)).2.2 fuel hfuel
  refine ⟨line, hline, ?_⟩
  unfold generateTrajectory
  rw [List.getLast?_eq_getLast _ hplan]
  simp only []
  rw [rolloutLoop_eq fuel h.math h.getCost cfg sample_vel_x sample_vel_theta _ _ _ _ line hline]
  rfl

/-- A grid without lethal cells: the scan reports no obstacle. -/
theorem scanLine_free (getCost : Nat → Nat → Nat) (hfree : ∀ mx my, getCost mx my ≠ LETHAL_OBSTACLE) :
    ∀ line : List (Int × Int), scanLine getCost line false = false := by
  intro line
  induction line with
  | nil => rfl
  | cons p rest ih =>
    unfold scanLine
    simp only [hfree, if_false, ih, ite_self]

/-- Constant velocities: when `(v, w)` is what the two velocity updates give from the current
velocities and again from `(v, w)`, the rollout is the unicycle driven at `(v, w)`. -/
theorem rolloutPoses_steady (m : Cmath α) (cfg : Config α) (obstacle_found : Bool)
    (sample_vel_x sample_vel_theta v w : α)
    (hv : computeNewLinearVelocities cfg sample_vel_x v cfg.acc_lim_x = v)
    (hw : angularUpdate obstacle_found cfg sample_vel_theta w cfg.acc_lim_theta = w) :
    ∀ (n : Nat) (pose : Pose α) (vel_x vel_theta : α),
      computeNewLinearVelocities cfg sample_vel_x vel_x cfg.acc_lim_x = v →
      angularUpdate obstacle_found cfg sample_vel_theta vel_theta cfg.acc_lim_theta = w →
      rolloutPoses m cfg obstacle_found sample_vel_x sample_vel_theta n pose vel_x vel_theta
        = unicyclePoses m cfg v w n pose := by
  intro n
  induction n with
  | zero => intro _ _ _ _ _; rfl
  | succ n ih =>
    intro pose vel_x vel_theta h1 h2
    unfold rolloutPoses unicyclePoses
    simp only [h1, h2]
    rw [ih _ v w hv hw]

/-- The last pose of `n + 1` unicycle steps: the heading has advanced `n + 1` times by `w·T`, the
position by `v·cos(θ_j)·T` and `v·sin(θ_j)·T` at the headings `θ_j = θ + j·(w·T)`. -/
theorem unicyclePoses_getLast (m : Cmath α) (cfg : Config α) (v w : α) :
    ∀ (n : Nat) (p : Pose α),
      (unicyclePoses m cfg v w (n + 1) p).getLast?
        = some ⟨p.x + ∑ j in Finset.range (n + 1),
              v * m.cos (p.theta + j * (w * cfg.control_period)) * cfg.control_period,
            p.y + ∑ j in Finset.range (n + 1),
              v * m.sin (p.theta + j * (w * cfg.control_period)) * cfg.control_period,
            p.theta + ((n + 1 : Nat) : α) * (w * cfg.control_period)⟩ := by
  intro n
  induction n with
  | zero =>
    intro p
    simp [unicyclePoses, computeNewPose]
  | succ n ih =>
    intro p
    have hcons : unicyclePoses m cfg v w (n + 1 + 1) p
        = computeNewPose m cfg p v w
          :: unicyclePoses m cfg v w (n + 1) (computeNewPose m cfg p v w) := rfl
    have hcons2 : unicyclePoses m cfg v w (n + 1) (computeNewPose m cfg p v w)
        = computeNewPose m cfg (computeNewPose m cfg p v w) v w
          :: unicyclePoses m cfg v w n (computeNewPose m cfg (computeNewPose m cfg p v w) v w) :=
      rfl
    rw [hcons, hcons2, List.getLast?_cons_cons, ← hcons2, ih]
    simp only [computeNewPose, Option.some.injEq, Pose.mk.injEq]
    refine ⟨?_, ?_, ?_⟩
    · rw [Finset.sum_range_succ' _ (n + 1)]
      simp only [Nat.cast_zero, zero_mul, add_zero, Nat.cast_add, Nat.cast_one]
      have : ∀ j : Nat, p.theta + w * cfg.control_period + (j : α) * (w * cfg.control_period)
          = p.theta + ((j : α) + 1) * (w * cfg.control_period) := fun j => by ring
      simp only [this]
      ring
    · rw [Finset.sum_range_succ' _ (n + 1)]
      simp only [Nat.cast_zero, zero_mul, add_zero, Nat.cast_add, Nat.cast_one]
      have : ∀ j : Nat, p.theta + w * cfg.control_period + (j : α) * (w * cfg.control_period)
          = p.theta + ((j : α) + 1) * (w * cfg.control_period) := fun j => by ring
      simp only [this]
      ring
    · push_cast; ring

theorem length_unicyclePoses (m : Cmath α) (cfg : Config α) (v w : α) :
    ∀ (n : Nat) (p : Pose α), (unicyclePoses m cfg v w n p).length = n := by
  intro n
  induction n with
  | zero => intro _; rfl
  | succ n ih => intro p; simp [unicyclePoses, ih]

theorem defaultConfig_linear_steady (v current : α) (hc : current = 0 ∨ current = v)
    (h0 : 0 ≤ v) (h1 : v ≤ 1 / 20) :
    computeNewLinearVelocities (defaultConfig α) v current (defaultConfig α).acc_lim_x = v := by
  have hstep : (defaultConfig α).acc_lim_x * (defaultConfig α).control_period = 1 / 20 := by
    norm_num [defaultConfig]
  unfold computeNewLinearVelocities
  rw [hstep]
  rcases hc with rfl | rfl
  · rw [if_neg (not_lt.mpr h0), min_eq_left (by linarith)]
  · rw [if_neg (lt_irrefl _), min_eq_left (by linarith)]

theorem defaultConfig_angular_steady (w current : α) (hc : current = 0 ∨ current = w * (15 / 10))
    (h0 : -(6 / 25) ≤ w) (h1 : w ≤ 6 / 25) :
    angularUpdate false (defaultConfig α) w current (defaultConfig α).acc_lim_theta
      = w * (15 / 10) := by
  have hstep : (defaultConfig α).acc_lim_theta * (defaultConfig α).control_period = 6 / 25 := by
    norm_num [defaultConfig]
  unfold angularUpdate
  simp only [Bool.false_eq_true, if_false]
  rw [hstep]
  rcases hc with rfl | rfl
  · split_ifs with hlt
    · rw [max_eq_left (by linarith)]
    · rw [min_eq_left (by linarith)]
  · split_ifs with hlt
    · rw [max_eq_left (by linarith)]
    · rw [min_eq_left (by linarith)]

/-- The rollout of a candidate of the default window from rest, on a grid without lethal cells:
the unicycle driven at `(v, 1.5·ω)` for `sim_time_samples = 10` steps. -/
theorem generateTrajectory_from_rest (fuel : Nat) (h : Host α)
    (hfree : ∀ mx my, h.getCost mx my ≠ LETHAL_OBSTACLE)
    (robot_pose_x robot_pose_y robot_pose_theta v w : α)
    (transformed_plan : List (α × α)) (hplan : transformed_plan ≠ [])
    (hfuel : lookaheadFuel (lookaheadCells h (transformed_plan.getLast hplan)) ≤ fuel)
    (hv0 : 0 ≤ v) (hv1 : v ≤ 1 / 20) (hw0 : -(6 / 25) ≤ w) (hw1 : w ≤ 6 / 25) :
    generateTrajectory fuel h (defaultConfig α) 0 0 robot_pose_x robot_pose_y robot_pose_theta
        v w [] transformed_plan
      = some (unicyclePoses h.math (defaultConfig α) v (w * (15 / 10)) 10
          ⟨robot_pose_x, robot_pose_y, robot_pose_theta⟩) := by
  obtain ⟨line, -, hgen⟩ := generateTrajectory_eq fuel h (defaultConfig α) 0 0 robot_pose_x
    robot_pose_y robot_pose_theta v w [] transformed_plan hplan hfuel
  rw [hgen, scanLine_free h.getCost hfree, List.nil_append]
  have hK : (defaultConfig α).sim_time_samples.toNat = 10 := rfl
  rw [hK, rolloutPoses_steady h.math (defaultConfig α) false v w v (w * (15 / 10))
    (defaultConfig_linear_steady v v (Or.inr rfl) hv0 hv1)
    (defaultConfig_angular_steady w _ (Or.inr rfl) hw0 hw1) 10 _ 0 0
    (defaultConfig_linear_steady v 0 (Or.inl rfl) hv0 hv1)
    (defaultConfig_angular_steady w 0 (Or.inl rfl) hw0 hw1)]

/-! ## The candidates of the default configuration, robot at rest -/

theorem mem_sampleGrid (mv mw : Nat) (v0 step_x w0 step_theta : α) (c : α × α) :
    c ∈ sampleGrid mv mw v0 step_x w0 step_theta
      ↔ ∃ i : Nat, i < mv ∧ ∃ j : Nat, j < mw ∧ c = (v0 + i * step_x, w0 + j * step_theta) := by
  simp only [sampleGrid, List.mem_flatMap, List.mem_map, List.mem_range]
  constructor
  · rintro ⟨i, hi, j, hj, rfl⟩
    exact ⟨i, hi, j, hj, rfl⟩
  · rintro ⟨i, hi, j, hj, rfl⟩
    exact ⟨i, hi, j, hj, rfl⟩

/-- The candidates of the default configuration for a robot at rest: `11 × 21` pairs over
`[0, 0.05] × [-0.24, 0.24]`. -/
theorem defaultConfig_candidates (fuel : Nat) (hfuel : 22 ≤ fuel) :
    samplePotentialVels fuel (defaultConfig α) 0 0
      = some (true, sampleGrid 11 21 0 (1 / 200) (-(6 / 25)) (3 / 125)) := by
  have h1 : windowMinX (defaultConfig α) 0 = 0 := by norm_num [windowMinX, defaultConfig]
  have h2 : windowMaxX (defaultConfig α) 0 = 1 / 20 := by norm_num [windowMaxX, defaultConfig]
  have h3 : windowMinTheta (defaultConfig α) 0 = -(6 / 25) := by
    norm_num [windowMinTheta, defaultConfig]
  have h4 : windowMaxTheta (defaultConfig α) 0 = 6 / 25 := by
    norm_num [windowMaxTheta, defaultConfig]
  have hNv : (0 : Int) < (defaultConfig α).vx_samples := by
    show (0 : Int) < 10
    decide
  have hNw : (0 : Int) < (defaultConfig α).vth_samples := by
    show (0 : Int) < 20
    decide
  have h := samplePotentialVels_eq (defaultConfig α) 0 0 hNv hNw
    (by rw [h1, h2]; norm_num) (by rw [h3, h4]; norm_num) fuel
    (by simpa [defaultConfig] using hfuel)
  rw [h, h1, h2, h3, h4]
  have e1 : (defaultConfig α).vx_samples.toNat + 1 = 11 := rfl
  have e2 : (defaultConfig α).vth_samples.toNat + 1 = 21 := rfl
  rw [e1, e2]
  norm_num [defaultConfig]

theorem defaultConfig_candidate_bounds (c : α × α)
    (hc : c ∈ sampleGrid 11 21 (0 : α) (1 / 200) (-(6 / 25)) (3 / 125)) :
    (0 ≤ c.1 ∧ c.1 ≤ 1 / 20) ∧ (-(6 / 25) ≤ c.2 ∧ c.2 ≤ 6 / 25) := by
  obtain ⟨i, hi, j, hj, rfl⟩ := (mem_sampleGrid _ _ _ _ _ _ c).mp hc
  have hi' : (i : α) ≤ 10 := by exact_mod_cast Nat.lt_succ_iff.mp hi
  have hj' : (j : α) ≤ 20 := by exact_mod_cast Nat.lt_succ_iff.mp hj
  have hi0 : (0 : α) ≤ i := Nat.cast_nonneg i
  have hj0 : (0 : α) ≤ j := Nat.cast_nonneg j
  simp only []
  refine ⟨⟨by linarith, by linarith⟩, by linarith, by linarith⟩

theorem defaultConfig_best_mem :
    ((1 / 20 : α), (0 : α)) ∈ sampleGrid 11 21 (0 : α) (1 / 200) (-(6 / 25)) (3 / 125) := by
  rw [mem_sampleGrid]
  exact ⟨10, by decide, 10, by decide, by norm_num⟩

/-! ## Scoring on a free grid -/

theorem cutGlobalPlan_eq_self (size_x size_y : Int) (robot_pose_x robot_pose_y : α) :
    ∀ global_plan : List (α × α),
      (∀ p ∈ global_plan, ¬ (|p.1 - robot_pose_x| > (size_x : α) / 2
        ∧ |p.2 - robot_pose_y| > (size_y : α) / 2)) →
      cutGlobalPlan global_plan size_x size_y robot_pose_x robot_pose_y = global_plan := by
  intro global_plan
  induction global_plan with
  | nil => intro _; rfl
  | cons q rest ih =>
    intro hall
    unfold cutGlobalPlan
    rw [if_neg (hall q (List.mem_cons_self _ _)),
      ih (fun p hp => hall p (List.mem_cons_of_mem _ hp))]

theorem occupyLoop_free [FloorRing α] (costmap : Int → Int → Nat)
    (hfree : ∀ i j, costmap i j = FREE_SPACE) (resolution origin_x origin_y : α) :
    ∀ traj : List (Pose α), occupyLoop costmap resolution origin_x origin_y traj 0 = 0 := by
  intro traj
  induction traj with
  | nil => rfl
  | cons p rest ih =>
    unfold occupyLoop
    simp only [hfree, FREE_SPACE, Nat.cast_zero, sub_zero, max_self]
    exact ih

theorem scoreTrajectory_free [FloorRing α] (m : Cmath α) (cfg : Config α) (traj : List (Pose α))
    (size_x size_y : Int) (resolution origin_x origin_y : α) (global_plan : List (α × α))
    (costmap : Int → Int → Nat) (hfree : ∀ i j, costmap i j = FREE_SPACE)
    (e : Pose α) (g : α × α) (he : traj.getLast? = some e)
    (hg : global_plan.getLast? = some g) :
    scoreTrajectory m cfg traj size_x size_y resolution origin_x origin_y global_plan costmap
      = some (freeScore m cfg e global_plan g) := by
  unfold scoreTrajectory freeScore
  rw [he, hg, occupyLoop_free costmap hfree]

/-- What the selection loop finds for a candidate of the default window, the robot at rest at
`(0, 0, 0)`, on a grid whose cells are all free, when its trajectory does not collide. -/
theorem evalCandidate_from_rest [FloorRing α] (fuel : Nat) (h : Host α)
    (hfree : ∀ mx my, h.getCost mx my = FREE_SPACE)
    (pruned_global_plan : List (α × α)) (g : α × α)
    (hg : pruned_global_plan.getLast? = some g)
    (costmap : Int → Int → Nat) (hfree2 : ∀ i j, costmap i j = FREE_SPACE)
    (size_x size_y : Int) (resolution origin_x origin_y : α)
    (transformed_plan : List (α × α)) (hplan : transformed_plan ≠ [])
    (hfuel : lookaheadFuel (lookaheadCells h (transformed_plan.getLast hplan)) ≤ fuel)
    (c : α × α) (hv0 : 0 ≤ c.1) (hv1 : c.1 ≤ 1 / 20) (hw0 : -(6 / 25) ≤ c.2) (hw1 : c.2 ≤ 6 / 25)
    (hfeas : ∀ traj, generateTrajectory fuel h (defaultConfig α) 0 0 0 0 0 c.1 c.2 []
        transformed_plan = some traj → isPathFeasible h.footprintCost traj = true) :
    evalCandidate fuel h (defaultConfig α) 0 0 0 0 0 pruned_global_plan costmap size_x size_y
        resolution origin_x origin_y transformed_plan c
      = some (some (freeScore h.math (defaultConfig α) (restEndPose h.math c.1 c.2)
          pruned_global_plan g)) := by
  have hgen := generateTrajectory_from_rest fuel h
    (fun mx my => by rw [hfree]; decide) 0 0 0 c.1 c.2 transformed_plan hplan hfuel hv0 hv1
    hw0 hw1
  have hlast := unicyclePoses_getLast h.math (defaultConfig α) c.1 (c.2 * (15 / 10)) 9 ⟨0, 0, 0⟩
  unfold evalCandidate
  rw [hgen]
  simp only [hfeas _ hgen, Bool.not_true, Bool.false_eq_true, if_false]
  rw [scoreTrajectory_free h.math (defaultConfig α) _ size_x size_y resolution origin_x origin_y
    pruned_global_plan costmap hfree2 _ g hlast hg]
  rfl

theorem evalCandidate_infeasible [FloorRing α] (fuel : Nat) (h : Host α) (cfg : Config α)
    (robot_vel_x robot_vel_theta robot_pose_x robot_pose_y robot_pose_theta : α)
    (pruned_global_plan : List (α × α)) (costmap : Int → Int → Nat) (size_x size_y : Int)
    (resolution origin_x origin_y : α) (transformed_plan : List (α × α)) (it : α × α)
    (traj : List (Pose α))
    (hgen : generateTrajectory fuel h cfg robot_vel_x robot_vel_theta robot_pose_x robot_pose_y
      robot_pose_theta it.1 it.2 [] transformed_plan = some traj)
    (hfeas : isPathFeasible h.footprintCost traj = false) :
    evalCandidate fuel h cfg robot_vel_x robot_vel_theta robot_pose_x robot_pose_y
      robot_pose_theta pruned_global_plan costmap size_x size_y resolution origin_x origin_y
      transformed_plan it = some none := by
  unfold evalCandidate
  rw [hgen]
  simp only [hfeas, Bool.not_false, if_true]

end Theorems

/-! ## CommandSelector: the selection loop -/

section Selection

variable {α : Type} [LinearOrderedField α] [FloorRing α]

variable (fuel : Nat) (h : Host α) (cfg : Config α)
  (robot_vel_x robot_vel_theta robot_pose_x robot_pose_y robot_pose_theta : α)
  (pruned_global_plan : List (α × α)) (costmap : Int → Int → Nat) (size_x size_y : Int)
  (resolution origin_x origin_y : α) (transformed_plan : List (α × α))

theorem selectLoop_cons (it : α × α) (rest : List (α × α)) (st : α × α × α) :
    selectLoop fuel h cfg robot_vel_x robot_vel_theta robot_pose_x robot_pose_y robot_pose_theta
        pruned_global_plan costmap size_x size_y resolution origin_x origin_y transformed_plan
        (it :: rest) st
      = match evalCandidate fuel h cfg robot_vel_x robot_vel_theta robot_pose_x robot_pose_y
          robot_pose_theta pruned_global_plan costmap size_x size_y resolution origin_x origin_y
          transformed_plan it with
        | none => none
        | some none =>
          selectLoop fuel h cfg robot_vel_x robot_vel_theta robot_pose_x robot_pose_y
            robot_pose_theta pruned_global_plan costmap size_x size_y resolution origin_x origin_y
            transformed_plan rest st
        | some (some score) =>
          selectLoop fuel h cfg robot_vel_x robot_vel_theta robot_pose_x robot_pose_y
            robot_pose_theta pruned_global_plan costmap size_x size_y resolution origin_x origin_y
            transformed_plan rest (if score < st.1 then (score, it.1, it.2) else st) := by
  rw [selectLoop, evalCandidate]
  cases generateTrajectory fuel h cfg robot_vel_x robot_vel_theta robot_pose_x robot_pose_y
      robot_pose_theta it.1 it.2 [] transformed_plan with
  | none => rfl
  | some traj =>
    simp only []
    by_cases hf : isPathFeasible h.footprintCost traj = true
    · simp only [hf, Bool.not_true, Bool.false_eq_true, if_false]
      cases scoreTrajectory h.math cfg traj size_x size_y resolution origin_x origin_y
          pruned_global_plan costmap with
      | none => rfl
      | some score => rfl
    · simp only [Bool.not_eq_true] at hf
      simp only [hf, Bool.not_false, if_true]

/-- No update: when no candidate scores below the running minimum, the loop returns the state
it started from. -/
theorem selectLoop_no_update :
    ∀ (cands : List (α × α)) (st : α × α × α),
      (∀ c ∈ cands, evalCandidate fuel h cfg robot_vel_x robot_vel_theta robot_pose_x
          robot_pose_y robot_pose_theta pruned_global_plan costmap size_x size_y resolution
          origin_x origin_y transformed_plan c = some none
        ∨ ∃ s, evalCandidate fuel h cfg robot_vel_x robot_vel_theta robot_pose_x
            robot_pose_y robot_pose_theta pruned_global_plan costmap size_x size_y resolution
            origin_x origin_y transformed_plan c = some (some s) ∧ st.1 ≤ s) →
      selectLoop fuel h cfg robot_vel_x robot_vel_theta robot_pose_x robot_pose_y
        robot_pose_theta pruned_global_plan costmap size_x size_y resolution origin_x origin_y
        transformed_plan cands st = some st := by
  intro cands
  induction cands with
  | nil => intro st _; rfl
  | cons c rest ih =>
    intro st hall
    rw [selectLoop_cons]
    have hrest := ih st (fun c' hc' => hall c' (List.mem_cons_of_mem _ hc'))
    rcases hall c (List.mem_cons_self _ _) with hc | ⟨s, hc, hs⟩
    · rw [hc]; exact hrest
    · rw [hc]
      simp only [not_lt.mpr hs, if_false]
      exact hrest

/-- The loop selects the first candidate of minimum cost: when the candidates before `c` are
infeasible or cost more than `c`, the ones after it are infeasible or cost at least as much, and
`c` costs less than the initial `min_score`, the loop ends with the cost and velocity of `c`. -/
theorem selectLoop_first_min (c : α × α) (s : α)
    (hc : evalCandidate fuel h cfg robot_vel_x robot_vel_theta robot_pose_x
      robot_pose_y robot_pose_theta pruned_global_plan costmap size_x size_y resolution
      origin_x origin_y transformed_plan c = some (some s))
    (post : List (α × α))
    (hpost : ∀ c' ∈ post, evalCandidate fuel h cfg robot_vel_x robot_vel_theta robot_pose_x
          robot_pose_y robot_pose_theta pruned_global_plan costmap size_x size_y resolution
          origin_x origin_y transformed_plan c' = some none
        ∨ ∃ s', evalCandidate fuel h cfg robot_vel_x robot_vel_theta robot_pose_x
            robot_pose_y robot_pose_theta pruned_global_plan costmap size_x size_y resolution
            origin_x origin_y transformed_plan c' = some (some s') ∧ s ≤ s') :
    ∀ (pre : List (α × α)) (st : α × α × α), s < st.1 →
      (∀ c' ∈ pre, evalCandidate fuel h cfg robot_vel_x robot_vel_theta robot_pose_x
          robot_pose_y robot_pose_theta pruned_global_plan costmap size_x size_y resolution
          origin_x origin_y transformed_plan c' = some none
        ∨ ∃ s', evalCandidate fuel h cfg robot_vel_x robot_vel_theta robot_pose_x
            robot_pose_y robot_pose_theta pruned_global_plan costmap size_x size_y resolution
            origin_x origin_y transformed_plan c' = some (some s') ∧ s < s') →
      selectLoop fuel h cfg robot_vel_x robot_vel_theta robot_pose_x robot_pose_y
        robot_pose_theta pruned_global_plan costmap size_x size_y resolution origin_x origin_y
        transformed_plan (pre ++ c :: post) st = some (s, c.1, c.2) := by
  intro pre
  induction pre with
  | nil =>
    intro st hst _
    rw [List.nil_append, selectLoop_cons, hc]
    simp only [hst, if_true]
    exact selectLoop_no_update fuel h cfg robot_vel_x robot_vel_theta robot_pose_x robot_pose_y
      robot_pose_theta pruned_global_plan costmap size_x size_y resolution origin_x origin_y
      transformed_plan post (s, c.1, c.2) hpost
  | cons p pre ih =>
    intro st hst hpre
    rw [List.cons_append, selectLoop_cons]
    have hrest := fun st' hst' => ih st' hst' (fun c' hc' => hpre c' (List.mem_cons_of_mem _ hc'))
    rcases hpre p (List.mem_cons_self _ _) with hp | ⟨s', hp, hs'⟩
    · rw [hp]; exact hrest st hst
    · rw [hp]
      simp only []
      apply hrest
      split_ifs
      · exact hs'
      · exact hst

/-- The converse reading of the loop: whatever state it ends in is either the state it started
from, no candidate having scored below it, or the cost and velocity of a candidate `c`, all
candidates before `c` costing more and all after it at least as much. -/
theorem selectLoop_result :
    ∀ (cands : List (α × α)) (st st' : α × α × α),
      selectLoop fuel h cfg robot_vel_x robot_vel_theta robot_pose_x robot_pose_y
        robot_pose_theta pruned_global_plan costmap size_x size_y resolution origin_x origin_y
        transformed_plan cands st = some st' →
      (st' = st ∧ ∀ c ∈ cands, ∀ s, evalCandidate fuel h cfg robot_vel_x robot_vel_theta
          robot_pose_x robot_pose_y robot_pose_theta pruned_global_plan costmap size_x size_y
          resolution origin_x origin_y transformed_plan c = some (some s) → st.1 ≤ s)
      ∨ ∃ pre c post, cands = pre ++ c :: post ∧ st' = (st'.1, c.1, c.2) ∧ st'.1 < st.1
        ∧ evalCandidate fuel h cfg robot_vel_x robot_vel_theta robot_pose_x robot_pose_y
            robot_pose_theta pruned_global_plan costmap size_x size_y resolution origin_x
            origin_y transformed_plan c = some (some st'.1)
        ∧ (∀ c' ∈ pre, ∀ s, evalCandidate fuel h cfg robot_vel_x robot_vel_theta
            robot_pose_x robot_pose_y robot_pose_theta pruned_global_plan costmap size_x size_y
            resolution origin_x origin_y transformed_plan c' = some (some s) → st'.1 < s)
        ∧ (∀ c' ∈ post, ∀ s, evalCandidate fuel h cfg robot_vel_x robot_vel_theta
            robot_pose_x robot_pose_y robot_pose_theta pruned_global_plan costmap size_x size_y
            resolution origin_x origin_y transformed_plan c' = some (some s) → st'.1 ≤ s) := by
  intro cands
  induction cands with
  | nil =>
    intro st st' hres
    left
    simp only [selectLoop, Option.some.injEq] at hres
    exact ⟨hres.symm, fun c hc => by simp at hc⟩
  | cons p rest ih =>
    intro st st' hres
    rw [selectLoop_cons] at hres
    cases hp : evalCandidate fuel h cfg robot_vel_x robot_vel_theta robot_pose_x robot_pose_y
        robot_pose_theta pruned_global_plan costmap size_x size_y resolution origin_x origin_y
        transformed_plan p with
    | none => rw [hp] at hres; simp at hres
    | some r =>
      rw [hp] at hres
      cases r with
      | none =>
        simp only [] at hres
        rcases ih st st' hres with ⟨he, hall⟩ | ⟨pre, c, post, hsplit, he, hlt, hc, hpre, hpost⟩
        · left
          refine ⟨he, fun c hc s hs => ?_⟩
          rcases List.mem_cons.mp hc with rfl | hc
          · rw [hp] at hs; simp at hs
          · exact hall c hc s hs
        · right
          refine ⟨p :: pre, c, post, by rw [hsplit]; rfl, he, hlt, hc, fun c' hc' s hs => ?_, hpost⟩
          rcases List.mem_cons.mp hc' with rfl | hc'
          · rw [hp] at hs; simp at hs
          · exact hpre c' hc' s hs
      | some sp =>
        simp only [] at hres
        by_cases hlt0 : sp < st.1
        · simp only [hlt0, if_true] at hres
          rcases ih _ st' hres with ⟨he, hall⟩ | ⟨pre, c, post, hsplit, he, hlt, hc, hpre, hpost⟩
          · right
            refine ⟨[], p, rest, rfl, by rw [he], by rw [he]; exact hlt0, by rw [he]; exact hp,
              fun c' hc' => by simp at hc', ?_⟩
            intro c' hc' s hs
            rw [he]
            exact hall c' hc' s hs
          · right
            simp only [] at hlt
            refine ⟨p :: pre, c, post, by rw [hsplit]; rfl, he, hlt.trans hlt0, hc,
              fun c' hc' s hs => ?_, hpost⟩
            rcases List.mem_cons.mp hc' with rfl | hc'
            · rw [hp] at hs
              simp only [Option.some.injEq] at hs
              rw [← hs]; exact hlt
            · exact hpre c' hc' s hs
        · simp only [hlt0, if_false] at hres
          rcases ih st st' hres with ⟨he, hall⟩ | ⟨pre, c, post, hsplit, he, hlt, hc, hpre, hpost⟩
          · left
            refine ⟨he, fun c hc s hs => ?_⟩
            rcases List.mem_cons.mp hc with rfl | hc
            · rw [hp] at hs
              simp only [Option.some.injEq] at hs
              rw [← hs]; exact not_lt.mp hlt0
            · exact hall c hc s hs
          · right
            refine ⟨p :: pre, c, post, by rw [hsplit]; rfl, he, hlt, hc, fun c' hc' s hs => ?_,
              hpost⟩
            rcases List.mem_cons.mp hc' with rfl | hc'
            · rw [hp] at hs
              simp only [Option.some.injEq] at hs
              rw [← hs]; exact hlt.trans_le (not_lt.mp hlt0)
            · exact hpre c' hc' s hs

end Selection

section CommandSelector

variable {α : Type} [LinearOrderedField α]

/-- The selection loop has a result when every candidate it visits has one. -/
theorem selectLoop_isSome [FloorRing α] (fuel : Nat) (h : Host α) (cfg : Config α)
    (robot_vel_x robot_vel_theta robot_pose_x robot_pose_y robot_pose_theta : α)
    (pruned_global_plan : List (α × α)) (costmap : Int → Int → Nat) (size_x size_y : Int)
    (resolution origin_x origin_y : α) (transformed_plan : List (α × α)) :
    ∀ (cands : List (α × α)) (st : α × α × α),
      (∀ c ∈ cands, ∃ r, evalCandidate fuel h cfg robot_vel_x robot_vel_theta robot_pose_x
        robot_pose_y robot_pose_theta pruned_global_plan costmap size_x size_y resolution
        origin_x origin_y transformed_plan c = some r) →
      ∃ st', selectLoop fuel h cfg robot_vel_x robot_vel_theta robot_pose_x robot_pose_y
        robot_pose_theta pruned_global_plan costmap size_x size_y resolution origin_x origin_y
        transformed_plan cands st = some st' := by
  intro cands
  induction cands with
  | nil => intro st _; exact ⟨st, rfl⟩
  | cons c rest ih =>
    intro st hall
    rw [selectLoop_cons]
    obtain ⟨r, hr⟩ := hall c (List.mem_cons_self _ _)
    rw [hr]
    cases r with
    | none => exact ih st (fun c' hc' => hall c' (List.mem_cons_of_mem _ hc'))
    | some s => exact ih _ (fun c' hc' => hall c' (List.mem_cons_of_mem _ hc'))

/-- Claim C1, what the code does: on every input in which `samplePotentialVels` yields candidates
and `isPathFeasible` rejects the rolled-out trajectory of every one of them,
`computeVelocityCommands` returns `true`, with `cmd_vel_x` and `cmd_vel_theta` left at the values
the caller passed in. -/
theorem computeVelocityCommands_all_infeasible [FloorRing α] (fuel : Nat) (h : Host α)
    (cfg : Config α)
    (robot_vel_x robot_vel_theta robot_pose_x robot_pose_y robot_pose_theta : α)
    (global_plan : List (α × α)) (costmap : Int → Int → Nat) (size_x size_y : Int)
    (resolution origin_x origin_y : α) (cmd_vel_x cmd_vel_theta : α)
    (transformed_plan : List (α × α)) (sample_vels : List (α × α))
    (hsample : samplePotentialVels fuel cfg robot_vel_x robot_vel_theta
      = some (true, sample_vels))
    (hall : ∀ it ∈ sample_vels, ∃ traj,
      generateTrajectory fuel h cfg robot_vel_x robot_vel_theta robot_pose_x robot_pose_y
        robot_pose_theta it.1 it.2 [] transformed_plan = some traj
      ∧ isPathFeasible h.footprintCost traj = false) :
    computeVelocityCommands fuel h cfg robot_vel_x robot_vel_theta robot_pose_x robot_pose_y
        robot_pose_theta global_plan costmap size_x size_y resolution origin_x origin_y
        cmd_vel_x cmd_vel_theta transformed_plan
      = some (true, cmd_vel_x, cmd_vel_theta) := by
  unfold computeVelocityCommands
  rw [hsample]
  simp only []
  rw [selectLoop_no_update fuel h cfg robot_vel_x robot_vel_theta robot_pose_x robot_pose_y
    robot_pose_theta _ costmap size_x size_y resolution origin_x origin_y transformed_plan
    sample_vels _ (fun c hc => Or.inl (by
      obtain ⟨traj, hgen, hfeas⟩ := hall c hc
      exact evalCandidate_infeasible fuel h cfg robot_vel_x robot_vel_theta robot_pose_x
        robot_pose_y robot_pose_theta _ costmap size_x size_y resolution origin_x origin_y
        transformed_plan c traj hgen hfeas))]
  rfl

/-- The selection where it takes place: whenever `computeVelocityCommands` reports success and
some sampled candidate is feasible with a cost below `1e10`, the `(cmd_vel_x, cmd_vel_theta)` it
writes is the velocity of a sampled candidate whose rolled-out trajectory passes
`isPathFeasible`, whose `scoreTrajectory` cost `s` is at most the cost of every other feasible
candidate, and which is the first such candidate in the sampler's order: the feasible candidates
before it cost strictly more.  (`evalCandidate … it = some (some s)` says that the trajectory of
`it` passes `isPathFeasible` and is scored `s`.) -/
theorem computeVelocityCommands_selects_first_minimum [FloorRing α] (fuel : Nat) (h : Host α)
    (cfg : Config α)
    (robot_vel_x robot_vel_theta robot_pose_x robot_pose_y robot_pose_theta : α)
    (global_plan : List (α × α)) (costmap : Int → Int → Nat) (size_x size_y : Int)
    (resolution origin_x origin_y : α) (cmd_vel_x cmd_vel_theta : α)
    (transformed_plan : List (α × α)) (new_cmd_x new_cmd_theta : α)
    (hsuccess : computeVelocityCommands fuel h cfg robot_vel_x robot_vel_theta robot_pose_x
      robot_pose_y robot_pose_theta global_plan costmap size_x size_y resolution origin_x origin_y
      cmd_vel_x cmd_vel_theta transformed_plan = some (true, new_cmd_x, new_cmd_theta))
    (hbelow : ∃ sample_vels, samplePotentialVels fuel cfg robot_vel_x robot_vel_theta
        = some (true, sample_vels)
      ∧ ∃ it ∈ sample_vels, ∃ s, evalCandidate fuel h cfg robot_vel_x robot_vel_theta
          robot_pose_x robot_pose_y robot_pose_theta
          (cutGlobalPlan global_plan size_x size_y robot_pose_x robot_pose_y) costmap size_x
          size_y resolution origin_x origin_y transformed_plan it = some (some s)
        ∧ s < 10 ^ 10) :
    ∃ (before after : List (α × α)) (s : α),
      samplePotentialVels fuel cfg robot_vel_x robot_vel_theta
          = some (true, before ++ (new_cmd_x, new_cmd_theta) :: after)
        ∧ evalCandidate fuel h cfg robot_vel_x robot_vel_theta robot_pose_x robot_pose_y
            robot_pose_theta (cutGlobalPlan global_plan size_x size_y robot_pose_x robot_pose_y)
            costmap size_x size_y resolution origin_x origin_y transformed_plan
            (new_cmd_x, new_cmd_theta) = some (some s)
        ∧ (∀ it ∈ before, ∀ s', evalCandidate fuel h cfg robot_vel_x robot_vel_theta
            robot_pose_x robot_pose_y robot_pose_theta
            (cutGlobalPlan global_plan size_x size_y robot_pose_x robot_pose_y) costmap size_x
            size_y resolution origin_x origin_y transformed_plan it = some (some s') → s < s')
        ∧ (∀ it ∈ after, ∀ s', evalCandidate fuel h cfg robot_vel_x robot_vel_theta
            robot_pose_x robot_pose_y robot_pose_theta
            (cutGlobalPlan global_plan size_x size_y robot_pose_x robot_pose_y) costmap size_x
            size_y resolution origin_x origin_y transformed_plan it = some (some s') →
            s ≤ s') := by
  obtain ⟨sample_vels, hsample, it0, hit0, s0, heval0, hs0⟩ := hbelow
  unfold computeVelocityCommands at hsuccess
  rw [hsample] at hsuccess
  simp only [Option.map_eq_some'] at hsuccess
  obtain ⟨st, hloop, hst⟩ := hsuccess
  have hx : st.2.1 = new_cmd_x := by
    have := congrArg (fun r : Bool × α × α => r.2.1) hst
    exact this
  have ht : st.2.2 = new_cmd_theta := by
    have := congrArg (fun r : Bool × α × α => r.2.2) hst
    exact this
  rcases selectLoop_result fuel h cfg robot_vel_x robot_vel_theta robot_pose_x robot_pose_y
      robot_pose_theta _ costmap size_x size_y resolution origin_x origin_y transformed_plan
      sample_vels _ st hloop with ⟨-, hall⟩ | ⟨pre, c, post, hsplit, he, -, hc, hpre, hpost⟩
  · exact absurd (hall it0 hit0 s0 heval0) (not_le.mpr hs0)
  · have hc1 : c.1 = new_cmd_x := by
      rw [← hx, he]
    have hc2 : c.2 = new_cmd_theta := by
      rw [← ht, he]
    have hceq : c = (new_cmd_x, new_cmd_theta) := Prod.ext hc1 hc2
    rw [hceq] at hsplit hc
    exact ⟨pre, post, st.1, by rw [hsample, hsplit], hc, hpre, hpost⟩

end CommandSelector

/-! ## The default scenario over the reals

The robot at rest at `(0, 0, 0)`, the default configuration, every cell free, and `cos`, `sin`,
`sqrt` the real functions. -/

section Real

theorem planarDist_real_ge (ax ay bx b_y : ℝ) :
    |ax - bx| ≤ planarDist ⟨Real.cos, Real.sin, Real.sqrt⟩ ax ay bx b_y := by
  unfold planarDist
  apply Real.abs_le_sqrt
  nlinarith [sq_nonneg (ay - b_y)]

theorem planarDist_real_ge_y (ax ay bx b_y : ℝ) :
    |ay - b_y| ≤ planarDist ⟨Real.cos, Real.sin, Real.sqrt⟩ ax ay bx b_y := by
  unfold planarDist
  apply Real.abs_le_sqrt
  nlinarith [sq_nonneg (ax - bx)]

theorem planarDist_real_axis (ax bx : ℝ) :
    planarDist ⟨Real.cos, Real.sin, Real.sqrt⟩ ax 0 bx 0 = |ax - bx| := by
  unfold planarDist
  simp only [sub_self, ne_eq, OfNat.ofNat_ne_zero, not_false_eq_true, zero_pow, add_zero]
  exact Real.sqrt_sq_eq_abs _

theorem planarDist_real_nonneg (ax ay bx b_y : ℝ) :
    0 ≤ planarDist ⟨Real.cos, Real.sin, Real.sqrt⟩ ax ay bx b_y :=
  Real.sqrt_nonneg _

theorem planarDist_real_le (ax ay bx b_y r : ℝ) (hr : 0 ≤ r)
    (h : (ax - bx) ^ 2 + (ay - b_y) ^ 2 ≤ r ^ 2) :
    planarDist ⟨Real.cos, Real.sin, Real.sqrt⟩ ax ay bx b_y ≤ r := by
  unfold planarDist
  exact Real.sqrt_le_iff.mpr ⟨hr, h⟩

theorem dis2pathLoop_real_nonneg (e : Pose ℝ) (plan : List (ℝ × ℝ)) :
    0 ≤ dis2pathLoop ⟨Real.cos, Real.sin, Real.sqrt⟩ e plan (bigScore ℝ) := by
  obtain ⟨-, -, h3⟩ := dis2pathLoop_spec ⟨Real.cos, Real.sin, Real.sqrt⟩ e plan (bigScore ℝ)
  rcases h3 with h3 | ⟨w, -, h3⟩
  · rw [h3]; unfold bigScore; positivity
  · rw [h3]; exact planarDist_real_nonneg _ _ _ _

theorem restEndPose_real_x_le (v w : ℝ) (hv : 0 ≤ v) :
    (restEndPose ⟨Real.cos, Real.sin, Real.sqrt⟩ v w).x ≤ 2 * v := by
  have hT : (defaultConfig ℝ).control_period = 1 / 5 := by norm_num [defaultConfig]
  unfold restEndPose
  simp only [hT, zero_add]
  have hsum : ∑ j in Finset.range 10, v * Real.cos ((j : ℝ) * (w * (15 / 10) * (1 / 5))) * (1 / 5)
      ≤ ∑ _j in Finset.range 10, v * (1 / 5) := by
    apply Finset.sum_le_sum
    intro j _
    have := Real.cos_le_one ((j : ℝ) * (w * (15 / 10) * (1 / 5)))
    nlinarith
  simp only [Finset.sum_const, Finset.card_range, nsmul_eq_mul] at hsum
  norm_num at hsum ⊢
  linarith

theorem cos_small_lt_one (x : ℝ) (h0 : x ≠ 0) (h1 : -1 ≤ x) (h2 : x ≤ 1) : Real.cos x < 1 := by
  have hpi := Real.pi_gt_three
  refine lt_of_le_of_ne (Real.cos_le_one x) (fun hc => h0 ?_)
  exact (Real.cos_eq_one_iff_of_lt_of_lt (by linarith) (by linarith)).mp hc

theorem restEndPose_real_x_lt (v w : ℝ) (hv : 0 < v) (hw : w ≠ 0) (hw0 : -(6 / 25) ≤ w)
    (hw1 : w ≤ 6 / 25) :
    (restEndPose ⟨Real.cos, Real.sin, Real.sqrt⟩ v w).x < 2 * v := by
  have hT : (defaultConfig ℝ).control_period = 1 / 5 := by norm_num [defaultConfig]
  unfold restEndPose
  simp only [hT, zero_add]
  have hsum : ∑ j in Finset.range 10, v * Real.cos ((j : ℝ) * (w * (15 / 10) * (1 / 5))) * (1 / 5)
      < ∑ _j in Finset.range 10, v * (1 / 5) := by
    apply Finset.sum_lt_sum
    · intro j _
      have := Real.cos_le_one ((j : ℝ) * (w * (15 / 10) * (1 / 5)))
      nlinarith
    · refine ⟨1, by simp, ?_⟩
      have hc := cos_small_lt_one (((1 : Nat) : ℝ) * (w * (15 / 10) * (1 / 5)))
        (by norm_num; exact hw) (by norm_num; linarith) (by norm_num; linarith)
      nlinarith
  simp only [Finset.sum_const, Finset.card_range, nsmul_eq_mul] at hsum
  norm_num at hsum ⊢
  linarith

theorem restEndPose_real_best :
    restEndPose ⟨Real.cos, Real.sin, Real.sqrt⟩ (1 / 20) 0 = ⟨1 / 10, 0, 0⟩ := by
  unfold restEndPose
  norm_num [defaultConfig]

/-- On a path along the x-axis ending at `(5, 0)`, an end pose with `x ≤ 0.1` scores at least
`8·(0.1 - x)` more than the end pose `(0.1, 0)`. -/
theorem freeScore_straight_lower (plan : List (ℝ × ℝ)) (hstraight : ∀ w ∈ plan, w.2 = 0)
    (e : Pose ℝ) (hx : e.x ≤ 1 / 10) (theta : ℝ) :
    freeScore ⟨Real.cos, Real.sin, Real.sqrt⟩ (defaultConfig ℝ) ⟨1 / 10, 0, theta⟩ plan (5, 0)
        + 8 * (1 / 10 - e.x)
      ≤ freeScore ⟨Real.cos, Real.sin, Real.sqrt⟩ (defaultConfig ℝ) e plan (5, 0) := by
  have hgoalA : planarDist ⟨Real.cos, Real.sin, Real.sqrt⟩ (1 / 10) 0 5 0 = 49 / 10 := by
    rw [planarDist_real_axis]; norm_num [abs_of_neg]
  have hgoalE : 5 - e.x ≤ planarDist ⟨Real.cos, Real.sin, Real.sqrt⟩ e.x e.y 5 0 := by
    have h1 := planarDist_real_ge e.x e.y 5 0
    have h2 := neg_abs_le (e.x - 5)
    linarith
  have hpath : dis2pathLoop ⟨Real.cos, Real.sin, Real.sqrt⟩ ⟨1 / 10, 0, theta⟩ plan (bigScore ℝ)
      ≤ dis2pathLoop ⟨Real.cos, Real.sin, Real.sqrt⟩ e plan (bigScore ℝ) + (1 / 10 - e.x) := by
    obtain ⟨a1, a2, -⟩ := dis2pathLoop_spec ⟨Real.cos, Real.sin, Real.sqrt⟩
      ⟨1 / 10, 0, theta⟩ plan (bigScore ℝ)
    obtain ⟨-, -, e3⟩ := dis2pathLoop_spec ⟨Real.cos, Real.sin, Real.sqrt⟩ e plan (bigScore ℝ)
    rcases e3 with e3 | ⟨w, hw, e3⟩
    · rw [e3]; linarith
    · rw [e3]
      have hA := a2 w hw
      simp only [hstraight w hw] at hA ⊢
      rw [planarDist_real_axis] at hA
      have h1 := planarDist_real_ge e.x e.y w.1 0
      have h2 : |1 / 10 - w.1| ≤ |1 / 10 - e.x| + |e.x - w.1| := by
        have := abs_add (1 / 10 - e.x) (e.x - w.1)
        simpa using this
      have h3 : |1 / 10 - e.x| = 1 / 10 - e.x := abs_of_nonneg (by linarith)
      linarith
  unfold freeScore
  simp only [hgoalA]
  norm_num [defaultConfig]
  linarith

/-- The end pose `(0.1, 0)` scores below the initial `min_score` on a path ending at `(5, 0)`. -/
theorem freeScore_best_lt_big (plan : List (ℝ × ℝ)) (hgoal : plan.getLast? = some (5, 0))
    (theta : ℝ) :
    freeScore ⟨Real.cos, Real.sin, Real.sqrt⟩ (defaultConfig ℝ) ⟨1 / 10, 0, theta⟩ plan (5, 0)
      < bigScore ℝ := by
  have hgoalA : planarDist ⟨Real.cos, Real.sin, Real.sqrt⟩ (1 / 10) 0 5 0 = 49 / 10 := by
    rw [planarDist_real_axis]; norm_num [abs_of_neg]
  obtain ⟨-, a2, -⟩ := dis2pathLoop_spec ⟨Real.cos, Real.sin, Real.sqrt⟩
    ⟨1 / 10, 0, theta⟩ plan (bigScore ℝ)
  have hmem : ((5 : ℝ), (0 : ℝ)) ∈ plan := List.mem_of_getLast?_eq_some hgoal
  have hA := a2 _ hmem
  simp only [hgoalA] at hA
  unfold freeScore
  simp only [hgoalA]
  generalize dis2pathLoop ⟨Real.cos, Real.sin, Real.sqrt⟩ ⟨1 / 10, 0, theta⟩ plan (bigScore ℝ)
    = L at hA ⊢
  unfold bigScore
  norm_num [defaultConfig]
  linarith

/-- What the selection loop finds for each candidate of the default window, the robot at rest at
`(0, 0, 0)` on a free grid with no candidate colliding: the free-grid score of its end pose. -/
theorem rest_scenario_eval (fuel : Nat) (h : Host ℝ)
    (hmath : h.math = ⟨Real.cos, Real.sin, Real.sqrt⟩)
    (hfree1 : ∀ mx my, h.getCost mx my = FREE_SPACE)
    (plan : List (ℝ × ℝ)) (g : ℝ × ℝ) (hgoal : plan.getLast? = some g)
    (costmap : Int → Int → Nat) (hfree2 : ∀ i j, costmap i j = FREE_SPACE)
    (size_x size_y : Int) (resolution origin_x origin_y : ℝ)
    (transformed_plan : List (ℝ × ℝ)) (htplan : transformed_plan ≠ [])
    (hfuel2 : lookaheadFuel (lookaheadCells h (transformed_plan.getLast htplan)) ≤ fuel)
    (hnocoll : ∀ c ∈ sampleGrid 11 21 (0 : ℝ) (1 / 200) (-(6 / 25)) (3 / 125), ∀ traj,
      generateTrajectory fuel h (defaultConfig ℝ) 0 0 0 0 0 c.1 c.2 [] transformed_plan
        = some traj → isPathFeasible h.footprintCost traj = true)
    (c : ℝ × ℝ) (hc : c ∈ sampleGrid 11 21 (0 : ℝ) (1 / 200) (-(6 / 25)) (3 / 125)) :
    evalCandidate fuel h (defaultConfig ℝ) 0 0 0 0 0 plan costmap size_x size_y
        resolution origin_x origin_y transformed_plan c
      = some (some (freeScore ⟨Real.cos, Real.sin, Real.sqrt⟩ (defaultConfig ℝ)
          (restEndPose ⟨Real.cos, Real.sin, Real.sqrt⟩ c.1 c.2) plan g)) := by
  obtain ⟨⟨hv0, hv1⟩, hw0, hw1⟩ := defaultConfig_candidate_bounds c hc
  rw [← hmath]
  exact evalCandidate_from_rest fuel h hfree1 plan g hgoal costmap hfree2 size_x size_y
    resolution origin_x origin_y transformed_plan htplan hfuel2 c hv0 hv1 hw0 hw1
    (hnocoll c hc)

/-- In the scenario of the straight path every candidate other than `(0.05, 0)` scores more
than it. -/
theorem straight_path_score_lt (plan : List (ℝ × ℝ)) (hstraight : ∀ w ∈ plan, w.2 = 0)
    (c : ℝ × ℝ) (hc : c ∈ sampleGrid 11 21 (0 : ℝ) (1 / 200) (-(6 / 25)) (3 / 125))
    (hne : c ≠ (1 / 20, 0)) :
    freeScore ⟨Real.cos, Real.sin, Real.sqrt⟩ (defaultConfig ℝ)
        (restEndPose ⟨Real.cos, Real.sin, Real.sqrt⟩ (1 / 20) 0) plan (5, 0)
      < freeScore ⟨Real.cos, Real.sin, Real.sqrt⟩ (defaultConfig ℝ)
        (restEndPose ⟨Real.cos, Real.sin, Real.sqrt⟩ c.1 c.2) plan (5, 0) := by
  obtain ⟨⟨hv0, hv1⟩, hw0, hw1⟩ := defaultConfig_candidate_bounds c hc
  have hx : (restEndPose ⟨Real.cos, Real.sin, Real.sqrt⟩ c.1 c.2).x < 1 / 10 := by
    rcases lt_or_eq_of_le hv1 with hlt | heq
    · have := restEndPose_real_x_le c.1 c.2 hv0
      linarith
    · have hw : c.2 ≠ 0 := fun h0 => hne (Prod.ext heq h0)
      have := restEndPose_real_x_lt c.1 c.2 (by rw [heq]; norm_num) hw hw0 hw1
      linarith
  have := freeScore_straight_lower plan hstraight
    (restEndPose ⟨Real.cos, Real.sin, Real.sqrt⟩ c.1 c.2) hx.le 0
  rw [restEndPose_real_best]
  linarith

/-- The scenario of the straight path: robot at rest at `(0, 0, 0)`, default configuration, every
cell free, no candidate colliding, a path along the x-axis ending at `(5, 0)`.  The selection
loop ends with the candidate `(0.05, 0)`. -/
theorem straight_path_selection (fuel : Nat) (h : Host ℝ)
    (hmath : h.math = ⟨Real.cos, Real.sin, Real.sqrt⟩)
    (hfree1 : ∀ mx my, h.getCost mx my = FREE_SPACE)
    (global_plan : List (ℝ × ℝ)) (hgoal : global_plan.getLast? = some (5, 0))
    (hstraight : ∀ w ∈ global_plan, w.2 = 0)
    (costmap : Int → Int → Nat) (hfree2 : ∀ i j, costmap i j = FREE_SPACE)
    (size_x size_y : Int) (hsize : 0 ≤ size_y) (resolution origin_x origin_y : ℝ)
    (cmd_vel_x cmd_vel_theta : ℝ)
    (transformed_plan : List (ℝ × ℝ)) (htplan : transformed_plan ≠ [])
    (hfuel : 22 ≤ fuel)
    (hfuel2 : lookaheadFuel (lookaheadCells h (transformed_plan.getLast htplan)) ≤ fuel)
    (hnocoll : ∀ c ∈ sampleGrid 11 21 (0 : ℝ) (1 / 200) (-(6 / 25)) (3 / 125), ∀ traj,
      generateTrajectory fuel h (defaultConfig ℝ) 0 0 0 0 0 c.1 c.2 [] transformed_plan
        = some traj → isPathFeasible h.footprintCost traj = true) :
    computeVelocityCommands fuel h (defaultConfig ℝ) 0 0 0 0 0 global_plan costmap size_x size_y
        resolution origin_x origin_y cmd_vel_x cmd_vel_theta transformed_plan
      = some (true, 1 / 20, 0) := by
  have hcut : cutGlobalPlan global_plan size_x size_y (0 : ℝ) 0 = global_plan := by
    apply cutGlobalPlan_eq_self
    intro p hp hgt
    have h2 := hgt.2
    rw [hstraight p hp] at h2
    have : (0 : ℝ) ≤ (size_y : ℝ) := by exact_mod_cast hsize
    simp only [sub_self, abs_zero, gt_iff_lt] at h2
    linarith
  have heval := rest_scenario_eval fuel h hmath hfree1 global_plan (5, 0) hgoal costmap hfree2
    size_x size_y resolution origin_x origin_y transformed_plan htplan hfuel2 hnocoll
  obtain ⟨before, after, hsplit, hnot⟩ :=
    List.eq_append_cons_of_mem (@defaultConfig_best_mem ℝ _)
  have hmem : ∀ c, c ∈ before ∨ c ∈ after →
      c ∈ sampleGrid 11 21 (0 : ℝ) (1 / 200) (-(6 / 25)) (3 / 125) := by
    intro c hc
    rw [hsplit]
    rcases hc with hc | hc
    · exact List.mem_append_left _ hc
    · exact List.mem_append_right _ (List.mem_cons_of_mem _ hc)
  unfold computeVelocityCommands
  rw [defaultConfig_candidates fuel hfuel]
  simp only [hcut]
  rw [hsplit, selectLoop_first_min fuel h (defaultConfig ℝ) 0 0 0 0 0 global_plan costmap size_x
    size_y resolution origin_x origin_y transformed_plan (1 / 20, 0) _
    (heval _ defaultConfig_best_mem) after ?_ before (bigScore ℝ, cmd_vel_x, cmd_vel_theta) ?_ ?_]
  · rfl
  · intro c hc
    right
    refine ⟨_, heval c (hmem c (Or.inr hc)), ?_⟩
    by_cases hne : c = (1 / 20, 0)
    · rw [hne]
    · exact (straight_path_score_lt global_plan hstraight c (hmem c (Or.inr hc)) hne).le
  · simp only [restEndPose_real_best]
    exact freeScore_best_lt_big global_plan hgoal 0
  · intro c hc
    right
    refine ⟨_, heval c (hmem c (Or.inl hc)), ?_⟩
    exact straight_path_score_lt global_plan hstraight c (hmem c (Or.inl hc))
      (fun hne => hnot (hne ▸ hc))

theorem lookaheadFuel_local_grid (m : Cmath ℝ) (footprintCost : ℝ → ℝ → ℝ → ℝ)
    (hplan : [((5 : ℝ), (0 : ℝ))] ≠ []) :
    lookaheadFuel (lookaheadCells
      (⟨m, footprintCost, fun _ _ => 0, fun wx wy => some (⌊wx + 50⌋₊, ⌊wy + 50⌋₊), (0, 0), (0, 0),
        (0, 0)⟩ : Host ℝ) ([((5 : ℝ), (0 : ℝ))].getLast hplan)) = 6 := by
  simp only [lookaheadFuel, lookaheadCells, List.getLast_singleton]
  norm_num

/-- Claim C1, the code at the failing input: default configuration, robot at rest at `(0, 0, 0)`,
goal `(5, 0)`, every cell free, and a footprint test that reports a collision (`-1`) at every
pose.  The sampler yields its `11 · 21` candidates, every trajectory is rejected, and the call
still returns `true`, handing back the command `(0.3, 0.1)` it was called with. -/
theorem computeVelocityCommands_all_infeasible_witness :
    samplePotentialVels 22 (defaultConfig ℝ) 0 0
        = some (true, sampleGrid 11 21 0 (1 / 200) (-(6 / 25)) (3 / 125))
      ∧ computeVelocityCommands 22
          ⟨⟨Real.cos, Real.sin, Real.sqrt⟩, fun _ _ _ => -1, fun _ _ => 0,
            fun wx wy => some (⌊wx + 50⌋₊, ⌊wy + 50⌋₊), (0, 0), (0, 0), (0, 0)⟩
          (defaultConfig ℝ) 0 0 0 0 0 [(5, 0)] (fun _ _ => 0) 100 100 1 (-50) (-50)
          (3 / 10) (1 / 10) [(5, 0)]
        = some (true, 3 / 10, 1 / 10) :=
  ⟨defaultConfig_candidates 22 (le_refl 22),
    computeVelocityCommands_all_infeasible 22 _ (defaultConfig ℝ) 0 0 0 0 0 [(5, 0)]
      (fun _ _ => 0) 100 100 1 (-50) (-50) (3 / 10) (1 / 10) [(5, 0)] _
      (defaultConfig_candidates 22 (le_refl 22))
      (fun c hc => by
        obtain ⟨⟨hv0, hv1⟩, hw0, hw1⟩ := defaultConfig_candidate_bounds c hc
        refine ⟨_, generateTrajectory_from_rest 22 _ (fun _ _ => by show (0 : Nat) ≠ LETHAL_OBSTACLE; decide) 0 0 0 c.1 c.2
          [(5, 0)] (by simp) ?_ hv0 hv1 hw0 hw1, ?_⟩
        · rw [lookaheadFuel_local_grid]
          decide
        · simp [unicyclePoses, isPathFeasible])⟩

/-- The selection in the default configuration with the robot at rest at `(0, 0, 0)`, the path
`[(5, 0)]`, every cell free and a footprint test that never reports a collision: the call
succeeds with `(0.05, 0)`, the candidate `(0.05, 0)` is feasible with a cost below `1e10`, and it
is the first candidate of minimum cost. -/
theorem computeVelocityCommands_selects_first_minimum_witness :
    ∃ (before after : List (ℝ × ℝ)) (s : ℝ),
      samplePotentialVels 22 (defaultConfig ℝ) 0 0
          = some (true, before ++ ((1 / 20 : ℝ), (0 : ℝ)) :: after)
        ∧ evalCandidate 22
            ⟨⟨Real.cos, Real.sin, Real.sqrt⟩, fun _ _ _ => 0, fun _ _ => 0,
              fun wx wy => some (⌊wx + 50⌋₊, ⌊wy + 50⌋₊), (0, 0), (0, 0), (0, 0)⟩
            (defaultConfig ℝ) 0 0 0 0 0 (cutGlobalPlan [(5, 0)] 100 100 0 0) (fun _ _ => 0)
            100 100 1 (-50) (-50) [(5, 0)] (1 / 20, 0) = some (some s)
        ∧ (∀ it ∈ before, ∀ s', evalCandidate 22
            ⟨⟨Real.cos, Real.sin, Real.sqrt⟩, fun _ _ _ => 0, fun _ _ => 0,
              fun wx wy => some (⌊wx + 50⌋₊, ⌊wy + 50⌋₊), (0, 0), (0, 0), (0, 0)⟩
            (defaultConfig ℝ) 0 0 0 0 0 (cutGlobalPlan [(5, 0)] 100 100 0 0) (fun _ _ => 0)
            100 100 1 (-50) (-50) [(5, 0)] it = some (some s') → s < s')
        ∧ (∀ it ∈ after, ∀ s', evalCandidate 22
            ⟨⟨Real.cos, Real.sin, Real.sqrt⟩, fun _ _ _ => 0, fun _ _ => 0,
              fun wx wy => some (⌊wx + 50⌋₊, ⌊wy + 50⌋₊), (0, 0), (0, 0), (0, 0)⟩
            (defaultConfig ℝ) 0 0 0 0 0 (cutGlobalPlan [(5, 0)] 100 100 0 0) (fun _ _ => 0)
            100 100 1 (-50) (-50) [(5, 0)] it = some (some s') → s ≤ s') := by
  have hfuel2 : lookaheadFuel (lookaheadCells
      (⟨⟨Real.cos, Real.sin, Real.sqrt⟩, fun _ _ _ => 0, fun _ _ => 0,
        fun wx wy => some (⌊wx + 50⌋₊, ⌊wy + 50⌋₊), (0, 0), (0, 0), (0, 0)⟩ : Host ℝ)
      ([((5 : ℝ), (0 : ℝ))].getLast (by simp))) ≤ 22 := by
    rw [lookaheadFuel_local_grid]
    decide
  have hnocoll : ∀ c ∈ sampleGrid 11 21 (0 : ℝ) (1 / 200) (-(6 / 25)) (3 / 125), ∀ traj,
      generateTrajectory 22
        (⟨⟨Real.cos, Real.sin, Real.sqrt⟩, fun _ _ _ => 0, fun _ _ => 0,
          fun wx wy => some (⌊wx + 50⌋₊, ⌊wy + 50⌋₊), (0, 0), (0, 0), (0, 0)⟩ : Host ℝ)
        (defaultConfig ℝ) 0 0 0 0 0 c.1 c.2 [] [(5, 0)] = some traj →
      isPathFeasible (fun _ _ _ => (0 : ℝ)) traj = true := by
    intro c _ traj _
    rw [isPathFeasible_eq_true_iff]
    intro p _
    norm_num
  have hcut : cutGlobalPlan [((5 : ℝ), (0 : ℝ))] 100 100 0 0 = [(5, 0)] := by
    norm_num [cutGlobalPlan]
  exact computeVelocityCommands_selects_first_minimum 22 _ (defaultConfig ℝ) 0 0 0 0 0 [(5, 0)]
    (fun _ _ => 0) 100 100 1 (-50) (-50) 0 0 [(5, 0)] (1 / 20) 0
    (straight_path_selection 22 _ rfl (fun _ _ => rfl) [(5, 0)] rfl (by simp) (fun _ _ => 0)
      (fun _ _ => rfl) 100 100 (by decide) 1 (-50) (-50) 0 0 [(5, 0)] (by simp)
      (le_refl 22) hfuel2 hnocoll)
    ⟨_, defaultConfig_candidates 22 (le_refl 22), (1 / 20, 0), defaultConfig_best_mem, _,
      by
        rw [hcut]
        exact rest_scenario_eval 22 _ rfl (fun _ _ => rfl) [(5, 0)] (5, 0) rfl (fun _ _ => 0)
          (fun _ _ => rfl) 100 100 1 (-50) (-50) [(5, 0)] (by simp) hfuel2 hnocoll
          (1 / 20, 0) defaultConfig_best_mem,
      by
        simp only [restEndPose_real_best]
        exact freeScore_best_lt_big [(5, 0)] rfl 0⟩

/-- Claim C2, the code at the failing input: default configuration, robot at rest at `(0, 0, 0)`,
every cell free, no collision, the lookahead goal `(5, 0)` inside the grid, and a global plan
whose only waypoint is `(1e12, 0)` (kept by `cutGlobalPlan`, since it exceeds the window in one
axis only).  Every candidate is feasible and is scored at least `40 · (1e12 - 0.1)`, which is
not below the initial `min_score = 1e10`, so no candidate is ever selected: the call reports
success and leaves the command at the `(7, 7)` it was called with, which is not the velocity of
any sampled candidate. -/
theorem computeVelocityCommands_far_goal_keeps_command :
    computeVelocityCommands 22
        ⟨⟨Real.cos, Real.sin, Real.sqrt⟩, fun _ _ _ => 0, fun _ _ => 0,
          fun wx wy => some (⌊wx + 50⌋₊, ⌊wy + 50⌋₊), (0, 0), (0, 0), (0, 0)⟩
        (defaultConfig ℝ) 0 0 0 0 0 [(1000000000000, 0)] (fun _ _ => 0) 100 100 1 (-50)
        (-50) 7 7 [(5, 0)]
      = some (true, 7, 7)
    ∧ samplePotentialVels 22 (defaultConfig ℝ) 0 0
      = some (true, sampleGrid 11 21 0 (1 / 200) (-(6 / 25)) (3 / 125))
    ∧ ((7 : ℝ), (7 : ℝ)) ∉ sampleGrid 11 21 (0 : ℝ) (1 / 200) (-(6 / 25)) (3 / 125)
    ∧ cutGlobalPlan [((1000000000000 : ℝ), (0 : ℝ))] 100 100 0 0 = [(1000000000000, 0)]
    ∧ (∀ c ∈ sampleGrid 11 21 (0 : ℝ) (1 / 200) (-(6 / 25)) (3 / 125),
        ∃ s, evalCandidate 22
            ⟨⟨Real.cos, Real.sin, Real.sqrt⟩, fun _ _ _ => 0, fun _ _ => 0,
              fun wx wy => some (⌊wx + 50⌋₊, ⌊wy + 50⌋₊), (0, 0), (0, 0), (0, 0)⟩
            (defaultConfig ℝ) 0 0 0 0 0 (cutGlobalPlan [(1000000000000, 0)] 100 100 0 0)
            (fun _ _ => 0) 100 100 1 (-50) (-50) [(5, 0)] c = some (some s)
          ∧ (10 : ℝ) ^ 10 ≤ s) := by
  have hfuel2 : lookaheadFuel (lookaheadCells
      (⟨⟨Real.cos, Real.sin, Real.sqrt⟩, fun _ _ _ => 0, fun _ _ => 0,
        fun wx wy => some (⌊wx + 50⌋₊, ⌊wy + 50⌋₊), (0, 0), (0, 0), (0, 0)⟩ : Host ℝ)
      ([((5 : ℝ), (0 : ℝ))].getLast (by simp))) ≤ 22 := by
    rw [lookaheadFuel_local_grid]
    decide
  have hnocoll : ∀ c ∈ sampleGrid 11 21 (0 : ℝ) (1 / 200) (-(6 / 25)) (3 / 125), ∀ traj,
      generateTrajectory 22
        (⟨⟨Real.cos, Real.sin, Real.sqrt⟩, fun _ _ _ => 0, fun _ _ => 0,
          fun wx wy => some (⌊wx + 50⌋₊, ⌊wy + 50⌋₊), (0, 0), (0, 0), (0, 0)⟩ : Host ℝ)
        (defaultConfig ℝ) 0 0 0 0 0 c.1 c.2 [] [(5, 0)] = some traj →
      isPathFeasible (fun _ _ _ => (0 : ℝ)) traj = true := by
    intro c _ traj _
    rw [isPathFeasible_eq_true_iff]
    intro p _
    norm_num
  have hcut : cutGlobalPlan [((1000000000000 : ℝ), (0 : ℝ))] 100 100 0 0
      = [(1000000000000, 0)] := by
    norm_num [cutGlobalPlan]
  have heval := rest_scenario_eval 22 _ rfl (fun _ _ => rfl)
    [((1000000000000 : ℝ), (0 : ℝ))] (1000000000000, 0) rfl (fun _ _ => 0) (fun _ _ => rfl)
    100 100 1 (-50) (-50) [(5, 0)] (by simp) hfuel2 hnocoll
  have hsample := @defaultConfig_candidates ℝ _ 22 (le_refl 22)
  have hbig : ∀ c ∈ sampleGrid 11 21 (0 : ℝ) (1 / 200) (-(6 / 25)) (3 / 125),
      bigScore ℝ ≤ freeScore ⟨Real.cos, Real.sin, Real.sqrt⟩ (defaultConfig ℝ)
        (restEndPose ⟨Real.cos, Real.sin, Real.sqrt⟩ c.1 c.2) [(1000000000000, 0)]
        (1000000000000, 0) := by
    intro c hc
    obtain ⟨⟨hv0, -⟩, -, -⟩ := defaultConfig_candidate_bounds c hc
    have hx := restEndPose_real_x_le c.1 c.2 hv0
    obtain ⟨⟨-, hv1⟩, -, -⟩ := defaultConfig_candidate_bounds c hc
    have hd := planarDist_real_ge (restEndPose ⟨Real.cos, Real.sin, Real.sqrt⟩ c.1 c.2).x
      (restEndPose ⟨Real.cos, Real.sin, Real.sqrt⟩ c.1 c.2).y 1000000000000 0
    have hL := dis2pathLoop_real_nonneg (restEndPose ⟨Real.cos, Real.sin, Real.sqrt⟩ c.1 c.2)
      [(1000000000000, 0)]
    have habs := neg_abs_le
      ((restEndPose ⟨Real.cos, Real.sin, Real.sqrt⟩ c.1 c.2).x - 1000000000000)
    unfold freeScore
    simp only []
    generalize dis2pathLoop ⟨Real.cos, Real.sin, Real.sqrt⟩
      (restEndPose ⟨Real.cos, Real.sin, Real.sqrt⟩ c.1 c.2) [(1000000000000, 0)]
      (bigScore ℝ) = L at hL ⊢
    unfold bigScore
    norm_num [defaultConfig]
    linarith
  refine ⟨?_, hsample, ?_, hcut, ?_⟩
  · unfold computeVelocityCommands
    rw [hsample]
    simp only [hcut]
    rw [selectLoop_no_update]
    · rfl
    · intro c hc
      exact Or.inr ⟨_, heval c hc, hbig c hc⟩
  · intro hmem
    have := (defaultConfig_candidate_bounds _ hmem).1.2
    norm_num at this
  · intro c hc
    rw [hcut]
    exact ⟨_, heval c hc, hbig c hc⟩

/-- Claim C7 (amended): default configuration, robot at pose `(0, 0, 0)` with velocity `(0, 0)`,
every cell of the grid free, a reference path whose waypoints all lie on the x-axis, the line
through the robot along its heading, and which ends at the goal `(5, 0)`.  On every such input in
which no sampled candidate's trajectory collides, `computeVelocityCommands` succeeds and selects
the command `(0.05, 0)`: strictly positive linear velocity, angular velocity of magnitude no
larger than one angular sampling step. -/
theorem computeVelocityCommands_straight_path (fuel : Nat) (h : Host ℝ)
    (global_plan : List (ℝ × ℝ)) (costmap : Int → Int → Nat) (size_x size_y : Int)
    (resolution origin_x origin_y cmd_vel_x cmd_vel_theta : ℝ)
    (transformed_plan : List (ℝ × ℝ))
    (hmath : h.math = ⟨Real.cos, Real.sin, Real.sqrt⟩)
    (hfree1 : ∀ mx my, h.getCost mx my = FREE_SPACE)
    (hfree2 : ∀ i j, costmap i j = FREE_SPACE)
    (hgoal : global_plan.getLast? = some (5, 0))
    (hstraight : ∀ w ∈ global_plan, w.2 = 0)
    (hsize : 0 ≤ size_y)
    (htplan : transformed_plan ≠ [])
    (hfuel : 22 ≤ fuel)
    (hfuel2 : lookaheadFuel (lookaheadCells h (transformed_plan.getLast htplan)) ≤ fuel)
    (hnocoll : ∀ sample_vels, samplePotentialVels fuel (defaultConfig ℝ) 0 0
        = some (true, sample_vels) →
      ∀ it ∈ sample_vels, ∀ traj,
        generateTrajectory fuel h (defaultConfig ℝ) 0 0 0 0 0 it.1 it.2 [] transformed_plan
          = some traj → isPathFeasible h.footprintCost traj = true) :
    ∃ new_cmd_x new_cmd_theta : ℝ,
      computeVelocityCommands fuel h (defaultConfig ℝ) 0 0 0 0 0 global_plan costmap size_x
          size_y resolution origin_x origin_y cmd_vel_x cmd_vel_theta transformed_plan
        = some (true, new_cmd_x, new_cmd_theta)
      ∧ (new_cmd_x = 1 / 20 ∧ new_cmd_theta = 0)
      ∧ 0 < new_cmd_x
      ∧ |new_cmd_theta| ≤ (windowMaxTheta (defaultConfig ℝ) 0 - windowMinTheta (defaultConfig ℝ) 0)
          / ((defaultConfig ℝ).vth_samples : ℝ) := by
  refine ⟨1 / 20, 0, ?_, ⟨rfl, rfl⟩, by norm_num, ?_⟩
  · exact straight_path_selection fuel h hmath hfree1 global_plan hgoal hstraight costmap hfree2
      size_x size_y hsize resolution origin_x origin_y cmd_vel_x cmd_vel_theta transformed_plan
      htplan hfuel hfuel2 (hnocoll _ (defaultConfig_candidates fuel hfuel))
  · norm_num [windowMaxTheta, windowMinTheta, defaultConfig]

/-- Claim C7 (amended), on the path `[(0, 0), (5, 0)]` with a footprint test that never reports
a collision, over a free grid of `100 × 100` cells. -/
theorem computeVelocityCommands_straight_path_witness :
    ∃ new_cmd_x new_cmd_theta : ℝ,
      computeVelocityCommands 22
          ⟨⟨Real.cos, Real.sin, Real.sqrt⟩, fun _ _ _ => 0, fun _ _ => 0,
            fun wx wy => some (⌊wx + 50⌋₊, ⌊wy + 50⌋₊), (0, 0), (0, 0), (0, 0)⟩
          (defaultConfig ℝ) 0 0 0 0 0 [(0, 0), (5, 0)] (fun _ _ => 0) 100 100 1 (-50) (-50)
          0 0 [(5, 0)]
        = some (true, new_cmd_x, new_cmd_theta)
      ∧ (new_cmd_x = 1 / 20 ∧ new_cmd_theta = 0)
      ∧ 0 < new_cmd_x
      ∧ |new_cmd_theta| ≤ (windowMaxTheta (defaultConfig ℝ) 0 - windowMinTheta (defaultConfig ℝ) 0)
          / ((defaultConfig ℝ).vth_samples : ℝ) :=
  computeVelocityCommands_straight_path 22 _ [(0, 0), (5, 0)] (fun _ _ => 0) 100 100 1
    (-50) (-50) 0 0 [(5, 0)] rfl (fun _ _ => rfl) (fun _ _ => rfl) rfl
    (by intro w hw; simp at hw; rcases hw with rfl | rfl <;> rfl) (by decide) (by simp)
    (le_refl 22) (by rw [lookaheadFuel_local_grid]; decide)
    (fun _ _ it _ traj _ => by
      rw [isPathFeasible_eq_true_iff]
      intro p _
      norm_num)

theorem sin_ge_sub_cube (x : ℝ) (h0 : 0 ≤ x) (h1 : x ≤ 1) : x - x ^ 3 / 4 ≤ Real.sin x := by
  rcases eq_or_lt_of_le h0 with rfl | hpos
  · simp
  · exact (Real.sin_gt_sub_cube hpos h1).le

/-- The end pose of the candidate `(0.05, 0.24)`: it has turned to the left. -/
theorem restEndPose_real_turn :
    (2315 / 25000 ≤ (restEndPose ⟨Real.cos, Real.sin, Real.sqrt⟩ (1 / 20) (6 / 25)).x
      ∧ (restEndPose ⟨Real.cos, Real.sin, Real.sqrt⟩ (1 / 20) (6 / 25)).x ≤ 1 / 10)
    ∧ (305 / 10000 ≤ (restEndPose ⟨Real.cos, Real.sin, Real.sqrt⟩ (1 / 20) (6 / 25)).y
      ∧ (restEndPose ⟨Real.cos, Real.sin, Real.sqrt⟩ (1 / 20) (6 / 25)).y ≤ 324 / 10000) := by
  have hT : (defaultConfig ℝ).control_period = 1 / 5 := by norm_num [defaultConfig]
  have harg : ∀ j : Nat, (0 : ℝ) + (j : ℝ) * (6 / 25 * (15 / 10) * (1 / 5)) = (j : ℝ) * (9 / 125) :=
    fun j => by ring
  have hj : ∀ j ∈ Finset.range 10, (0 : ℝ) ≤ (j : ℝ) * (9 / 125) ∧ (j : ℝ) * (9 / 125) ≤ 1 := by
    intro j hj
    have h9 : (j : ℝ) ≤ 9 := by
      have := Finset.mem_range.mp hj
      exact_mod_cast Nat.lt_succ_iff.mp this
    have h0 : (0 : ℝ) ≤ (j : ℝ) := Nat.cast_nonneg j
    constructor <;> nlinarith
  refine ⟨⟨?_, by have := restEndPose_real_x_le (1 / 20) (6 / 25) (by norm_num); linarith⟩, ?_, ?_⟩
  · unfold restEndPose
    simp only [hT, harg]
    have hsum : ∑ j in Finset.range 10, (1 / 20 : ℝ) * (1 - ((j : ℝ) * (9 / 125)) ^ 2 / 2) * (1 / 5)
        ≤ ∑ j in Finset.range 10, (1 / 20 : ℝ) * Real.cos ((j : ℝ) * (9 / 125)) * (1 / 5) := by
      apply Finset.sum_le_sum
      intro j _
      have := @Real.one_sub_sq_div_two_le_cos ((j : ℝ) * (9 / 125))
      nlinarith
    have hval : ∑ j in Finset.range 10, (1 / 20 : ℝ) * (1 - ((j : ℝ) * (9 / 125)) ^ 2 / 2) * (1 / 5)
        = 926128 / 10000000 := by
      simp only [Finset.sum_range_succ, Finset.sum_range_zero]
      norm_num
    rw [hval] at hsum
    linarith
  · unfold restEndPose
    simp only [hT, harg]
    have hsum : ∑ j in Finset.range 10,
          (1 / 20 : ℝ) * ((j : ℝ) * (9 / 125) - ((j : ℝ) * (9 / 125)) ^ 3 / 4) * (1 / 5)
        ≤ ∑ j in Finset.range 10, (1 / 20 : ℝ) * Real.sin ((j : ℝ) * (9 / 125)) * (1 / 5) := by
      apply Finset.sum_le_sum
      intro j hjm
      have := sin_ge_sub_cube ((j : ℝ) * (9 / 125)) (hj j hjm).1 (hj j hjm).2
      nlinarith
    have hval : ∑ j in Finset.range 10,
          (1 / 20 : ℝ) * ((j : ℝ) * (9 / 125) - ((j : ℝ) * (9 / 125)) ^ 3 / 4) * (1 / 5)
        = 30510432 / 1000000000 := by
      simp only [Finset.sum_range_succ, Finset.sum_range_zero]
      norm_num
    rw [hval] at hsum
    linarith
  · unfold restEndPose
    simp only [hT, harg]
    have hsum : ∑ j in Finset.range 10, (1 / 20 : ℝ) * Real.sin ((j : ℝ) * (9 / 125)) * (1 / 5)
        ≤ ∑ j in Finset.range 10, (1 / 20 : ℝ) * ((j : ℝ) * (9 / 125)) * (1 / 5) := by
      apply Finset.sum_le_sum
      intro j hjm
      have := Real.sin_le (hj j hjm).1
      nlinarith
    have hval : ∑ j in Finset.range 10, (1 / 20 : ℝ) * ((j : ℝ) * (9 / 125)) * (1 / 5)
        = 324 / 10000 := by
      simp only [Finset.sum_range_succ, Finset.sum_range_zero]
      norm_num
    rw [hval] at hsum
    linarith

/-- The end pose of a candidate whose angular velocity is within one sampling step of zero
stays within `0.00324` of the x-axis. -/
theorem restEndPose_real_y_small (v w : ℝ) (hv0 : 0 ≤ v) (hv1 : v ≤ 1 / 20)
    (hw : |w| ≤ 3 / 125) :
    |(restEndPose ⟨Real.cos, Real.sin, Real.sqrt⟩ v w).y| ≤ 324 / 100000 := by
  have hT : (defaultConfig ℝ).control_period = 1 / 5 := by norm_num [defaultConfig]
  have harg : ∀ j : Nat, (0 : ℝ) + (j : ℝ) * (w * (15 / 10) * (1 / 5)) = (j : ℝ) * (w * (3 / 10)) :=
    fun j => by ring
  unfold restEndPose
  simp only [hT, harg, zero_add]
  have hterm : ∀ j ∈ Finset.range 10,
      |v * Real.sin ((j : ℝ) * (w * (3 / 10))) * (1 / 5)|
        ≤ (1 / 20 : ℝ) * ((j : ℝ) * (3 / 125 * (3 / 10))) * (1 / 5) := by
    intro j _
    have h0 : (0 : ℝ) ≤ (j : ℝ) := Nat.cast_nonneg j
    have hs := @Real.abs_sin_le_abs ((j : ℝ) * (w * (3 / 10)))
    have harg2 : |(j : ℝ) * (w * (3 / 10))| = (j : ℝ) * (|w| * (3 / 10)) := by
      rw [abs_mul, abs_mul, abs_of_nonneg h0, abs_of_pos (by norm_num : (0 : ℝ) < 3 / 10)]
    rw [harg2] at hs
    rw [abs_mul, abs_mul, abs_of_nonneg hv0, abs_of_pos (by norm_num : (0 : ℝ) < 1 / 5)]
    have h1 : |Real.sin ((j : ℝ) * (w * (3 / 10)))| ≤ (j : ℝ) * (3 / 125 * (3 / 10)) := by
      have : (j : ℝ) * (|w| * (3 / 10)) ≤ (j : ℝ) * (3 / 125 * (3 / 10)) := by
        apply mul_le_mul_of_nonneg_left _ h0
        linarith
      linarith
    have h2 : (0 : ℝ) ≤ |Real.sin ((j : ℝ) * (w * (3 / 10)))| := abs_nonneg _
    have h3 : v * |Real.sin ((j : ℝ) * (w * (3 / 10)))|
        ≤ 1 / 20 * ((j : ℝ) * (3 / 125 * (3 / 10))) :=
      mul_le_mul hv1 h1 h2 (by norm_num)
    linarith
  have hsum := (Finset.abs_sum_le_sum_abs _ _).trans (Finset.sum_le_sum hterm)
  have hval : ∑ j in Finset.range 10, (1 / 20 : ℝ) * ((j : ℝ) * (3 / 125 * (3 / 10))) * (1 / 5)
      = 324 / 100000 := by
    simp only [Finset.sum_range_succ, Finset.sum_range_zero]
    norm_num
  rw [hval] at hsum
  exact hsum

/-- With the waypoint `(0, 2)` beside the robot, a candidate whose angular velocity is within
one sampling step of zero scores at least `259.8`. -/
theorem side_waypoint_score_near_zero (v w : ℝ) (hv0 : 0 ≤ v) (hv1 : v ≤ 1 / 20)
    (hw : |w| ≤ 3 / 125) :
    2598 / 10 ≤ freeScore ⟨Real.cos, Real.sin, Real.sqrt⟩ (defaultConfig ℝ)
      (restEndPose ⟨Real.cos, Real.sin, Real.sqrt⟩ v w) [(0, 2), (5, 0)] (5, 0) := by
  have hx := restEndPose_real_x_le v w hv0
  have hy := abs_le.mp (restEndPose_real_y_small v w hv0 hv1 hw)
  generalize restEndPose ⟨Real.cos, Real.sin, Real.sqrt⟩ v w = e at hx hy ⊢
  have hgoal : 49 / 10 ≤ planarDist ⟨Real.cos, Real.sin, Real.sqrt⟩ e.x e.y 5 0 := by
    have h1 := planarDist_real_ge e.x e.y 5 0
    have h2 := neg_abs_le (e.x - 5)
    linarith
  have hside : 2 - 324 / 100000 ≤ planarDist ⟨Real.cos, Real.sin, Real.sqrt⟩ e.x e.y 0 2 := by
    have h1 := planarDist_real_ge_y e.x e.y 0 2
    have h2 := neg_abs_le (e.y - 2)
    linarith
  have hpath : 2 - 324 / 100000
      ≤ dis2pathLoop ⟨Real.cos, Real.sin, Real.sqrt⟩ e [(0, 2), (5, 0)] (bigScore ℝ) := by
    obtain ⟨-, -, h3⟩ := dis2pathLoop_spec ⟨Real.cos, Real.sin, Real.sqrt⟩ e [(0, 2), (5, 0)]
      (bigScore ℝ)
    rcases h3 with h3 | ⟨p, hp, h3⟩
    · rw [h3]; unfold bigScore; norm_num
    · rw [h3]
      simp only [List.mem_cons, List.mem_singleton, List.not_mem_nil, or_false] at hp
      rcases hp with rfl | rfl
      · exact hside
      · linarith
  unfold freeScore
  simp only []
  generalize dis2pathLoop ⟨Real.cos, Real.sin, Real.sqrt⟩ e [(0, 2), (5, 0)] (bigScore ℝ)
    = L at hpath ⊢
  norm_num [defaultConfig]
  linarith

/-- With the waypoint `(0, 2)` beside the robot, the candidate `(0.05, 0.24)` scores at most
`259.5`. -/
theorem side_waypoint_score_turn :
    freeScore ⟨Real.cos, Real.sin, Real.sqrt⟩ (defaultConfig ℝ)
      (restEndPose ⟨Real.cos, Real.sin, Real.sqrt⟩ (1 / 20) (6 / 25)) [(0, 2), (5, 0)] (5, 0)
      ≤ 2595 / 10 := by
  obtain ⟨⟨hx0, hx1⟩, hy0, hy1⟩ := restEndPose_real_turn
  generalize restEndPose ⟨Real.cos, Real.sin, Real.sqrt⟩ (1 / 20) (6 / 25) = e at hx0 hx1 hy0 hy1 ⊢
  have hgoal : planarDist ⟨Real.cos, Real.sin, Real.sqrt⟩ e.x e.y 5 0 ≤ 49076 / 10000 :=
    planarDist_real_le _ _ _ _ _ (by norm_num) (by nlinarith)
  have hside : planarDist ⟨Real.cos, Real.sin, Real.sqrt⟩ e.x e.y 0 2 ≤ 19721 / 10000 :=
    planarDist_real_le _ _ _ _ _ (by norm_num) (by nlinarith)
  have hpath : dis2pathLoop ⟨Real.cos, Real.sin, Real.sqrt⟩ e [(0, 2), (5, 0)] (bigScore ℝ)
      ≤ 19721 / 10000 := by
    obtain ⟨-, h2, -⟩ := dis2pathLoop_spec ⟨Real.cos, Real.sin, Real.sqrt⟩ e [(0, 2), (5, 0)]
      (bigScore ℝ)
    exact (h2 (0, 2) (by simp)).trans hside
  unfold freeScore
  simp only []
  generalize dis2pathLoop ⟨Real.cos, Real.sin, Real.sqrt⟩ e [(0, 2), (5, 0)] (bigScore ℝ)
    = L at hpath ⊢
  norm_num [defaultConfig]
  linarith

/-- Claim C7 as stated fails: default configuration, robot at pose `(0, 0, 0)` with velocity
`(0, 0)`, every cell free, no collision, and the reference path `[(0, 2), (5, 0)]`, which ends at
the goal `(5, 0)` after a waypoint beside the robot.  The candidate `(0.05, 0.24)` ends nearer
that waypoint and scores at most `259.5`, every candidate with `|ω|` within one angular sampling
step (`0.024`) of zero scores at least `259.8`, so the command selected has
`|cmd_vel_theta| > 0.024`. -/
theorem computeVelocityCommands_side_waypoint_turns :
    ∃ new_cmd_x new_cmd_theta : ℝ,
      computeVelocityCommands 22
          ⟨⟨Real.cos, Real.sin, Real.sqrt⟩, fun _ _ _ => 0, fun _ _ => 0,
            fun wx wy => some (⌊wx + 50⌋₊, ⌊wy + 50⌋₊), (0, 0), (0, 0), (0, 0)⟩
          (defaultConfig ℝ) 0 0 0 0 0 [(0, 2), (5, 0)] (fun _ _ => 0) 100 100 1 (-50) (-50)
          0 0 [(5, 0)]
        = some (true, new_cmd_x, new_cmd_theta)
      ∧ (windowMaxTheta (defaultConfig ℝ) 0 - windowMinTheta (defaultConfig ℝ) 0)
          / ((defaultConfig ℝ).vth_samples : ℝ) = 3 / 125
      ∧ ¬ (0 < new_cmd_x ∧ |new_cmd_theta| ≤ 3 / 125) := by
  have hfuel2 : lookaheadFuel (lookaheadCells
      (⟨⟨Real.cos, Real.sin, Real.sqrt⟩, fun _ _ _ => 0, fun _ _ => 0,
        fun wx wy => some (⌊wx + 50⌋₊, ⌊wy + 50⌋₊), (0, 0), (0, 0), (0, 0)⟩ : Host ℝ)
      ([((5 : ℝ), (0 : ℝ))].getLast (by simp))) ≤ 22 := by
    rw [lookaheadFuel_local_grid]
    decide
  have hnocoll : ∀ c ∈ sampleGrid 11 21 (0 : ℝ) (1 / 200) (-(6 / 25)) (3 / 125), ∀ traj,
      generateTrajectory 22
        (⟨⟨Real.cos, Real.sin, Real.sqrt⟩, fun _ _ _ => 0, fun _ _ => 0,
          fun wx wy => some (⌊wx + 50⌋₊, ⌊wy + 50⌋₊), (0, 0), (0, 0), (0, 0)⟩ : Host ℝ)
        (defaultConfig ℝ) 0 0 0 0 0 c.1 c.2 [] [(5, 0)] = some traj →
      isPathFeasible (fun _ _ _ => (0 : ℝ)) traj = true := by
    intro c _ traj _
    rw [isPathFeasible_eq_true_iff]
    intro p _
    norm_num
  have hcut : cutGlobalPlan [((0 : ℝ), (2 : ℝ)), (5, 0)] 100 100 0 0 = [(0, 2), (5, 0)] := by
    norm_num [cutGlobalPlan]
  have heval := rest_scenario_eval 22 _ rfl (fun _ _ => rfl)
    [((0 : ℝ), (2 : ℝ)), (5, 0)] (5, 0) rfl (fun _ _ => 0) (fun _ _ => rfl)
    100 100 1 (-50) (-50) [(5, 0)] (by simp) hfuel2 hnocoll
  have hturn : ((1 / 20 : ℝ), (6 / 25 : ℝ))
      ∈ sampleGrid 11 21 (0 : ℝ) (1 / 200) (-(6 / 25)) (3 / 125) := by
    rw [mem_sampleGrid]
    exact ⟨10, by decide, 20, by decide, by norm_num⟩
  obtain ⟨st, hloop⟩ := selectLoop_isSome 22
    (⟨⟨Real.cos, Real.sin, Real.sqrt⟩, fun _ _ _ => 0, fun _ _ => 0,
      fun wx wy => some (⌊wx + 50⌋₊, ⌊wy + 50⌋₊), (0, 0), (0, 0), (0, 0)⟩ : Host ℝ)
    (defaultConfig ℝ) 0 0 0 0 0 [((0 : ℝ), (2 : ℝ)), (5, 0)] (fun _ _ => 0) 100 100 1
    (-50) (-50) [(5, 0)] (sampleGrid 11 21 (0 : ℝ) (1 / 200) (-(6 / 25)) (3 / 125))
    (bigScore ℝ, 0, 0) (fun c hc => ⟨_, heval c hc⟩)
  refine ⟨st.2.1, st.2.2, ?_, by norm_num [windowMaxTheta, windowMinTheta, defaultConfig], ?_⟩
  · unfold computeVelocityCommands
    rw [defaultConfig_candidates 22 (le_refl 22)]
    simp only [hcut]
    rw [hloop]
    rfl
  · rintro ⟨-, hsmall⟩
    have hD := side_waypoint_score_turn
    rcases selectLoop_result 22 _ (defaultConfig ℝ) 0 0 0 0 0 _ (fun _ _ => 0) 100 100 1
        (-50) (-50) [(5, 0)] _ _ st hloop with
      ⟨-, hall⟩ | ⟨pre, c, post, hsplit, he, -, hc, hpre, hpost⟩
    · have := hall _ hturn _ (heval _ hturn)
      simp only [bigScore] at this
      norm_num at this
      linarith
    · have hcmem : c ∈ sampleGrid 11 21 (0 : ℝ) (1 / 200) (-(6 / 25)) (3 / 125) := by
        rw [hsplit]; simp
      have hc' := heval c hcmem
      rw [hc] at hc'
      simp only [Option.some.injEq] at hc'
      have hmin : st.1 ≤ freeScore ⟨Real.cos, Real.sin, Real.sqrt⟩ (defaultConfig ℝ)
          (restEndPose ⟨Real.cos, Real.sin, Real.sqrt⟩ (1 / 20) (6 / 25))
          [(0, 2), (5, 0)] (5, 0) := by
        have hmemD := hturn
        rw [hsplit] at hmemD
        rcases List.mem_append.mp hmemD with hD1 | hD1
        · exact (hpre _ hD1 _ (heval _ hturn)).le
        · rcases List.mem_cons.mp hD1 with hD2 | hD2
          · rw [hc', ← hD2]
          · exact hpost _ hD2 _ (heval _ hturn)
      obtain ⟨⟨hv0, hv1⟩, -, -⟩ := defaultConfig_candidate_bounds c hcmem
      have hc2 : c.2 = st.2.2 := by rw [he]
      have hE := side_waypoint_score_near_zero c.1 c.2 hv0 hv1 (by rw [hc2]; exact hsmall)
      rw [← hc'] at hE
      linarith

end Real

section Rasterization

/-! ## ObstacleLookahead: length, closed form and reversal of the line -/

theorem bresenhamLoop_length_le (x1 y1 dx dy sx sy : Int) :
    ∀ (fuel : Nat) (x0 y0 err : Int) (l : List (Int × Int)),
      bresenhamLoop x1 y1 dx dy sx sy fuel x0 y0 err = some l → l.length ≤ fuel := by
  intro fuel
  induction fuel with
  | zero => intro x0 y0 err l hl; simp [bresenhamLoop] at hl
  | succ f ih =>
    intro x0 y0 err l hl
    unfold bresenhamLoop at hl
    split_ifs at hl with hend
    · simp only [Option.some.injEq] at hl
      rw [← hl]; simp
    · simp only [Option.map_eq_some'] at hl
      obtain ⟨rest, hrest, rfl⟩ := hl
      have := ih _ _ _ rest hrest
      simp only [List.length_cons]
      omega

theorem bresenhamLoop_fuel_mono (x1 y1 dx dy sx sy : Int) :
    ∀ (fuel : Nat) (x0 y0 err : Int) (l : List (Int × Int)),
      bresenhamLoop x1 y1 dx dy sx sy fuel x0 y0 err = some l →
      bresenhamLoop x1 y1 dx dy sx sy (fuel + 1) x0 y0 err = some l := by
  intro fuel
  induction fuel with
  | zero => intro x0 y0 err l hl; simp [bresenhamLoop] at hl
  | succ f ih =>
    intro x0 y0 err l hl
    unfold bresenhamLoop at hl ⊢
    split_ifs at hl ⊢ with hend
    · exact hl
    · simp only [Option.map_eq_some'] at hl ⊢
      obtain ⟨rest, hrest, rfl⟩ := hl
      exact ⟨rest, ih _ _ _ rest hrest, rfl⟩

theorem bresenhamLoop_fuel_mono_add (x1 y1 dx dy sx sy : Int) (fuel : Nat) (x0 y0 err : Int)
    (l : List (Int × Int)) (hl : bresenhamLoop x1 y1 dx dy sx sy fuel x0 y0 err = some l) :
    ∀ k : Nat, bresenhamLoop x1 y1 dx dy sx sy (fuel + k) x0 y0 err = some l := by
  intro k
  induction k with
  | zero => exact hl
  | succ k ih => exact bresenhamLoop_fuel_mono x1 y1 dx dy sx sy (fuel + k) x0 y0 err l ih

/-- Claim C16: for all integer endpoints the loop of `bresenhamLine` ends: given at least
`max |x1 - x0| |y1 - y0| + 1` iterations it returns a line of exactly
`max |x1 - x0| |y1 - y0| + 1` cells, and given fewer it has not reached its `break`. -/
theorem bresenhamLine_terminates_length (x0 y0 x1 y1 : Int) :
    (∀ fuel : Nat, max (x1 - x0).natAbs (y1 - y0).natAbs + 1 ≤ fuel →
        ∃ l, bresenhamLine fuel x0 y0 x1 y1 = some l
          ∧ l.length = max (x1 - x0).natAbs (y1 - y0).natAbs + 1)
      ∧ (∀ fuel : Nat, fuel ≤ max (x1 - x0).natAbs (y1 - y0).natAbs →
          bresenhamLine fuel x0 y0 x1 y1 = none) := by
  constructor
  · intro fuel hfuel
    obtain ⟨l, hl, hlen, -, -⟩ := bresenhamLine_spec x0 y0 x1 y1 fuel hfuel
    exact ⟨l, hl, hlen⟩
  · intro fuel hfuel
    cases hres : bresenhamLine fuel x0 y0 x1 y1 with
    | none => rfl
    | some l =>
      exfalso
      have hle : l.length ≤ fuel := bresenhamLoop_length_le _ _ _ _ _ _ fuel _ _ _ l hres
      have hmono := bresenhamLoop_fuel_mono_add _ _ _ _ _ _ fuel _ _ _ l hres
        (max (x1 - x0).natAbs (y1 - y0).natAbs + 1)
      obtain ⟨l', hl', hlen, -, -⟩ := bresenhamLine_spec x0 y0 x1 y1
        (fuel + (max (x1 - x0).natAbs (y1 - y0).natAbs + 1)) (by omega)
      have heq : l = l' := by
        have h1 : bresenhamLine (fuel + (max (x1 - x0).natAbs (y1 - y0).natAbs + 1)) x0 y0 x1 y1
            = some l := hmono
        rw [h1] at hl'
        exact Option.some.inj hl'
      rw [← heq] at hlen
      omega

theorem minorIndex_unique (n m i j e : Int) (hn : 0 < n) (h0 : 0 ≤ e) (h1 : e < n)
    (he : e = n / 2 - i * m + j * n) : minorIndex n m i = j := by
  unfold minorIndex
  have hnum : i * m - n / 2 + n - 1 = (n - 1 - e) + j * n := by rw [he]; ring
  rw [hnum, Int.add_mul_ediv_right _ _ (ne_of_gt hn), Int.ediv_eq_zero_of_lt (by omega) (by omega)]
  simp

theorem minorIndex_unique_neg (n m i j e : Int) (hn : 0 < n) (h0 : -n < e) (h1 : e ≤ 0)
    (he : e = -(n / 2) - j * n + i * m) : minorIndex n m i = j := by
  unfold minorIndex
  have hnum : i * m - n / 2 + n - 1 = (e + n - 1) + j * n := by rw [he]; ring
  rw [hnum, Int.add_mul_ediv_right _ _ (ne_of_gt hn), Int.ediv_eq_zero_of_lt (by omega) (by omega)]
  simp

theorem range_succ_map_shift {β : Type} (f : Int → β) (i : Int) (k : Nat) :
    (List.range (k + 1 + 1)).map (fun t : Nat => f (i + t))
      = f i :: (List.range (k + 1)).map (fun t : Nat => f (i + 1 + t)) := by
  rw [List.range_succ_eq_map, List.map_cons, List.map_map]
  simp only [Nat.cast_zero, add_zero, List.cons.injEq, true_and]
  apply List.map_congr_left
  intro t _
  simp only [Function.comp, Nat.succ_eq_add_one, Nat.cast_add, Nat.cast_one]
  congr 1
  ring

/-- The loop of `bresenhamLine` on a line with `dy < dx`, from its `i`-th cell. -/
theorem bresenhamLoop_xmajor_cells (x0 y0 x1 y1 dx dy sx sy : Int) (hdy : 0 ≤ dy)
    (hlt : dy < dx) (hsx : sx = 1 ∨ sx = -1) (hsy : sy = 1 ∨ sy = -1)
    (hx1 : x1 = x0 + sx * dx) (hy1 : y1 = y0 + sy * dy) :
    ∀ (k fuel : Nat) (i j err : Int), k + 1 ≤ fuel → 0 ≤ i → i + k = dx →
      0 ≤ err → err < dx → err = dx / 2 - i * dy + j * dx →
      bresenhamLoop x1 y1 dx dy sx sy fuel (x0 + sx * i) (y0 + sy * j) err
        = some ((List.range (k + 1)).map
            (fun t : Nat => (x0 + sx * (i + t), y0 + sy * minorIndex dx dy (i + t)))) := by
  intro k
  induction k with
  | zero =>
    intro fuel i j err hf hi hik h0 h1 heq
    obtain ⟨f, rfl⟩ : ∃ f, fuel = f + 1 := ⟨fuel - 1, by omega⟩
    have hidx := minorIndex_unique dx dy i j err (by omega) h0 h1 heq
    have hi' : i = dx := by simpa using hik
    have hj : j - dy = 0 := by
      apply int_eq_zero_of_mul_small (j - dy) dx (err - dx / 2) (by omega) (by omega) (by omega)
      rw [heq, hi']; ring
    have hj' : j = dy := by omega
    have hend : x0 + sx * i = x1 ∧ y0 + sy * j = y1 := by
      rw [hx1, hy1, hi', hj']; exact ⟨rfl, rfl⟩
    have hr : List.range 1 = [0] := rfl
    simp [bresenhamLoop, hend, hidx, hr]
  | succ k ih =>
    intro fuel i j err hf hi hik h0 h1 heq
    obtain ⟨f, rfl⟩ : ∃ f, fuel = f + 1 := ⟨fuel - 1, by omega⟩
    have hidx := minorIndex_unique dx dy i j err (by omega) h0 h1 heq
    push_cast at hik
    have hne : ¬ (x0 + sx * i = x1 ∧ y0 + sy * j = y1) := by
      rintro ⟨hx, -⟩
      rw [hx1] at hx
      have : sx * i = sx * dx := by linarith
      rcases hsx with rfl | rfl <;> omega
    have hgt : err > -dx := by omega
    have hxn : x0 + sx * i + sx = x0 + sx * (i + 1) := by ring
    rw [range_succ_map_shift (fun u : Int => (x0 + sx * u, y0 + sy * minorIndex dx dy u)) i k]
    by_cases hy2 : err < dy
    · have hyn : y0 + sy * j + sy = y0 + sy * (j + 1) := by ring
      have hrec := ih f (i + 1) (j + 1) (err - dy + dx) (by omega) (by omega) (by omega)
        (by omega) (by omega) (by rw [heq]; ring)
      simp only [bresenhamLoop, hne, hgt, hy2, if_true, if_false, hxn, hyn, hrec,
        Option.map_some', hidx]
    · have hrec := ih f (i + 1) j (err - dy) (by omega) (by omega) (by omega)
        (by omega) (by omega) (by rw [heq]; ring)
      simp only [bresenhamLoop, hne, hgt, hy2, if_true, if_false, hxn, hrec,
        Option.map_some', hidx]

/-- The loop of `bresenhamLine` on a line with `dx ≤ dy`, from its `i`-th cell. -/
theorem bresenhamLoop_ymajor_cells (x0 y0 x1 y1 dx dy sx sy : Int) (hdx : 0 ≤ dx)
    (hle : dx ≤ dy) (hdy : 0 < dy) (hsx : sx = 1 ∨ sx = -1) (hsy : sy = 1 ∨ sy = -1)
    (hx1 : x1 = x0 + sx * dx) (hy1 : y1 = y0 + sy * dy) :
    ∀ (k fuel : Nat) (i j err : Int), k + 1 ≤ fuel → 0 ≤ i → i + k = dy →
      -dy < err → err ≤ 0 → err = -(dy / 2) - j * dy + i * dx →
      bresenhamLoop x1 y1 dx dy sx sy fuel (x0 + sx * j) (y0 + sy * i) err
        = some ((List.range (k + 1)).map
            (fun t : Nat => (x0 + sx * minorIndex dy dx (i + t), y0 + sy * (i + t)))) := by
  intro k
  induction k with
  | zero =>
    intro fuel i j err hf hi hik h0 h1 heq
    obtain ⟨f, rfl⟩ : ∃ f, fuel = f + 1 := ⟨fuel - 1, by omega⟩
    have hidx := minorIndex_unique_neg dy dx i j err hdy h0 h1 heq
    have hi' : i = dy := by simpa using hik
    have hj : dx - j = 0 := by
      apply int_eq_zero_of_mul_small (dx - j) dy (err + dy / 2) hdy (by omega) (by omega)
      rw [heq, hi']; ring
    have hj' : j = dx := by omega
    have hend : x0 + sx * j = x1 ∧ y0 + sy * i = y1 := by
      rw [hx1, hy1, hi', hj']; exact ⟨rfl, rfl⟩
    have hr : List.range 1 = [0] := rfl
    simp [bresenhamLoop, hend, hidx, hr]
  | succ k ih =>
    intro fuel i j err hf hi hik h0 h1 heq
    obtain ⟨f, rfl⟩ : ∃ f, fuel = f + 1 := ⟨fuel - 1, by omega⟩
    have hidx := minorIndex_unique_neg dy dx i j err hdy h0 h1 heq
    push_cast at hik
    have hne : ¬ (x0 + sx * j = x1 ∧ y0 + sy * i = y1) := by
      rintro ⟨-, hy⟩
      rw [hy1] at hy
      have : sy * i = sy * dy := by linarith
      rcases hsy with rfl | rfl <;> omega
    have hlt : err < dy := by omega
    have hyn : y0 + sy * i + sy = y0 + sy * (i + 1) := by ring
    rw [range_succ_map_shift (fun u : Int => (x0 + sx * minorIndex dy dx u, y0 + sy * u)) i k]
    by_cases hx2 : err > -dx
    · have hxn : x0 + sx * j + sx = x0 + sx * (j + 1) := by ring
      have hrec := ih f (i + 1) (j + 1) (err - dy + dx) (by omega) (by omega) (by omega)
        (by omega) (by omega) (by rw [heq]; ring)
      simp only [bresenhamLoop, hne, hlt, hx2, if_true, if_false, hxn, hyn, hrec,
        Option.map_some', hidx]
    · have hrec := ih f (i + 1) j (err + dx) (by omega) (by omega) (by omega)
        (by omega) (by omega) (by rw [heq]; ring)
      simp only [bresenhamLoop, hne, hlt, hx2, if_true, if_false, hyn, hrec,
        Option.map_some', hidx]

theorem stepSign_mul_abs (a b : Int) : (if a < b then (1 : Int) else -1) * |b - a| = b - a := by
  split_ifs with h
  · rw [abs_of_pos (by omega)]; ring
  · rw [abs_of_nonpos (by omega)]; ring

theorem stepSign_reflect (a b J : Int) (h : a = b → J = 0) :
    (if b < a then (1 : Int) else -1) * J = -((if a < b then (1 : Int) else -1) * J) := by
  rcases lt_trichotomy a b with hlt | heq | hgt
  · rw [if_neg (by omega), if_pos hlt]; ring
  · rw [h heq]; simp
  · rw [if_pos hgt, if_neg (by omega)]; ring

/-- The line of `bresenhamLine` in closed form, once the fuel covers its iterations. -/
theorem bresenhamLine_eq_cells (x0 y0 x1 y1 : Int) (fuel : Nat)
    (hfuel : max (x1 - x0).natAbs (y1 - y0).natAbs + 1 ≤ fuel) :
    bresenhamLine fuel x0 y0 x1 y1 = some (bresenhamCells x0 y0 x1 y1) := by
  have hsx : ∀ a b : Int, (if a < b then (1 : Int) else -1) = 1
      ∨ (if a < b then (1 : Int) else -1) = -1 := by
    intro a b; split_ifs <;> simp
  have hdx0 : (0 : Int) ≤ |x1 - x0| := abs_nonneg _
  have hdy0 : (0 : Int) ≤ |y1 - y0| := abs_nonneg _
  have hnx : ((x1 - x0).natAbs : Int) = |x1 - x0| := Int.natCast_natAbs _
  have hny : ((y1 - y0).natAbs : Int) = |y1 - y0| := Int.natCast_natAbs _
  have hx1 : x1 = x0 + (if x0 < x1 then (1 : Int) else -1) * |x1 - x0| := by
    rw [stepSign_mul_abs]; ring
  have hy1 : y1 = y0 + (if y0 < y1 then (1 : Int) else -1) * |y1 - y0| := by
    rw [stepSign_mul_abs]; ring
  unfold bresenhamLine bresenhamCells
  simp only []
  by_cases hmajor : |x1 - x0| > |y1 - y0|
  · have hmax : max (x1 - x0).natAbs (y1 - y0).natAbs = (x1 - x0).natAbs := by
      apply max_eq_left; omega
    rw [hmax] at hfuel
    simp only [hmajor, if_true]
    have hdiv : Int.tdiv |x1 - x0| 2 = |x1 - x0| / 2 := Int.tdiv_eq_ediv hdx0 (by norm_num)
    rw [hdiv]
    have hk : |x1 - x0|.toNat = (x1 - x0).natAbs := by omega
    have key := bresenhamLoop_xmajor_cells x0 y0 x1 y1 |x1 - x0| |y1 - y0| _ _ hdy0 hmajor
      (hsx x0 x1) (hsx y0 y1) hx1 hy1 (x1 - x0).natAbs fuel 0 0 (|x1 - x0| / 2) hfuel le_rfl
      (by rw [hnx]; ring) (by omega) (by omega) (by ring)
    simp only [mul_zero, add_zero, zero_add] at key
    rw [key, hk]
  · have hle : |x1 - x0| ≤ |y1 - y0| := not_lt.mp hmajor
    have hmax : max (x1 - x0).natAbs (y1 - y0).natAbs = (y1 - y0).natAbs := by
      apply max_eq_right; omega
    rw [hmax] at hfuel
    simp only [hmajor, if_false]
    have hdiv : Int.tdiv (-|y1 - y0|) 2 = -(|y1 - y0| / 2) := by
      rw [Int.neg_tdiv, Int.tdiv_eq_ediv hdy0 (by norm_num)]
    rw [hdiv]
    have hk : |y1 - y0|.toNat = (y1 - y0).natAbs := by omega
    by_cases hzero : |y1 - y0| = 0
    · have hx0 : |x1 - x0| = 0 := by omega
      have ey : y0 = y1 := by
        have := abs_eq_zero.mp hzero; omega
      have ex : x0 = x1 := by
        have := abs_eq_zero.mp hx0; omega
      subst ex ey
      obtain ⟨f, rfl⟩ : ∃ f, fuel = f + 1 := ⟨fuel - 1, by omega⟩
      have hr : List.range 1 = [0] := rfl
      simp [bresenhamLoop, minorIndex, hr]
    · have hpos : 0 < |y1 - y0| := lt_of_le_of_ne hdy0 (Ne.symm hzero)
      have key := bresenhamLoop_ymajor_cells x0 y0 x1 y1 |x1 - x0| |y1 - y0| _ _ hdx0 hle hpos
        (hsx x0 x1) (hsx y0 y1) hx1 hy1 (y1 - y0).natAbs fuel 0 0 (-(|y1 - y0| / 2)) hfuel le_rfl
        (by rw [hny]; ring) (by omega) (by omega) (by ring)
      simp only [mul_zero, add_zero, zero_add] at key
      rw [key, hk]

theorem minorIndex_zero_minor (n i : Int) (hn : 0 < n) : minorIndex n 0 i = 0 :=
  minorIndex_unique n 0 i 0 (n / 2) hn (by omega) (by omega) (by ring)

/-- Without a tie at step `i`, the minor index at `n - i` mirrors the one at `i`. -/
theorem minorIndex_reflect (n m i : Int) (hn : 0 < n) (hnt : 2 * ((i * m) % n) ≠ n) :
    minorIndex n m (n - i) = m - minorIndex n m i := by
  have hdef : minorIndex n m i = (i * m - n / 2 + n - 1) / n := rfl
  have hmod0 : 0 ≤ (i * m - n / 2 + n - 1) % n := Int.emod_nonneg _ (ne_of_gt hn)
  have hmod1 : (i * m - n / 2 + n - 1) % n < n := Int.emod_lt_of_pos _ hn
  have hsplit := Int.emod_add_ediv (i * m - n / 2 + n - 1) n
  rw [← hdef] at hsplit
  generalize minorIndex n m i = j at hsplit ⊢
  generalize (i * m - n / 2 + n - 1) % n = r at hsplit hmod0 hmod1
  have hjn : n * j = j * n := mul_comm _ _
  have hne : r = n - 1 → n % 2 = 1 := by
    intro hr
    by_contra hodd
    apply hnt
    have him : i * m = n / 2 + j * n := by rw [hr] at hsplit; linarith
    rw [him, Int.add_mul_emod_self, Int.emod_eq_of_lt (by omega) (by omega)]
    omega
  apply minorIndex_unique n m (n - i) (m - j) (2 * (n / 2) - (n - 1 - r)) hn
  · omega
  · by_cases hr : r = n - 1
    · have := hne hr; omega
    · omega
  · have : i * m = r + j * n + n / 2 - n + 1 := by linarith
    have e1 : (n - i) * m = n * m - i * m := by ring
    rw [e1, this]; ring

theorem range_succ_reverse_map {β : Type} (f : Nat → β) (n : Nat) :
    ((List.range (n + 1)).map f).reverse = (List.range (n + 1)).map fun i => f (n - i) := by
  rw [← List.map_reverse, List.range_eq_range', List.reverse_range', List.map_map,
    ← List.range_eq_range']
  apply List.map_congr_left
  intro i _
  simp

/-- The cells from `(x1, y1)` back to `(x0, y0)` are the cells from `(x0, y0)` to `(x1, y1)` in
reverse order when no step of the line lies exactly half a cell off the minor axis. -/
theorem bresenhamCells_reverse (x0 y0 x1 y1 : Int)
    (hnotie : ∀ i : Int, 0 < i → i < max |x1 - x0| |y1 - y0| →
      2 * ((i * min |x1 - x0| |y1 - y0|) % max |x1 - x0| |y1 - y0|) ≠ max |x1 - x0| |y1 - y0|) :
    bresenhamCells x1 y1 x0 y0 = (bresenhamCells x0 y0 x1 y1).reverse := by
  have hdx0 : (0 : Int) ≤ |x1 - x0| := abs_nonneg _
  have hdy0 : (0 : Int) ≤ |y1 - y0| := abs_nonneg _
  have hcx : |x0 - x1| = |x1 - x0| := abs_sub_comm _ _
  have hcy : |y0 - y1| = |y1 - y0| := abs_sub_comm _ _
  have hx1 : x1 = x0 + (if x0 < x1 then (1 : Int) else -1) * |x1 - x0| := by
    rw [stepSign_mul_abs]; ring
  have hy1 : y1 = y0 + (if y0 < y1 then (1 : Int) else -1) * |y1 - y0| := by
    rw [stepSign_mul_abs]; ring
  have hall : ∀ n m i : Int, 0 < n → 0 ≤ i → i ≤ n →
      (∀ i : Int, 0 < i → i < n → 2 * ((i * m) % n) ≠ n) → 2 * ((i * m) % n) ≠ n := by
    intro n m i hn hi0 hin h
    rcases eq_or_lt_of_le hi0 with h0 | h0
    · rw [← h0]; simp; omega
    rcases eq_or_lt_of_le hin with h1 | h1
    · rw [h1, Int.mul_emod_right]; omega
    exact h i h0 h1
  unfold bresenhamCells
  simp only [hcx, hcy]
  by_cases hmajor : |x1 - x0| > |y1 - y0|
  · simp only [hmajor, if_true]
    rw [max_eq_left (le_of_lt hmajor), min_eq_right (le_of_lt hmajor)] at hnotie
    rw [range_succ_reverse_map]
    apply List.map_congr_left
    intro t ht
    have htn : t ≤ |x1 - x0|.toNat := by
      have := List.mem_range.mp ht; omega
    have hcast : ((|x1 - x0|.toNat - t : Nat) : Int) = |x1 - x0| - t := by omega
    have hxne : x1 = x0 → (t : Int) = 0 := by
      intro h; rw [h] at hmajor; simp at hmajor; omega
    have hyz : y1 = y0 → minorIndex |x1 - x0| |y1 - y0| t = 0 := by
      intro h; rw [h]; simp only [sub_self, abs_zero]
      exact minorIndex_zero_minor _ _ (by omega)
    have hrefl := minorIndex_reflect |x1 - x0| |y1 - y0| t (by omega)
      (hall _ _ t (by omega) (by omega) (by omega) hnotie)
    rw [hcast, hrefl]
    have ex := stepSign_reflect x1 x0 (t : Int) hxne
    have ey := stepSign_reflect y1 y0 (minorIndex |x1 - x0| |y1 - y0| t) hyz
    refine Prod.ext ?_ ?_
    · show x1 + _ * (t : Int) = x0 + _ * (|x1 - x0| - t)
      linear_combination hx1 + ex
    · show y1 + _ * minorIndex |x1 - x0| |y1 - y0| t = y0 + _ * (|y1 - y0| - _)
      linear_combination hy1 + ey
  · have hle : |x1 - x0| ≤ |y1 - y0| := not_lt.mp hmajor
    simp only [hmajor, if_false]
    rw [max_eq_right hle, min_eq_left hle] at hnotie
    rw [range_succ_reverse_map]
    apply List.map_congr_left
    intro t ht
    have htn : t ≤ |y1 - y0|.toNat := by
      have := List.mem_range.mp ht; omega
    have hcast : ((|y1 - y0|.toNat - t : Nat) : Int) = |y1 - y0| - t := by omega
    by_cases hzero : |y1 - y0| = 0
    · have hx0 : |x1 - x0| = 0 := by omega
      have ey : y0 = y1 := by
        have := abs_eq_zero.mp hzero; omega
      have ex : x0 = x1 := by
        have := abs_eq_zero.mp hx0; omega
      subst ex ey
      have ht0 : t = 0 := by
        simp only [sub_self, abs_zero] at htn; omega
      subst ht0
      simp [minorIndex]
    have hpos : 0 < |y1 - y0| := lt_of_le_of_ne hdy0 (Ne.symm hzero)
    have hyne : y1 = y0 → (t : Int) = 0 := by
      intro h; rw [h] at hpos; simp at hpos
    have hxz : x1 = x0 → minorIndex |y1 - y0| |x1 - x0| t = 0 := by
      intro h; rw [h]; simp only [sub_self, abs_zero]
      exact minorIndex_zero_minor _ _ hpos
    have hrefl := minorIndex_reflect |y1 - y0| |x1 - x0| t hpos
      (hall _ _ t hpos (by omega) (by omega) hnotie)
    rw [hcast, hrefl]
    have ey := stepSign_reflect y1 y0 (t : Int) hyne
    have ex := stepSign_reflect x1 x0 (minorIndex |y1 - y0| |x1 - x0| t) hxz
    refine Prod.ext ?_ ?_
    · show x1 + _ * minorIndex |y1 - y0| |x1 - x0| t = x0 + _ * (|x1 - x0| - _)
      linear_combination hx1 + ex
    · show y1 + _ * (t : Int) = y0 + _ * (|y1 - y0| - t)
      linear_combination hy1 + ey

/-- Claim C11 (amended): `bresenhamLine(B, A)` is the reverse of `bresenhamLine(A, B)` whenever
the larger extent `N = max |Δx| |Δy|` is odd or, more generally, no intermediate step `i` of the
line lies exactly half a cell off the minor axis (`2·((i·M) mod N) ≠ N`, `M = min |Δx| |Δy|`);
both calls return once the fuel covers `N + 1` iterations. -/
theorem bresenhamLine_reverse_of_no_tie (x0 y0 x1 y1 : Int) (fuel : Nat)
    (hfuel : max (x1 - x0).natAbs (y1 - y0).natAbs + 1 ≤ fuel)
    (hnotie : max |x1 - x0| |y1 - y0| % 2 = 1 ∨ ∀ i : Int, 0 < i → i < max |x1 - x0| |y1 - y0| →
      2 * ((i * min |x1 - x0| |y1 - y0|) % max |x1 - x0| |y1 - y0|) ≠ max |x1 - x0| |y1 - y0|) :
    ∃ l, bresenhamLine fuel x0 y0 x1 y1 = some l
      ∧ bresenhamLine fuel x1 y1 x0 y0 = some l.reverse := by
  have hfuel2 : max (x0 - x1).natAbs (y0 - y1).natAbs + 1 ≤ fuel := by
    have e1 : (x0 - x1).natAbs = (x1 - x0).natAbs := by omega
    have e2 : (y0 - y1).natAbs = (y1 - y0).natAbs := by omega
    rw [e1, e2]; exact hfuel
  have hnt : ∀ i : Int, 0 < i → i < max |x1 - x0| |y1 - y0| →
      2 * ((i * min |x1 - x0| |y1 - y0|) % max |x1 - x0| |y1 - y0|) ≠ max |x1 - x0| |y1 - y0| := by
    rcases hnotie with hodd | h
    · intro i _ _ heq
      rw [← heq] at hodd
      omega
    · exact h
  refine ⟨bresenhamCells x0 y0 x1 y1, bresenhamLine_eq_cells x0 y0 x1 y1 fuel hfuel, ?_⟩
  rw [bresenhamLine_eq_cells x1 y1 x0 y0 fuel hfuel2, bresenhamCells_reverse x0 y0 x1 y1 hnt]

/-- Claim C11 (amended), between `(0, 0)` and `(3, 1)`: the larger extent is `3`, odd. -/
theorem bresenhamLine_reverse_of_no_tie_witness :
    max (3 - 0 : Int).natAbs (1 - 0 : Int).natAbs + 1 ≤ 4
      ∧ max |(3 : Int) - 0| |(1 : Int) - 0| % 2 = 1
      ∧ ∃ l, bresenhamLine 4 0 0 3 1 = some l ∧ bresenhamLine 4 3 1 0 0 = some l.reverse :=
  ⟨by decide, by decide,
    bresenhamLine_reverse_of_no_tie 0 0 3 1 4 (by decide) (Or.inl (by decide))⟩

/-- Claim C11, as stated, fails between `(0, 0)` and `(2, 1)`: the step in the middle is a tie,
which the forward line resolves to `(1, 0)` and the backward line to `(1, 1)`. -/
theorem bresenhamLine_reverse_tie :
    bresenhamLine 3 0 0 2 1 = some [(0, 0), (1, 0), (2, 1)]
      ∧ bresenhamLine 3 2 1 0 0 = some [(2, 1), (1, 1), (0, 0)]
      ∧ [(2, 1), (1, 1), ((0 : Int), (0 : Int))] ≠ [(0, 0), (1, 0), (2, 1)].reverse := by
  refine ⟨by decide, by decide, by decide⟩

end Rasterization

section Contracts

variable {α : Type} [LinearOrderedField α]

/-! ## The scan for lethal cells -/

theorem scanLine_true (getCost : Nat → Nat → Nat) :
    ∀ line : List (Int × Int), (∃ p ∈ line, getCost p.1.toNat p.2.toNat = LETHAL_OBSTACLE) →
      ∀ flag : Bool, scanLine getCost line flag = true := by
  intro line
  induction line with
  | nil => intro h; simp at h
  | cons q rest ih =>
    intro h flag
    unfold scanLine
    by_cases hq : getCost q.1.toNat q.2.toNat = LETHAL_OBSTACLE
    · simp only [hq, if_true]
    · have hrest : ∃ p ∈ rest, getCost p.1.toNat p.2.toNat = LETHAL_OBSTACLE := by
        obtain ⟨p, hp, hpl⟩ := h
        rcases List.mem_cons.mp hp with rfl | hp
        · exact absurd hpl hq
        · exact ⟨p, hp, hpl⟩
      simp only [hq, if_false]
      split_ifs
      · exact ih hrest false
      · exact ih hrest flag

theorem scanLine_false (getCost : Nat → Nat → Nat) :
    ∀ line : List (Int × Int), (∀ p ∈ line, getCost p.1.toNat p.2.toNat ≠ LETHAL_OBSTACLE) →
      scanLine getCost line false = false := by
  intro line
  induction line with
  | nil => intro _; rfl
  | cons q rest ih =>
    intro h
    unfold scanLine
    have hq := h q (List.mem_cons_self _ _)
    have hrest := ih (fun p hp => h p (List.mem_cons_of_mem _ hp))
    simp only [hq, if_false, hrest, ite_self]

theorem anyLethal_eq_true_iff (getCost : Nat → Nat → Nat) (line : List (Int × Int)) :
    anyLethal getCost line = true
      ↔ ∃ p ∈ line, getCost p.1.toNat p.2.toNat = LETHAL_OBSTACLE := by
  simp [anyLethal]

/-- Claim C17: for every cost grid and every line of cells, the flag `obstacle_found` the scan
of `computeNewAngularVelocities` finishes with, started at `false`, equals the plain predicate
"some cell of the line is lethal": it is `true` as soon as one cell is lethal, whatever cells
(free or not) come before or after; and for every pair of cells, once the fuel covers the line,
`computeNewAngularVelocities` returns the value for the flag "some cell of
`bresenhamLine(start, goal)` is lethal". -/
theorem scanLine_eq_anyLethal (getCost : Nat → Nat → Nat) :
    (∀ line : List (Int × Int), scanLine getCost line false = anyLethal getCost line)
      ∧ (∀ (before after : List (Int × Int)) (p : Int × Int),
          getCost p.1.toNat p.2.toNat = LETHAL_OBSTACLE →
          scanLine getCost (before ++ p :: after) false = true)
      ∧ (∀ (fuel : Nat) (start_mx start_my goal_mx goal_my : Nat),
          lookaheadFuel ((start_mx, start_my), (goal_mx, goal_my)) ≤ fuel →
          ∃ line : List (Int × Int),
            bresenhamLine fuel start_mx start_my goal_mx goal_my = some line
            ∧ ∀ (cfg : Config α) (target_vel current_vel acc_lim : α),
                computeNewAngularVelocities fuel getCost cfg target_vel current_vel acc_lim
                    start_mx start_my goal_mx goal_my
                  = some (angularUpdate (anyLethal getCost line) cfg target_vel current_vel
                      acc_lim)) := by
  have hscan : ∀ line : List (Int × Int),
      scanLine getCost line false = anyLethal getCost line := by
    intro line
    by_cases h : ∃ p ∈ line, getCost p.1.toNat p.2.toNat = LETHAL_OBSTACLE
    · rw [scanLine_true getCost line h false, (anyLethal_eq_true_iff getCost line).mpr h]
    · have h' : ∀ p ∈ line, getCost p.1.toNat p.2.toNat ≠ LETHAL_OBSTACLE := by
        intro p hp hpl
        exact h ⟨p, hp, hpl⟩
      rw [scanLine_false getCost line h']
      cases hany : anyLethal getCost line with
      | false => rfl
      | true => exact absurd ((anyLethal_eq_true_iff getCost line).mp hany) h
  refine ⟨hscan, ?_, ?_⟩
  · intro before after p hp
    exact scanLine_true getCost _ ⟨p, by simp, hp⟩ false
  · intro fuel start_mx start_my goal_mx goal_my hfuel
    obtain ⟨line, hline, -⟩ := bresenhamLine_spec start_mx start_my goal_mx goal_my fuel hfuel
    refine ⟨line, hline, fun cfg target_vel current_vel acc_lim => ?_⟩
    rw [computeNewAngularVelocities_eq fuel getCost cfg target_vel current_vel acc_lim
      start_mx start_my goal_mx goal_my line hline, hscan line]

/-- Claim C13 (amended): when the rasterized line between the two cells holds no lethal cell,
`computeNewAngularVelocities` scales the whole acceleration-limited value by `1.5`: writing `s`
for the plain approach-and-clamp result, it returns `r = 1.5 · s`, that is
`r - current = 1.5 · (s - current) + 0.5 · current`, for every target, current, `acc_lim` and
`T`, once the fuel covers the line. -/
theorem computeNewAngularVelocities_clear_line (fuel : Nat) (getCost : Nat → Nat → Nat)
    (cfg : Config α) (target_vel current_vel acc_lim : α)
    (start_mx start_my goal_mx goal_my : Nat)
    (hfuel : lookaheadFuel ((start_mx, start_my), (goal_mx, goal_my)) ≤ fuel)
    (hclear : ∀ line, bresenhamLine fuel start_mx start_my goal_mx goal_my = some line →
      ∀ p ∈ line, getCost p.1.toNat p.2.toNat ≠ LETHAL_OBSTACLE) :
    ∃ r : α,
      computeNewAngularVelocities fuel getCost cfg target_vel current_vel acc_lim start_mx
          start_my goal_mx goal_my = some r
      ∧ r = (if target_vel < current_vel then
              max target_vel (current_vel - acc_lim * cfg.control_period)
            else min target_vel (current_vel + acc_lim * cfg.control_period)) * (15 / 10)
      ∧ r - current_vel
        = 15 / 10 * ((if target_vel < current_vel then
              max target_vel (current_vel - acc_lim * cfg.control_period)
            else min target_vel (current_vel + acc_lim * cfg.control_period)) - current_vel)
          + 5 / 10 * current_vel := by
  obtain ⟨line, hline, -⟩ := bresenhamLine_spec start_mx start_my goal_mx goal_my fuel hfuel
  refine ⟨_, computeNewAngularVelocities_eq fuel getCost cfg target_vel current_vel acc_lim
    start_mx start_my goal_mx goal_my line hline, ?_, ?_⟩
  · rw [scanLine_false getCost line (hclear line hline)]
    unfold angularUpdate
    simp only [Bool.false_eq_true, if_false]
    split_ifs <;> rfl
  · rw [scanLine_false getCost line (hclear line hline)]
    unfold angularUpdate
    simp only [Bool.false_eq_true, if_false]
    split_ifs <;> ring

/-- Claim C13 (amended), at the default acceleration limit and period over a free grid, from
the cell `(0, 0)` to the cell `(3, 1)`, with target `1` and current velocity `1`. -/
theorem computeNewAngularVelocities_clear_line_witness :
    ((0 : ℚ) < (defaultConfig ℚ).acc_lim_theta ∧ (0 : ℚ) < (defaultConfig ℚ).control_period)
      ∧ ∃ r : ℚ,
        computeNewAngularVelocities 4 (fun _ _ => 0) (defaultConfig ℚ) 1 1
            (defaultConfig ℚ).acc_lim_theta 0 0 3 1 = some r
        ∧ r = (if (1 : ℚ) < 1 then
                max 1 (1 - (defaultConfig ℚ).acc_lim_theta * (defaultConfig ℚ).control_period)
              else min 1 (1 + (defaultConfig ℚ).acc_lim_theta * (defaultConfig ℚ).control_period))
            * (15 / 10)
        ∧ r - 1
          = 15 / 10 * ((if (1 : ℚ) < 1 then
                max 1 (1 - (defaultConfig ℚ).acc_lim_theta * (defaultConfig ℚ).control_period)
              else min 1 (1 + (defaultConfig ℚ).acc_lim_theta * (defaultConfig ℚ).control_period))
              - 1)
            + 5 / 10 * 1 :=
  ⟨⟨by norm_num [defaultConfig], by norm_num [defaultConfig]⟩,
    computeNewAngularVelocities_clear_line 4 (fun _ _ => 0) (defaultConfig ℚ) 1 1
      (defaultConfig ℚ).acc_lim_theta 0 0 3 1 (by decide)
      (fun _ _ _ _ => by show (0 : Nat) ≠ LETHAL_OBSTACLE; decide)⟩

/-- Claim C13 as stated fails: over a free grid, with target `1` and current velocity `1` (and
the default `acc_lim_theta = 1.2`, `T = 0.2`), the plain approach-and-clamp result is `s = 1`, so
`1.5 · (s - current) = 0`, but `computeNewAngularVelocities` returns `1.5`, and
`r - current = 0.5`. -/
theorem computeNewAngularVelocities_scales_value :
    computeNewAngularVelocities 1 (fun _ _ => 0) (defaultConfig ℚ) 1 1
        (defaultConfig ℚ).acc_lim_theta 0 0 0 0 = some (3 / 2)
      ∧ (if (1 : ℚ) < 1 then
            max 1 (1 - (defaultConfig ℚ).acc_lim_theta * (defaultConfig ℚ).control_period)
          else min 1 (1 + (defaultConfig ℚ).acc_lim_theta * (defaultConfig ℚ).control_period))
        = 1
      ∧ (3 / 2 : ℚ) - 1 ≠ 15 / 10 * (1 - 1) := by
  refine ⟨?_, by norm_num [defaultConfig], by norm_num⟩
  have hline : bresenhamLine 1 ((0 : Nat) : Int) ((0 : Nat) : Int) ((0 : Nat) : Int)
      ((0 : Nat) : Int) = some [(0, 0)] := by
    simp [bresenhamLine, bresenhamLoop]
  rw [computeNewAngularVelocities_eq 1 (fun _ _ => 0) (defaultConfig ℚ) 1 1 _ 0 0 0 0 _ hline]
  norm_num [angularUpdate, scanLine, LETHAL_OBSTACLE, FREE_SPACE, defaultConfig]

/-! ## PathPruner -/

/-- Claim C12: `cutGlobalPlan` returns a prefix of the path, namely the waypoints that precede
the first waypoint whose offset from the robot exceeds half the grid extent in both axes: every
waypoint kept fails that test (it may exceed the window in one axis), and the first waypoint
left out, when there is one, passes it.  So the whole path is returned when no waypoint passes
the test and the empty sequence when the first one does. -/
theorem cutGlobalPlan_keeps_until_beyond (global_plan : List (α × α)) (size_x size_y : Int)
    (robot_pose_x robot_pose_y : α) :
    ∃ rest : List (α × α),
      global_plan = cutGlobalPlan global_plan size_x size_y robot_pose_x robot_pose_y ++ rest
      ∧ (∀ p ∈ cutGlobalPlan global_plan size_x size_y robot_pose_x robot_pose_y,
          ¬ (|p.1 - robot_pose_x| > (size_x : α) / 2 ∧ |p.2 - robot_pose_y| > (size_y : α) / 2))
      ∧ (∀ p, rest.head? = some p →
          |p.1 - robot_pose_x| > (size_x : α) / 2 ∧ |p.2 - robot_pose_y| > (size_y : α) / 2)
      ∧ ((∀ p ∈ global_plan,
            ¬ (|p.1 - robot_pose_x| > (size_x : α) / 2 ∧ |p.2 - robot_pose_y| > (size_y : α) / 2)) →
          cutGlobalPlan global_plan size_x size_y robot_pose_x robot_pose_y = global_plan)
      ∧ (∀ p, global_plan.head? = some p →
          (|p.1 - robot_pose_x| > (size_x : α) / 2 ∧ |p.2 - robot_pose_y| > (size_y : α) / 2) →
          cutGlobalPlan global_plan size_x size_y robot_pose_x robot_pose_y = []) := by
  induction global_plan with
  | nil =>
    refine ⟨[], rfl, ?_, ?_, fun _ => rfl, fun _ _ _ => rfl⟩
    · intro p hp; simp [cutGlobalPlan] at hp
    · intro p hp; simp at hp
  | cons q tail ih =>
    obtain ⟨rest, hsplit, hkept, hfirst, -, -⟩ := ih
    by_cases hq : |q.1 - robot_pose_x| > (size_x : α) / 2
        ∧ |q.2 - robot_pose_y| > (size_y : α) / 2
    · have hcut : cutGlobalPlan (q :: tail) size_x size_y robot_pose_x robot_pose_y = [] := by
        unfold cutGlobalPlan
        rw [if_pos hq]
      rw [hcut]
      refine ⟨q :: tail, rfl, ?_, ?_, ?_, fun _ _ _ => rfl⟩
      · intro p hp; simp at hp
      · intro p hp
        simp only [List.head?_cons, Option.some.injEq] at hp
        rw [← hp]; exact hq
      · intro hall
        exact absurd hq (hall q (List.mem_cons_self _ _))
    · have hcut : cutGlobalPlan (q :: tail) size_x size_y robot_pose_x robot_pose_y
          = q :: cutGlobalPlan tail size_x size_y robot_pose_x robot_pose_y := by
        conv_lhs => unfold cutGlobalPlan
        rw [if_neg hq]
      rw [hcut]
      refine ⟨rest, by rw [List.cons_append, ← hsplit], ?_, hfirst, ?_, ?_⟩
      · intro p hp
        rcases List.mem_cons.mp hp with rfl | hp
        · exact hq
        · exact hkept p hp
      · intro hall
        rw [← hcut]
        exact cutGlobalPlan_eq_self size_x size_y robot_pose_x robot_pose_y (q :: tail) hall
      · intro p hp hbeyond
        simp only [List.head?_cons, Option.some.injEq] at hp
        rw [← hp] at hbeyond
        exact absurd hbeyond hq

/-! ## Grid conversion -/

/-- Claim C18 (amended): for every world coordinate, origin and resolution `> 0`, `worldToMap`
computes the scaled offset `(w - origin)/resolution` rounded toward zero: its floor when the
world coordinate is at or above the origin, its ceiling when it is below. -/
theorem worldToMap_rounds_toward_zero [FloorRing α] (wx wy resolution origin_x origin_y : α)
    (hres : 0 < resolution) :
    (origin_x ≤ wx →
        (worldToMap wx wy resolution origin_x origin_y).1 = ⌊(wx - origin_x) / resolution⌋)
      ∧ (wx < origin_x →
        (worldToMap wx wy resolution origin_x origin_y).1 = ⌈(wx - origin_x) / resolution⌉)
      ∧ (origin_y ≤ wy →
        (worldToMap wx wy resolution origin_x origin_y).2 = ⌊(wy - origin_y) / resolution⌋)
      ∧ (wy < origin_y →
        (worldToMap wx wy resolution origin_x origin_y).2 = ⌈(wy - origin_y) / resolution⌉) := by
  unfold worldToMap truncToInt
  refine ⟨fun h => ?_, fun h => ?_, fun h => ?_, fun h => ?_⟩
  · simp only []
    rw [if_pos (div_nonneg (sub_nonneg.mpr h) hres.le)]
  · simp only []
    rw [if_neg (not_le.mpr (div_neg_of_neg_of_pos (sub_neg.mpr h) hres))]
  · simp only []
    rw [if_pos (div_nonneg (sub_nonneg.mpr h) hres.le)]
  · simp only []
    rw [if_neg (not_le.mpr (div_neg_of_neg_of_pos (sub_neg.mpr h) hres))]

/-- Claim C18 (amended), at the origin `(0, 0)` with resolution `1/2`: the world point
`(7/4, -7/4)` is mapped to the cell `(3, -3)`, the floor of `7/2` and the ceiling of `-7/2`. -/
theorem worldToMap_rounds_toward_zero_witness :
    (0 : ℚ) < 1 / 2
      ∧ worldToMap (7 / 4 : ℚ) (-(7 / 4)) (1 / 2) 0 0 = (3, -3)
      ∧ ((0 : ℚ) ≤ 7 / 4 →
          (worldToMap (7 / 4 : ℚ) (-(7 / 4)) (1 / 2) 0 0).1 = ⌊((7 / 4 : ℚ) - 0) / (1 / 2)⌋)
      ∧ (-(7 / 4 : ℚ) < 0 →
          (worldToMap (7 / 4 : ℚ) (-(7 / 4)) (1 / 2) 0 0).2
            = ⌈(-(7 / 4 : ℚ) - 0) / (1 / 2)⌉) := by
  have h := worldToMap_rounds_toward_zero (7 / 4 : ℚ) (-(7 / 4)) (1 / 2) 0 0 (by norm_num)
  refine ⟨by norm_num, ?_, h.1, h.2.2.2⟩
  have h1 := h.1 (by norm_num)
  have h2 := h.2.2.2 (by norm_num)
  have e1 : ⌊((7 / 4 : ℚ) - 0) / (1 / 2)⌋ = 3 := by
    rw [Int.floor_eq_iff]; constructor <;> norm_num
  have e2 : ⌈(-(7 / 4 : ℚ) - 0) / (1 / 2)⌉ = -3 := by
    rw [Int.ceil_eq_iff]; constructor <;> norm_num
  exact Prod.ext (h1.trans e1) (h2.trans e2)

/-- Claim C18 as stated fails: with origin `0` and resolution `1` the world coordinate `-1/2`,
below the origin, is mapped to the cell `0`, while the floor of the scaled offset is `-1`. -/
theorem worldToMap_negative_offset :
    worldToMap (-(1 / 2) : ℚ) (-(1 / 2)) 1 0 0 = (0, 0)
      ∧ ⌊((-(1 / 2) : ℚ) - 0) / 1⌋ = -1 := by
  have e1 : ⌈((-(1 / 2) : ℚ) - 0) / 1⌉ = 0 := by
    rw [Int.ceil_eq_iff]; constructor <;> norm_num
  have e2 : ⌊((-(1 / 2) : ℚ) - 0) / 1⌋ = -1 := by
    rw [Int.floor_eq_iff]; constructor <;> norm_num
  refine ⟨?_, e2⟩
  have hneg : ¬ (0 : ℚ) ≤ (-(1 / 2) - 0) / 1 := by norm_num
  unfold worldToMap truncToInt
  rw [if_neg hneg, e1]

/-! ## TrajectoryRollout -/

theorem sampleInner_no_exit (v max_vel_theta step : α) (hstep : step ≤ 0) :
    ∀ (fuel : Nat) (w : α), w ≤ max_vel_theta →
      (sampleInner v max_vel_theta step fuel w).2 = false := by
  intro fuel
  induction fuel with
  | zero => intro w _; rfl
  | succ f ih =>
    intro w hw
    unfold sampleInner
    simp only [hw, if_true]
    exact ih (w + step) (by linarith)

theorem sampleOuter_no_exit (fuel : Nat)
    (max_vel_x step_x min_vel_theta max_vel_theta step_theta : α) (hstep : step_x ≤ 0) :
    ∀ (n : Nat) (v : α), v ≤ max_vel_x →
      (sampleOuter fuel max_vel_x step_x min_vel_theta max_vel_theta step_theta n v).2
        = false := by
  intro n
  induction n with
  | zero => intro v _; rfl
  | succ n ih =>
    intro v hv
    unfold sampleOuter
    simp only [hv, if_true]
    split_ifs
    · exact ih (v + step_x) (by linarith)
    · rfl

/-- The candidates `samplePotentialVels` returns lie in the clamped window: the loops are only
left when the steps are positive. -/
theorem samplePotentialVels_returned_in_window (fuel : Nat) (cfg : Config α)
    (robot_vel_x robot_vel_theta : α) (flag : Bool) (sample_vels : List (α × α))
    (hres : samplePotentialVels fuel cfg robot_vel_x robot_vel_theta = some (flag, sample_vels)) :
    ∀ c ∈ sample_vels,
      (windowMinX cfg robot_vel_x ≤ c.1 ∧ c.1 ≤ windowMaxX cfg robot_vel_x)
        ∧ windowMinTheta cfg robot_vel_theta ≤ c.2 ∧ c.2 ≤ windowMaxTheta cfg robot_vel_theta := by
  unfold samplePotentialVels at hres
  simp only [] at hres
  split_ifs at hres with hexit
  simp only [Option.some.injEq, Prod.mk.injEq] at hres
  obtain ⟨-, hlist⟩ := hres
  rw [← hlist]
  unfold sampleTrace at hexit ⊢
  simp only [] at hexit ⊢
  cases fuel with
  | zero => simp [sampleOuter] at hexit
  | succ f =>
    by_cases hx : windowMinX cfg robot_vel_x ≤ windowMaxX cfg robot_vel_x
    · have hstepx : 0 ≤ (windowMaxX cfg robot_vel_x - windowMinX cfg robot_vel_x)
          / (cfg.vx_samples : α) := by
        by_contra hneg
        have := sampleOuter_no_exit (f + 1) (windowMaxX cfg robot_vel_x) _
          (windowMinTheta cfg robot_vel_theta) (windowMaxTheta cfg robot_vel_theta)
          ((windowMaxTheta cfg robot_vel_theta - windowMinTheta cfg robot_vel_theta)
            / (cfg.vth_samples : α)) (not_le.mp hneg).le (f + 1) _ hx
        rw [this] at hexit
        exact Bool.false_ne_true hexit
      have hinner : (sampleInner (windowMinX cfg robot_vel_x) (windowMaxTheta cfg robot_vel_theta)
          ((windowMaxTheta cfg robot_vel_theta - windowMinTheta cfg robot_vel_theta)
            / (cfg.vth_samples : α)) (f + 1) (windowMinTheta cfg robot_vel_theta)).2 = true := by
        by_contra hno
        unfold sampleOuter at hexit
        simp only [hx, if_true, hno, if_false] at hexit
        exact Bool.false_ne_true hexit
      have hsteptheta : windowMinTheta cfg robot_vel_theta ≤ windowMaxTheta cfg robot_vel_theta →
          0 ≤ (windowMaxTheta cfg robot_vel_theta - windowMinTheta cfg robot_vel_theta)
            / (cfg.vth_samples : α) := by
        intro ht
        by_contra hneg
        have := sampleInner_no_exit (windowMinX cfg robot_vel_x)
          (windowMaxTheta cfg robot_vel_theta) _ (not_le.mp hneg).le (f + 1) _ ht
        rw [this] at hinner
        exact Bool.false_ne_true hinner
      intro c hc
      exact sampleOuter_mem (f + 1) _ _ _ _ _ _ (fun _ => hstepx) hsteptheta (f + 1) _ le_rfl c hc
    · intro c hc
      unfold sampleOuter at hc
      simp [hx] at hc

/-- The relation between a pose and its successor under one step at linear velocity `v`. -/
theorem rolloutPoses_chain (m : Cmath α) (cfg : Config α) (obstacle_found : Bool) (v w : α)
    (hvv : computeNewLinearVelocities cfg v v cfg.acc_lim_x = v) :
    ∀ (n : Nat) (pose : Pose α) (vel_x vel_theta : α),
      computeNewLinearVelocities cfg v vel_x cfg.acc_lim_x = v →
      List.Chain (fun p q : Pose α => q.x = p.x + v * m.cos p.theta * cfg.control_period
          ∧ q.y = p.y + v * m.sin p.theta * cfg.control_period) pose
        (rolloutPoses m cfg obstacle_found v w n pose vel_x vel_theta) := by
  intro n
  induction n with
  | zero => intro _ _ _ _; exact List.Chain.nil
  | succ n ih =>
    intro pose vel_x vel_theta h1
    unfold rolloutPoses
    simp only [h1]
    exact List.Chain.cons ⟨rfl, rfl⟩ (ih _ _ _ hvv)

/-- Claim C20: for every candidate `(v, ω)` that `samplePotentialVels` returns for the current
velocity `(robot_vel_x, robot_vel_theta)`, with `acc_lim_x ≥ 0` and `control_period ≥ 0`,
`computeNewLinearVelocities(v, robot_vel_x, acc_lim_x) = v`,
`computeNewLinearVelocities(v, v, acc_lim_x) = v`, and in the trajectory `generateTrajectory`
produces for that candidate (from any start pose, on any plan and grid, with fuel for the
lookahead line) every pose is its predecessor advanced by `v·cos(θ)·T`, `v·sin(θ)·T`, the first
one from the start pose. -/
theorem candidate_linear_velocity_exact (fuel : Nat) (cfg : Config α)
    (robot_vel_x robot_vel_theta : α) (flag : Bool) (sample_vels : List (α × α))
    (hres : samplePotentialVels fuel cfg robot_vel_x robot_vel_theta = some (flag, sample_vels))
    (hacc : 0 ≤ cfg.acc_lim_x) (hT : 0 ≤ cfg.control_period)
    (c : α × α) (hc : c ∈ sample_vels) :
    computeNewLinearVelocities cfg c.1 robot_vel_x cfg.acc_lim_x = c.1
      ∧ computeNewLinearVelocities cfg c.1 c.1 cfg.acc_lim_x = c.1
      ∧ (∀ (fuel2 : Nat) (h : Host α) (robot_pose_x robot_pose_y robot_pose_theta : α)
          (transformed_plan : List (α × α)) (hplan : transformed_plan ≠ []),
          lookaheadFuel (lookaheadCells h (transformed_plan.getLast hplan)) ≤ fuel2 →
          ∃ traj : List (Pose α),
            generateTrajectory fuel2 h cfg robot_vel_x robot_vel_theta robot_pose_x robot_pose_y
                robot_pose_theta c.1 c.2 [] transformed_plan = some traj
            ∧ List.Chain (fun p q : Pose α =>
                  q.x = p.x + c.1 * h.math.cos p.theta * cfg.control_period
                    ∧ q.y = p.y + c.1 * h.math.sin p.theta * cfg.control_period)
                ⟨robot_pose_x, robot_pose_y, robot_pose_theta⟩ traj) := by
  have hstep : 0 ≤ cfg.acc_lim_x * cfg.control_period := mul_nonneg hacc hT
  obtain ⟨⟨h1, h2⟩, -⟩ :=
    samplePotentialVels_returned_in_window fuel cfg robot_vel_x robot_vel_theta flag sample_vels
      hres c hc
  have hlo : robot_vel_x - cfg.acc_lim_x * cfg.control_period ≤ c.1 :=
    (le_max_right _ _).trans h1
  have hhi : c.1 ≤ robot_vel_x + cfg.acc_lim_x * cfg.control_period :=
    h2.trans (min_le_right _ _)
  have hfirst : computeNewLinearVelocities cfg c.1 robot_vel_x cfg.acc_lim_x = c.1 := by
    unfold computeNewLinearVelocities
    split_ifs
    · exact max_eq_left hlo
    · exact min_eq_left hhi
  have hlater : computeNewLinearVelocities cfg c.1 c.1 cfg.acc_lim_x = c.1 := by
    unfold computeNewLinearVelocities
    rw [if_neg (lt_irrefl _), min_eq_left (by linarith)]
  refine ⟨hfirst, hlater, ?_⟩
  intro fuel2 h robot_pose_x robot_pose_y robot_pose_theta transformed_plan hplan hfuel
  obtain ⟨line, -, hgen⟩ := generateTrajectory_eq fuel2 h cfg robot_vel_x robot_vel_theta
    robot_pose_x robot_pose_y robot_pose_theta c.1 c.2 [] transformed_plan hplan hfuel
  rw [List.nil_append] at hgen
  exact ⟨_, hgen, rolloutPoses_chain h.math cfg _ c.1 c.2 hlater _ _ _ _ hfirst⟩

/-- Claim C20, in the default configuration with the robot at rest, for the candidate
`(0.05, 0)`. -/
theorem candidate_linear_velocity_exact_witness :
    samplePotentialVels 22 (defaultConfig ℚ) 0 0
        = some (true, sampleGrid 11 21 0 (1 / 200) (-(6 / 25)) (3 / 125))
      ∧ ((1 / 20 : ℚ), (0 : ℚ)) ∈ sampleGrid 11 21 (0 : ℚ) (1 / 200) (-(6 / 25)) (3 / 125)
      ∧ computeNewLinearVelocities (defaultConfig ℚ) (1 / 20) 0 (defaultConfig ℚ).acc_lim_x
          = 1 / 20
      ∧ computeNewLinearVelocities (defaultConfig ℚ) (1 / 20) (1 / 20)
          (defaultConfig ℚ).acc_lim_x = 1 / 20 :=
  have h := candidate_linear_velocity_exact 22 (defaultConfig ℚ) 0 0 true
    (sampleGrid 11 21 0 (1 / 200) (-(6 / 25)) (3 / 125))
    (defaultConfig_candidates 22 (le_refl 22)) (by norm_num [defaultConfig])
    (by norm_num [defaultConfig]) ((1 / 20 : ℚ), (0 : ℚ)) defaultConfig_best_mem
  ⟨defaultConfig_candidates 22 (le_refl 22), defaultConfig_best_mem, h.1, h.2.1⟩

end Contracts

section RealScenarios

/-! ## Scenarios over the reals -/

/-- Claim C14, the code at the failing input: a grid of `100 × 100` cells with origin `(0, 0)` and
resolution `1`, and a trajectory whose only pose is at `x = 100`, just past the last column.
`worldToMap` gives the cell `(100, 0)`, not below `size_x = 100`, and `scoreTrajectory` reads the
array there without a check: two arrays that agree on every cell of the grid and differ at
`(100, 0)` are scored differently (`0` and `2`). -/
theorem scoreTrajectory_reads_outside_grid :
    worldToMap (100 : ℝ) 0 1 0 0 = (100, 0)
      ∧ ¬ ((100 : Int) < 100)
      ∧ (∀ i j : Int, 0 ≤ i ∧ i < 100 ∧ 0 ≤ j ∧ j < 100 →
          (fun _ _ => 0 : Int → Int → Nat) i j
            = (fun i j => if 0 ≤ i ∧ i < 100 ∧ 0 ≤ j ∧ j < 100 then 0 else 200) i j)
      ∧ scoreTrajectory ⟨Real.cos, Real.sin, Real.sqrt⟩ (defaultConfig ℝ) [⟨100, 0, 0⟩] 100 100
          1 0 0 [(100, 0)] (fun _ _ => 0) = some 0
      ∧ scoreTrajectory ⟨Real.cos, Real.sin, Real.sqrt⟩ (defaultConfig ℝ) [⟨100, 0, 0⟩] 100 100
          1 0 0 [(100, 0)]
          (fun i j => if 0 ≤ i ∧ i < 100 ∧ 0 ≤ j ∧ j < 100 then 0 else 200) = some 2 := by
  have hcell : worldToMap (100 : ℝ) 0 1 0 0 = (100, 0) := by
    unfold worldToMap truncToInt
    norm_num
  have hd : planarDist ⟨Real.cos, Real.sin, Real.sqrt⟩ (100 : ℝ) 0 100 0 = 0 := by
    rw [planarDist_real_axis]; norm_num
  refine ⟨hcell, by decide, ?_, ?_, ?_⟩
  · intro i j hij
    simp only [hij, and_self, if_true]
  · rw [scoreTrajectory_eq _ _ _ _ _ _ _ _ _ _ (by simp) (by simp)]
    simp only [List.getLast_singleton, dis2pathLoop, hd, occupyLoop, hcell]
    norm_num [bigScore, defaultConfig]
  · rw [scoreTrajectory_eq _ _ _ _ _ _ _ _ _ _ (by simp) (by simp)]
    simp only [List.getLast_singleton, dis2pathLoop, hd, occupyLoop, hcell]
    norm_num [bigScore, defaultConfig]

/-- Claim C19, the code at the failing input: the default configuration with
`sim_time_samples = 0`, the robot at rest at `(0, 0, 0)`, goal `(5, 0)`, every cell free and no
collision.  Every rollout is the empty trajectory, `isPathFeasible` returns `true` on it (its
loop runs from `0` to `size() - 1 = -1`), so the first candidate's empty trajectory is handed to
`scoreTrajectory`, which reads `back()` of an empty vector: the call has no defined result. -/
theorem computeVelocityCommands_scores_empty_trajectory :
    isPathFeasible (fun _ _ _ => (0 : ℝ)) [] = true
      ∧ (∀ v w : ℝ, generateTrajectory 22
            ⟨⟨Real.cos, Real.sin, Real.sqrt⟩, fun _ _ _ => 0, fun _ _ => 0,
              fun wx wy => some (⌊wx + 50⌋₊, ⌊wy + 50⌋₊), (0, 0), (0, 0), (0, 0)⟩
            { defaultConfig ℝ with sim_time_samples := 0 } 0 0 0 0 0 v w [] [(5, 0)]
          = some [])
      ∧ (∀ v w : ℝ, evalCandidate 22
            ⟨⟨Real.cos, Real.sin, Real.sqrt⟩, fun _ _ _ => 0, fun _ _ => 0,
              fun wx wy => some (⌊wx + 50⌋₊, ⌊wy + 50⌋₊), (0, 0), (0, 0), (0, 0)⟩
            { defaultConfig ℝ with sim_time_samples := 0 } 0 0 0 0 0 [(5, 0)] (fun _ _ => 0)
            100 100 1 (-50) (-50) [(5, 0)] (v, w)
          = none)
      ∧ computeVelocityCommands 22
          ⟨⟨Real.cos, Real.sin, Real.sqrt⟩, fun _ _ _ => 0, fun _ _ => 0,
            fun wx wy => some (⌊wx + 50⌋₊, ⌊wy + 50⌋₊), (0, 0), (0, 0), (0, 0)⟩
          { defaultConfig ℝ with sim_time_samples := 0 } 0 0 0 0 0 [(5, 0)] (fun _ _ => 0)
          100 100 1 (-50) (-50) 0 0 [(5, 0)]
        = none := by
  have hgen : ∀ v w : ℝ, generateTrajectory 22
      (⟨⟨Real.cos, Real.sin, Real.sqrt⟩, fun _ _ _ => 0, fun _ _ => 0,
        fun wx wy => some (⌊wx + 50⌋₊, ⌊wy + 50⌋₊), (0, 0), (0, 0), (0, 0)⟩ : Host ℝ)
      { defaultConfig ℝ with sim_time_samples := 0 } 0 0 0 0 0 v w [] [(5, 0)] = some [] := by
    intro v w
    obtain ⟨line, -, hg⟩ := generateTrajectory_eq 22
      (⟨⟨Real.cos, Real.sin, Real.sqrt⟩, fun _ _ _ => 0, fun _ _ => 0,
        fun wx wy => some (⌊wx + 50⌋₊, ⌊wy + 50⌋₊), (0, 0), (0, 0), (0, 0)⟩ : Host ℝ)
      { defaultConfig ℝ with sim_time_samples := 0 } 0 0 0 0 0 v w [] [(5, 0)] (by simp)
      (by rw [lookaheadFuel_local_grid]; decide)
    rw [hg]
    rfl
  have heval : ∀ v w : ℝ, evalCandidate 22
      (⟨⟨Real.cos, Real.sin, Real.sqrt⟩, fun _ _ _ => 0, fun _ _ => 0,
        fun wx wy => some (⌊wx + 50⌋₊, ⌊wy + 50⌋₊), (0, 0), (0, 0), (0, 0)⟩ : Host ℝ)
      { defaultConfig ℝ with sim_time_samples := 0 } 0 0 0 0 0 [(5, 0)] (fun _ _ => 0)
      100 100 1 (-50) (-50) [(5, 0)] (v, w) = none := by
    intro v w
    unfold evalCandidate
    rw [hgen]
    rfl
  refine ⟨rfl, hgen, heval, ?_⟩
  have hsample : samplePotentialVels 22 { defaultConfig ℝ with sim_time_samples := 0 } 0 0
      = some (true, sampleGrid 11 21 0 (1 / 200) (-(6 / 25)) (3 / 125)) :=
    defaultConfig_candidates 22 (le_refl 22)
  have hcut : cutGlobalPlan [((5 : ℝ), (0 : ℝ))] 100 100 0 0 = [(5, 0)] := by
    norm_num [cutGlobalPlan]
  obtain ⟨c, rest, hgrid⟩ : ∃ c rest,
      sampleGrid 11 21 (0 : ℝ) (1 / 200) (-(6 / 25)) (3 / 125) = c :: rest := by
    cases hl : sampleGrid 11 21 (0 : ℝ) (1 / 200) (-(6 / 25)) (3 / 125) with
    | nil =>
      have := @defaultConfig_best_mem ℝ _
      rw [hl] at this
      simp at this
    | cons c rest => exact ⟨c, rest, rfl⟩
  unfold computeVelocityCommands
  rw [hsample]
  simp only [hcut]
  rw [hgrid, selectLoop_cons, heval c.1 c.2]
  rfl

end RealScenarios

end DWAPlanner
